import Mathlib

/-!
# Synchronisation primitives of kern/thread/synch.c and the problems built on them

A shallow embedding of the reader/writer lock (rwlock_create, rwlock_acquire_read,
rwlock_acquire_write, rwlock_release_read, rwlock_release_write and their helpers
reader_q_insert, reader_q_remove, request_q_insert, digits, get_req_names), of the
semaphore (P, V), of the mutex (lock_acquire, lock_release, lock_do_i_hold, lock_destroy),
of the condition variable (cv_wait, loose_cv_wait, cv_signal, cv_broadcast), of the
stoplight problem (stoplight_init, turnright, gostraight, turnleft, direction_cycle_wait,
direction_cycle_signal), of whalemating (male, female, matchmaker) and of the test
reporter of common/libtest161 (success, secprintf).

Conventions of the embedding.

* A nullable pointer is an `Option`; `none` is NULL.  A thread is identified by the value
  of its `struct thread *`, which is never NULL where the code uses `curthread`.
* `unsigned` fields are natural numbers below `2 ^ 32`; `++` and `--` wrap.
* A `KASSERT` that fails and a `panic` stop the kernel; so does a load or store through
  NULL.  An operation reports which of the two happened together with the fields of the
  lock at that moment.
* The body of each rwlock operation runs between `lock_acquire(rwlock->lock)` and the
  `lock_release(rwlock->lock)` that precedes its return or its sleep, so one call is one
  atomic transition of the fields of `struct rwlock`; the guard mutex itself is free
  before and after every transition and is not a field of the model.  The same holds for
  the mutex of a queue entry: whoever takes it gives it up (`lock_release`,
  `loose_cv_wait`) before the call ends.
* The request queue (`req_head`, `req_tail`, `request.next`) is the list of its entries
  from head to tail: `req_head == NULL` and `req_tail == NULL` both mean the empty list,
  `req_tail` is the last entry, `req_head == req_tail` a list of length one.
* The nodes of a reader set are the list reached from `rq->head` through `->next`.  The
  field `rq->tail` is kept as an address of its own, because `reader_q_remove` does not
  always update it.  What is stored in nodes that are not reachable from `head` is not
  represented: the code never reads it, and a store through a stale `rq->tail` into such
  a node is taken to change nothing else (the freed node has not been handed out again).
* `kmalloc`, `cv_create` and `lock_create` may fail; their results for one call are an
  input of the operation (`allocs`).
-/

namespace Synch

/-- Identity of a kernel thread: the value of its `struct thread *`. -/
abbrev thread := Nat

/-- Number of values of an `unsigned` (and of a pointer) on the 32-bit machine. -/
def UINT_RANGE : Nat := 4294967296

/-- The operation `x++` on an `unsigned`. -/
def uinc (x : Nat) : Nat := (x + 1) % UINT_RANGE

/-- The operation `x--` on an `unsigned`. -/
def udec (x : Nat) : Nat := (x + UINT_RANGE - 1) % UINT_RANGE

/-- Request status of synch.h: `typedef enum status { FREE, READ, WRITE } status_t`. -/
inductive status_t where
  | FREE
  | READ
  | WRITE
deriving DecidableEq

open status_t

/-- One `struct thread_ll`: its own address and the thread it records.  The `next` field
is the following element of the list the node stands in. -/
structure thread_ll where
  addr : Nat
  t : thread
deriving DecidableEq

/-- The `struct reader_q` as synch.c uses it (with the `tail` field that synch.h does not
declare): the nodes linked from `head`, the `tail` pointer and the `size` counter. -/
structure reader_q where
  head : List thread_ll
  tail : Option Nat
  size : Nat
deriving DecidableEq

/-- The `struct request`; `next` is the following element of the queue.  The condition
variable `req_cv` and the mutex `req_cv_lock` are objects of their own, designated here by
the name they were created with. -/
structure request where
  type : status_t
  readers : Option reader_q
  writer : Option thread
  req_cv : List Nat
  req_cv_lock : List Nat
deriving DecidableEq

/-- The `struct rwlock` as synch.c uses it (with the `req_tail` field that synch.h does
not declare).  `reqs` is the queue from `req_head` to `req_tail`. -/
structure rwlock where
  status : status_t
  total_num_writers : Nat
  active_readers : Option reader_q
  active_writer : Option thread
  reqs : List request
  naming_counter : Nat
deriving DecidableEq

/-- Results of the allocations one rwlock call may perform, in the order of the code:
the request record, the two name buffers of get_req_names, cv_create, lock_create, the
`struct reader_q` of reader_q_create (`false` is NULL) and the node of reader_q_insert
(`none` is NULL, otherwise the address returned). -/
structure allocs where
  new_req : Bool
  cv_name : Bool
  lock_name : Bool
  req_cv : Bool
  req_cv_lock : Bool
  rq : Bool
  to_insert : Option Nat
deriving DecidableEq

/-- Every allocation succeeds; the new node gets address `a`. -/
def allocs.all (a : Nat) : allocs :=
  { new_req := true, cv_name := true, lock_name := true, req_cv := true,
    req_cv_lock := true, rq := true, to_insert := some a }

/-- Why the kernel stopped: a failed `KASSERT` or a `panic` call, or an access through a
NULL pointer. -/
inductive crash where
  | panic
  | null_deref
deriving DecidableEq

/-- How a call of an rwlock operation ends: it returns to its caller; or the caller has
released the guard mutex and sleeps in `loose_cv_wait` on the condition variable of its
queue entry; or the kernel stops.  Each carries the fields of the lock at that moment. -/
inductive outcome where
  | returned (s : rwlock)
  | sleeping (s : rwlock)
  | crashed (c : crash) (s : rwlock)
deriving DecidableEq

/-- The lock after a call that did not stop the kernel. -/
def outcome.next : outcome → Option rwlock
  | outcome.returned s => some s
  | outcome.sleeping s => some s
  | outcome.crashed _ _ => none

/-- Function `rwlock_create`, when its three allocations succeed. -/
def rwlock_create : rwlock :=
  { status := FREE, total_num_writers := 0, active_readers := none,
    active_writer := none, reqs := [], naming_counter := 0 }

/-- Function `reader_q_create`; `none` when `KASSERT(rq)` fails. -/
def reader_q_create (ok : Bool) : Option reader_q :=
  if ok then some { head := [], tail := none, size := 0 } else none

/-- Address held by `rq->head` (NULL for the empty list). -/
def reader_q.head_ptr (rq : reader_q) : Option Nat :=
  rq.head.head?.map thread_ll.addr

/-- The store `p->next = n` for the node at address `p`: when that node is linked in
`l`, whatever followed it is replaced by `n`; when it is not (the node was unlinked and
freed by `reader_q_remove`), the nodes linked in `l` are untouched. -/
def set_next : List thread_ll → Nat → thread_ll → List thread_ll
  | [], _, _ => []
  | x :: rest, p, n => if x.addr = p then [x, n] else x :: set_next rest p n

/-- Function `reader_q_insert`; `none` when one of its assertions fails (nothing has been
stored at that point). -/
def reader_q_insert (rq : reader_q) (node : Option Nat) (t_to_insert : thread) :
    Option reader_q :=
  match node with
  | none => none
  | some a =>
    let to_insert : thread_ll := { addr := a, t := t_to_insert }
    if rq.size = 0 ∨ rq.head = [] ∨ rq.tail = none then
      if rq.head = [] ∧ rq.tail = none ∧ rq.size = 0 then
        some { head := [to_insert], tail := some a, size := uinc rq.size }
      else none
    else if rq.size = 1 ∨ rq.head_ptr = rq.tail then
      match rq.head with
      | [] => none
      | h :: _ =>
        if rq.head_ptr = rq.tail ∧ rq.size = 1 then
          some { head := [h, to_insert], tail := some a, size := uinc rq.size }
        else none
    else
      match rq.tail with
      | none => none
      | some p =>
        some { head := set_next rq.head p to_insert, tail := some a, size := uinc rq.size }

/-- The loop of `reader_q_remove` from the second node on: unlink the first node that
records `t`; `none` when the end of the list is reached. -/
def unlink : List thread_ll → thread → Option (List thread_ll)
  | [], _ => none
  | x :: rest, t =>
    if x.t = t then some rest
    else match unlink rest t with
      | none => none
      | some r => some (x :: r)

/-- Function `reader_q_remove`; `none` when an assertion fails or the final `panic` is
reached. -/
def reader_q_remove (rq : reader_q) (t_to_remove : thread) : Option reader_q :=
  match rq.head with
  | [] => none
  | x :: rest =>
    if rq.tail = none then none
    else if rq.size = 0 then none
    else if x.t = t_to_remove then
      some { head := rest, size := udec rq.size,
             tail := if udec rq.size = 0 then none else rq.tail }
    else match unlink rest t_to_remove with
      | none => none
      | some r => some { head := x :: r, size := udec rq.size, tail := rq.tail }

/-- The loop of `digits`, run for at most `fuel` rounds. -/
def digits_loop : Nat → Nat → Nat → Nat
  | 0, _, counter => counter
  | fuel + 1, num, counter =>
    if num = 0 then counter else digits_loop fuel (num / 10) (uinc counter)

/-- Function `digits`.  The loop divides a non-zero `num` by ten each round, so `num`
rounds are enough. -/
def digits (num : Nat) : Nat := digits_loop num num 0

/-- Bytes of the C string "request_cv ". -/
def request_cv_str : List Nat := [114, 101, 113, 117, 101, 115, 116, 95, 99, 118, 32]

/-- Bytes of the C string "request_lock ". -/
def request_lock_str : List Nat :=
  [114, 101, 113, 117, 101, 115, 116, 95, 108, 111, 99, 107, 32]

/-- Function `strcpy` into a buffer: the bytes of `src` and the terminating NUL. -/
def strcpy (dst src : List Nat) : List Nat :=
  (src ++ [0]) ++ dst.drop (src.length + 1)

/-- The `for` loop of `get_req_names`: `k` rounds are left, `i` is the loop variable. -/
def get_req_names_loop :
    Nat → Nat → Nat → Nat → List Nat → List Nat → List Nat × List Nat
  | 0, _, _, _, cv_name, lock_name => (cv_name, lock_name)
  | k + 1, i, length, num, cv_name, lock_name =>
    get_req_names_loop k (i + 1) length (num / 10)
      (cv_name.set (length + 8 + 3 - i - 1) (num % 10 + 48))
      (lock_name.set (length + 8 + 5 - i - 1) (num % 10 + 48))

/-- Function `get_req_names` when both buffers are allocated: the two buffers after the
last store. -/
def get_req_names (num : Nat) : List Nat × List Nat :=
  let length := digits num
  let cv_name := strcpy (List.replicate (length + 8 + 3 + 1) 0) request_cv_str
  let lock_name := strcpy (List.replicate (length + 8 + 5 + 1) 0) request_lock_str
  let r := get_req_names_loop length 0 length num cv_name lock_name
  (r.1.set (length + 8 + 3) 0, r.2.set (length + 8 + 5) 0)

/-- The C string held by a buffer: its bytes before the first NUL (what `kstrdup`
copies). -/
def c_string (buf : List Nat) : List Nat := buf.takeWhile (fun b => b ≠ 0)

/-- Function `rwlock_do_i_hold_writer`. -/
def rwlock_do_i_hold_writer (s : rwlock) (curthread : thread) : Bool :=
  s.active_writer = some curthread

/-- Function `rwlock_do_i_hold_reader`. -/
def rwlock_do_i_hold_reader (s : rwlock) (curthread : thread) : Bool :=
  match s.active_readers with
  | none => false
  | some rq => rq.head.any (fun n => n.t = curthread)

/-- Function `request_q_insert`: it ends asleep in `loose_cv_wait` on the new entry. -/
def request_q_insert (m : allocs) (s : rwlock) (status : status_t) (t : thread) :
    outcome :=
  if m.new_req = false then outcome.crashed crash.panic s
  else
    let s1 := { s with naming_counter := uinc s.naming_counter }
    if m.cv_name = false ∨ m.lock_name = false then outcome.crashed crash.null_deref s1
    else
      let names := get_req_names s1.naming_counter
      if m.req_cv = false then outcome.crashed crash.panic s1
      else if m.req_cv_lock = false then outcome.crashed crash.panic s1
      else
        let req_cv := c_string names.1
        let req_cv_lock := c_string names.2
        match status with
        | READ =>
          match reader_q_create m.rq with
          | none => outcome.crashed crash.panic s1
          | some rq =>
            match reader_q_insert rq m.to_insert t with
            | none => outcome.crashed crash.panic s1
            | some rq1 =>
              let new_req : request :=
                { type := READ, readers := some rq1, writer := none, req_cv := req_cv,
                  req_cv_lock := req_cv_lock }
              outcome.sleeping { s1 with reqs := s1.reqs ++ [new_req] }
        | WRITE =>
          let new_req : request :=
            { type := WRITE, readers := none, writer := some t, req_cv := req_cv,
              req_cv_lock := req_cv_lock }
          outcome.sleeping
            { s1 with total_num_writers := uinc s1.total_num_writers,
                      reqs := s1.reqs ++ [new_req] }
        | FREE => outcome.crashed crash.panic s1

/-- The code of `rwlock_acquire_read` from the label `case WRITE:` on, which the
`case READ:` branch falls into when a writer is known. -/
def rwlock_acquire_read_wait (m : allocs) (s : rwlock) (curthread : thread) : outcome :=
  if ¬ (¬ (s.total_num_writers = 0) ∧ s.status = WRITE) then
    outcome.crashed crash.panic s
  else
    match s.reqs.getLast? with
    | none => outcome.crashed crash.null_deref s
    | some req_tail =>
      if req_tail.type = READ then
        match req_tail.readers with
        | none => outcome.crashed crash.panic s
        | some rq =>
          match reader_q_insert rq m.to_insert curthread with
          | none => outcome.crashed crash.panic s
          | some rq1 =>
            let joined : request := { req_tail with readers := some rq1 }
            outcome.sleeping { s with reqs := s.reqs.dropLast ++ [joined] }
      else if req_tail.type = WRITE then
        request_q_insert m s READ curthread
      else outcome.crashed crash.panic s

/-- Function `rwlock_acquire_read`. -/
def rwlock_acquire_read (m : allocs) (s : rwlock) (curthread : thread) : outcome :=
  if rwlock_do_i_hold_reader s curthread then outcome.crashed crash.panic s
  else
    match s.status with
    | FREE =>
      if s.active_readers.isSome then outcome.crashed crash.panic s
      else if s.active_writer.isSome then outcome.crashed crash.panic s
      else
        let s1 := { s with status := READ }
        match reader_q_create m.rq with
        | none => outcome.crashed crash.panic s1
        | some rq =>
          match reader_q_insert rq m.to_insert curthread with
          | none => outcome.crashed crash.panic { s1 with active_readers := some rq }
          | some rq1 => outcome.returned { s1 with active_readers := some rq1 }
    | READ =>
      if s.total_num_writers = 0 then
        match s.active_readers with
        | none => outcome.crashed crash.panic s
        | some rq =>
          if s.reqs ≠ [] then outcome.crashed crash.panic s
          else if s.active_writer.isSome then outcome.crashed crash.panic s
          else
            match reader_q_insert rq m.to_insert curthread with
            | none => outcome.crashed crash.panic s
            | some rq1 => outcome.returned { s with active_readers := some rq1 }
      else rwlock_acquire_read_wait m s curthread
    | WRITE => rwlock_acquire_read_wait m s curthread

/-- Function `rwlock_acquire_write`. -/
def rwlock_acquire_write (m : allocs) (s : rwlock) (curthread : thread) : outcome :=
  if rwlock_do_i_hold_writer s curthread then outcome.crashed crash.panic s
  else
    match s.status with
    | FREE =>
      if s.active_readers.isSome then outcome.crashed crash.panic s
      else if s.active_writer.isSome then outcome.crashed crash.panic s
      else
        outcome.returned
          { s with status := WRITE, active_writer := some curthread,
                   total_num_writers := uinc s.total_num_writers }
    | READ => request_q_insert m s WRITE curthread
    | WRITE => request_q_insert m s WRITE curthread

/-- Function `rwlock_release_read`. -/
def rwlock_release_read (s : rwlock) (curthread : thread) : outcome :=
  if rwlock_do_i_hold_reader s curthread = false then outcome.crashed crash.panic s
  else if s.status ≠ READ then outcome.crashed crash.panic s
  else
    match s.active_readers with
    | none => outcome.crashed crash.panic s
    | some rq0 =>
      match reader_q_remove rq0 curthread with
      | none => outcome.crashed crash.panic s
      | some rq =>
        let s1 := { s with active_readers := some rq }
        if rq.size ≠ 0 then outcome.returned s1
        else if s1.reqs = [] ∨ s1.total_num_writers = 0 then
          if s1.reqs = [] ∧ s1.total_num_writers = 0 then
            outcome.returned { s1 with status := FREE }
          else outcome.crashed crash.panic s1
        else
          match s1.reqs with
          | [] => outcome.crashed crash.panic s1
          | pending :: rest =>
            let s2 := { s1 with reqs := rest, status := pending.type }
            match pending.type with
            | READ => outcome.returned { s2 with active_readers := pending.readers }
            | WRITE => outcome.returned { s2 with active_writer := pending.writer }
            | FREE => outcome.crashed crash.panic s2

/-- Function `rwlock_release_write`. -/
def rwlock_release_write (s : rwlock) (curthread : thread) : outcome :=
  if rwlock_do_i_hold_writer s curthread = false then outcome.crashed crash.panic s
  else if s.status ≠ WRITE then outcome.crashed crash.panic s
  else
    let s1 := { s with total_num_writers := udec s.total_num_writers,
                       active_writer := none }
    match s1.reqs with
    | [] =>
      if s1.total_num_writers = 0 then outcome.returned { s1 with status := FREE }
      else outcome.crashed crash.panic s1
    | pending :: rest =>
      let s2 := { s1 with reqs := rest, status := pending.type }
      match pending.type with
      | READ => outcome.returned { s2 with active_readers := pending.readers }
      | WRITE => outcome.returned { s2 with active_writer := pending.writer }
      | FREE => outcome.crashed crash.panic s2

/-- The four operations of the lock. -/
inductive rwlock_op where
  | acquire_read
  | acquire_write
  | release_read
  | release_write
deriving DecidableEq

/-- One call of an operation by thread `t`. -/
def rwlock_call (o : rwlock_op) (m : allocs) (s : rwlock) (t : thread) : outcome :=
  match o with
  | rwlock_op.acquire_read => rwlock_acquire_read m s t
  | rwlock_op.acquire_write => rwlock_acquire_write m s t
  | rwlock_op.release_read => rwlock_release_read s t
  | rwlock_op.release_write => rwlock_release_write s t

/-- A thread pointer is a non-NULL 32-bit value. -/
def thread_ok (t : thread) : Prop := 0 < t ∧ t < UINT_RANGE

instance (t : thread) : Decidable (thread_ok t) := by
  unfold thread_ok; infer_instance

/-- Thread `t` sleeps on queue entry `r`: it is the writer of the entry or is linked in
its reader set. -/
def waits_on (r : request) (t : thread) : Bool :=
  decide (r.writer = some t) ||
    (match r.readers with
     | none => false
     | some rq => rq.head.any (fun n => n.t = t))

/-- Thread `t` sleeps on some entry of the request queue. -/
def is_waiting (s : rwlock) (t : thread) : Bool := s.reqs.any (fun r => waits_on r t)

/-- States of a lock after `rwlock_create` and any sequence of calls, by any threads and
with any allocation results, none of which stopped the kernel. -/
inductive Reachable : rwlock → Prop where
  | create : Reachable rwlock_create
  | step (o : rwlock_op) (m : allocs) (t : thread) (s s1 : rwlock) :
      Reachable s → (rwlock_call o m s t).next = some s1 → Reachable s1

/-- The reachable states in which, in addition, every call was made by a thread that is
able to make it: its identity is a thread pointer and it is not asleep on a queue entry
(a thread put to sleep by an acquire runs again only after its entry has been promoted,
that is, removed from the queue). -/
inductive ReachableAwake : rwlock → Prop where
  | create : ReachableAwake rwlock_create
  | step (o : rwlock_op) (m : allocs) (t : thread) (s s1 : rwlock) :
      ReachableAwake s → thread_ok t → is_waiting s t = false →
      (rwlock_call o m s t).next = some s1 → ReachableAwake s1

/-- Threads recorded in the active reader set (those a traversal from its head finds). -/
def active_reader_threads (s : rwlock) : List thread :=
  match s.active_readers with
  | none => []
  | some rq => rq.head.map thread_ll.t

/-- Number of writer-request entries in a queue. -/
def writer_entries (q : List request) : Nat := (q.filter (fun r => r.type = WRITE)).length

/-- The writers known to the lock according to its active writer and its queue. -/
def writers_known (s : rwlock) : Nat :=
  (if s.active_writer.isSome then 1 else 0) + writer_entries s.reqs

/-- Threads of the writer-request entries of a queue, in queue order. -/
def queued_writers (q : List request) : List thread :=
  q.filterMap (fun r => if r.type = WRITE then r.writer else none)

/-- Threads of the writers known to the lock: the active writer and the queued ones. -/
def known_writer_threads (s : rwlock) : List thread :=
  s.active_writer.toList ++ queued_writers s.reqs

/-- Bound kept by the counter of a reader set: `size` is an `unsigned` and, unless it has
wrapped to zero, it is at least the number of linked nodes. -/
def rq_ok (rq : reader_q) : Prop :=
  rq.size < UINT_RANGE ∧ (rq.head.length ≤ rq.size ∨ rq.size = 0)

/-- What holds of the mode, the holders and the queue of a lock in every reachable
state. -/
structure Inv (s : rwlock) : Prop where
  writer_iff : s.status = WRITE ↔ s.active_writer.isSome = true
  no_readers : s.status = WRITE → ∀ rq, s.active_readers = some rq → rq.head = [] ∧ rq.size = 0
  active_ok : ∀ rq, s.active_readers = some rq → rq_ok rq
  queued_ok : ∀ r ∈ s.reqs,
    (r.type = WRITE → r.writer.isSome = true) ∧ ∀ rq, r.readers = some rq → rq_ok rq

/-- What holds of the writer counter when every call was made by a thread able to make
it: the counter agrees with the active writer and the queue, and the known writers are
pairwise distinct thread pointers. -/
structure InvW (s : rwlock) : Prop where
  count : s.total_num_writers = writers_known s
  nodup : (known_writer_threads s).Nodup
  valid : ∀ t ∈ known_writer_threads s, thread_ok t

/-- A sequence of calls, each by its thread with its allocation results; `none` as soon
as one call stops the kernel. -/
def rwlock_run : rwlock → List (rwlock_op × allocs × thread) → Option rwlock
  | s, [] => some s
  | s, (o, m, t) :: rest =>
    match (rwlock_call o m s t).next with
    | none => none
    | some s1 => rwlock_run s1 rest

/-- Number of calls of a run after which the queue is shorter than before, that is, the
number of promotions. -/
def promotions : rwlock → List (rwlock_op × allocs × thread) → Nat
  | _, [] => 0
  | s, (o, m, t) :: rest =>
    match (rwlock_call o m s t).next with
    | none => 0
    | some s1 => (if s1.reqs.length < s.reqs.length then 1 else 0) + promotions s1 rest

/-- What identifies a queue entry while threads join it: its type, its writer and the
condition variable and mutex created for it. -/
def entry_id (r : request) : status_t × Option thread × List Nat × List Nat :=
  (r.type, r.writer, r.req_cv, r.req_cv_lock)

/-- Allocation results in which `kmalloc` of the request record returns NULL. -/
def new_req_fails : allocs :=
  { new_req := false, cv_name := true, lock_name := true, req_cv := true,
    req_cv_lock := true, rq := true, to_insert := some 0 }

/-- Allocation results in which `cv_create` returns NULL. -/
def cv_create_fails : allocs :=
  { new_req := true, cv_name := true, lock_name := true, req_cv := false,
    req_cv_lock := true, rq := true, to_insert := some 0 }

/-- Writer 1 holds the lock; behind it the queue holds the writer-request of thread 2, the
reader-group of threads 3 and 4 and the writer-request of thread 5. -/
def st_three_queued : rwlock :=
  { status := WRITE, total_num_writers := 3, active_readers := none,
    active_writer := some 1,
    reqs := [{ type := WRITE, readers := none, writer := some 2,
               req_cv := c_string (get_req_names 1).1,
               req_cv_lock := c_string (get_req_names 1).2 },
             { type := READ,
               readers := some { head := [{ addr := 20, t := 3 }, { addr := 21, t := 4 }],
                                 tail := some 21, size := 2 },
               writer := none,
               req_cv := c_string (get_req_names 2).1,
               req_cv_lock := c_string (get_req_names 2).2 },
             { type := WRITE, readers := none, writer := some 5,
               req_cv := c_string (get_req_names 3).1,
               req_cv_lock := c_string (get_req_names 3).2 }],
    naming_counter := 3 }

/-- The state above after writers 1 and 2 have released: readers 3 and 4 are active and
the writer-request of thread 5 is the only entry left. -/
def st_two_promoted : rwlock :=
  { status := READ, total_num_writers := 1,
    active_readers := some { head := [{ addr := 20, t := 3 }, { addr := 21, t := 4 }],
                             tail := some 21, size := 2 },
    active_writer := none,
    reqs := [{ type := WRITE, readers := none, writer := some 5,
               req_cv := c_string (get_req_names 3).1,
               req_cv_lock := c_string (get_req_names 3).2 }],
    naming_counter := 3 }

/-- Thread 1 holds the lock for reading (its node is at address 10). -/
def st_one_reader : rwlock :=
  { status := READ, total_num_writers := 0,
    active_readers := some { head := [{ addr := 10, t := 1 }], tail := some 10, size := 1 },
    active_writer := none, reqs := [], naming_counter := 0 }

/-- Thread 1 holds the lock for reading and thread 2 sleeps on a writer-request. -/
def st_reader_and_queued_writer : rwlock :=
  { status := READ, total_num_writers := 1,
    active_readers := some { head := [{ addr := 10, t := 1 }], tail := some 10, size := 1 },
    active_writer := none,
    reqs := [{ type := WRITE, readers := none, writer := some 2,
               req_cv := c_string (get_req_names 1).1,
               req_cv_lock := c_string (get_req_names 1).2 }],
    naming_counter := 1 }

/-- Thread 1 holds the lock for writing and the queue is empty. -/
def st_one_writer : rwlock :=
  { status := WRITE, total_num_writers := 1, active_readers := none,
    active_writer := some 1, reqs := [], naming_counter := 0 }

/-- The lock after thread 1 took it for reading and released it. -/
def st_after_read_phase : rwlock :=
  { status := FREE, total_num_writers := 0,
    active_readers := some { head := [], tail := none, size := 0 },
    active_writer := none, reqs := [], naming_counter := 0 }

/-- Threads 1 and 2 took the lock for reading (nodes at 10 and 11) and thread 2 released
it: thread 1 is the only reader left, and `tail` still holds the address of the node of
thread 2. -/
def st_reader_left : rwlock :=
  { status := READ, total_num_writers := 0,
    active_readers := some { head := [{ addr := 10, t := 1 }], tail := some 11, size := 1 },
    active_writer := none, reqs := [], naming_counter := 0 }

/-! ## Semaphores

The semaphore of synch.c.  Its wait channel and spinlock belong to the kernel; what is
kept is the counter.  `P` sleeps in `wchan_sleep` while the counter is zero; each time it
wakes it finds the counter as the other threads have left it, and these values are an
input of `P` (`wakes`). -/

/-- The `struct semaphore`, reduced to its counter. -/
structure semaphore where
  sem_count : Nat
deriving DecidableEq

/-- How a call of `P` or `V` ends: it returns, or the caller is asleep on the wait
channel, or the kernel has stopped on a failed assertion; each with the semaphore as it
is then. -/
inductive sem_outcome where
  | returned (sem : semaphore)
  | sleeping (sem : semaphore)
  | crashed (sem : semaphore)
deriving DecidableEq

/-- Function `sem_create`, when its allocations succeed. -/
def sem_create (initial_count : Nat) : semaphore := { sem_count := initial_count }

/-- The loop `while (sem->sem_count == 0) wchan_sleep(...)` of `P` and what follows it.
`count` is the counter as the caller sees it now, `wakes` the values it will find at its
next wake-ups.  Past the loop come `KASSERT(sem->sem_count > 0)`, which holds there, and
`sem->sem_count--`. -/
def P_loop : Nat → List Nat → sem_outcome
  | count, [] =>
    if count = 0 then sem_outcome.sleeping { sem_count := count }
    else sem_outcome.returned { sem_count := udec count }
  | count, seen :: rest =>
    if count = 0 then P_loop seen rest
    else sem_outcome.returned { sem_count := udec count }

/-- Function `P`; `in_interrupt` is `curthread->t_in_interrupt`. -/
def P (in_interrupt : Bool) (sem : semaphore) (wakes : List Nat) : sem_outcome :=
  if in_interrupt ≠ false then sem_outcome.crashed sem
  else P_loop sem.sem_count wakes

/-- Function `V`: the counter is incremented first, then `KASSERT(sem->sem_count > 0)`. -/
def V (sem : semaphore) : sem_outcome :=
  let sem1 : semaphore := { sem_count := uinc sem.sem_count }
  if sem1.sem_count > 0 then sem_outcome.returned sem1
  else sem_outcome.crashed sem1

/-! ## The stoplight of kern/synchprobs/stoplight.c

The four quadrant semaphores `zero`, `one`, `two`, `three` and the four nodes `zero_dc`,
`one_dc`, `two_dc`, `three_dc` are kept in that order in two lists; a pointer to one of
them is its position 0..3 (`none` is NULL).  `uint32_t` arithmetic is arithmetic modulo
`2 ^ 32`.  A loop runs for at most `fuel` rounds and reports whether it came to its end.
The bodies of `direction_cycle_wait` (up to its `cv_wait`, and from each wake-up on) and
of `direction_cycle_signal` are taken as atomic. -/

/-- The `struct direction_cycle` of synch.h; its condition variable and mutex are
objects of their own. -/
structure direction_cycle where
  direction : Nat
  num_cars : Nat
  next : Option Nat
deriving DecidableEq

/-- The global variables of stoplight.c. -/
structure stoplight where
  quadrants : List semaphore
  limit : semaphore
  dcs : List direction_cycle
  cur : Option Nat
deriving DecidableEq

/-- The constant `LIMIT`. -/
def LIMIT : Nat := 3

/-- Function `direction_cycle_create`, when its allocations succeed. -/
def direction_cycle_create (direction : Nat) : direction_cycle :=
  { direction := direction, num_cars := 0, next := none }

/-- Function `stoplight_init`, when its allocations succeed. -/
def stoplight_init : stoplight :=
  { quadrants := [sem_create 1, sem_create 1, sem_create 1, sem_create 1],
    limit := sem_create LIMIT,
    dcs := [{ direction_cycle_create 0 with next := some 1 },
            { direction_cycle_create 1 with next := some 2 },
            { direction_cycle_create 2 with next := some 3 },
            { direction_cycle_create 3 with next := some 0 }],
    cur := some 0 }

/-- Function `get_quadrant`: the semaphore for `num`, `none` when the `default` branch
calls `panic`. -/
def get_quadrant (num : Nat) : Option Nat :=
  match num with
  | 0 => some 0
  | 1 => some 1
  | 2 => some 2
  | 3 => some 3
  | _ => none

/-- Function `get_direction_cycle`: the node for `num`, `none` when the `default` branch
calls `panic`. -/
def get_direction_cycle (num : Nat) : Option Nat :=
  match num with
  | 0 => some 0
  | 1 => some 1
  | 2 => some 2
  | 3 => some 3
  | _ => none

/-- The `uint32_t` difference `a - b`. -/
def usub32 (a b : Nat) : Nat := (a + UINT_RANGE - b) % UINT_RANGE

/-- The calls that `turnright`, `gostraight` and `turnleft` make, with their arguments.
`P_quadrant num` is `P(get_quadrant(num))`, `direction_cycle_wait num` is the call on
`get_direction_cycle(num)`. -/
inductive call where
  | direction_cycle_wait (num : Nat)
  | direction_cycle_signal (num : Nat)
  | P_limit
  | V_limit
  | P_quadrant (num : Nat)
  | V_quadrant (num : Nat)
  | inQuadrant (num index : Nat)
  | leaveIntersection (index : Nat)
deriving DecidableEq

/-- Function `turnright`: its calls in program order. -/
def turnright (direction index : Nat) : List call :=
  [call.direction_cycle_wait direction,
   call.P_limit,
   call.P_quadrant direction,
   call.inQuadrant direction index,
   call.leaveIntersection index,
   call.V_quadrant direction,
   call.direction_cycle_signal direction,
   call.V_limit]

/-- Function `gostraight`: its calls in program order. -/
def gostraight (direction index : Nat) : List call :=
  [call.direction_cycle_wait direction,
   call.P_limit,
   call.P_quadrant direction,
   call.inQuadrant direction index,
   call.P_quadrant (usub32 direction 1 % 4),
   call.inQuadrant (usub32 direction 1 % 4) index,
   call.V_quadrant direction,
   call.leaveIntersection index,
   call.V_quadrant (usub32 direction 1 % 4),
   call.direction_cycle_signal direction,
   call.V_limit]

/-- Function `turnleft`: its calls in program order. -/
def turnleft (direction index : Nat) : List call :=
  [call.direction_cycle_wait direction,
   call.P_limit,
   call.P_quadrant direction,
   call.inQuadrant direction index,
   call.P_quadrant (usub32 direction 1 % 4),
   call.inQuadrant (usub32 direction 1 % 4) index,
   call.V_quadrant direction,
   call.P_quadrant (usub32 direction 2 % 4),
   call.inQuadrant (usub32 direction 2 % 4) index,
   call.V_quadrant (usub32 direction 1 % 4),
   call.leaveIntersection index,
   call.V_quadrant (usub32 direction 2 % 4),
   call.direction_cycle_signal direction,
   call.V_limit]

/-- The quadrants a sequence of calls enters: the first arguments of its `inQuadrant`
calls, in order. -/
def quadrants_entered (prog : List call) : List Nat :=
  prog.filterMap (fun c => match c with
    | call.inQuadrant num _ => some num
    | _ => none)

/-- The arguments a sequence of calls passes to `get_quadrant`, in order. -/
def get_quadrant_args (prog : List call) : List Nat :=
  prog.filterMap (fun c => match c with
    | call.P_quadrant num => some num
    | call.V_quadrant num => some num
    | _ => none)

/-- What a car holds and where the driver has it, while its calls are replayed: the
quadrants whose semaphore it has taken and not given back, the quadrant it is recorded
in (from an `inQuadrant` to the next one or to `leaveIntersection`), and whether every
call so far was in order. -/
structure replay where
  held : List Nat
  recorded : Option Nat
  in_order : Bool
deriving DecidableEq

/-- One call of the replay.  `P` on a quadrant must not find it held by the car itself;
`inQuadrant` must name a held quadrant; `V` must give back a held quadrant in which the
car is no longer recorded; `leaveIntersection` must find the car recorded somewhere. -/
def replay_call (r : replay) (c : call) : replay :=
  match c with
  | call.P_quadrant num =>
    { r with held := num :: r.held, in_order := r.in_order && !r.held.contains num }
  | call.inQuadrant num _ =>
    { r with recorded := some num, in_order := r.in_order && r.held.contains num }
  | call.V_quadrant num =>
    { r with held := r.held.erase num,
             in_order := r.in_order && r.held.contains num && (r.recorded != some num) }
  | call.leaveIntersection _ =>
    { r with recorded := none, in_order := r.in_order && r.recorded.isSome }
  | _ => r

/-- Hand-over-hand, as a check on a sequence of calls: replayed from a car that holds
nothing, every call is in order, and at the end every semaphore taken has been given
back and the car is recorded nowhere. -/
def hand_over_hand (prog : List call) : Bool :=
  let r := prog.foldl replay_call { held := [], recorded := none, in_order := true }
  r.in_order && r.held.isEmpty && r.recorded.isNone

/-- The quadrants whose semaphore a sequence of calls takes with `P`, in order. -/
def quadrants_taken (prog : List call) : List Nat :=
  prog.filterMap (fun c => match c with
    | call.P_quadrant num => some num
    | _ => none)

/-- The quadrants whose semaphore a sequence of calls gives back with `V`, in order. -/
def quadrants_given_back (prog : List call) : List Nat :=
  prog.filterMap (fun c => match c with
    | call.V_quadrant num => some num
    | _ => none)

/-- How a piece of code with a loop ends: it comes to its end with a result, or it goes
through a NULL or dangling pointer, or it is still looping when the fuel is used up. -/
inductive run (α : Type) where
  | done (a : α)
  | fault
  | timeout
deriving DecidableEq

/-- The loop `while (cur->num_cars == 0) cur = cur->next;` on the pointer `cur`: the
pointer it ends with and the number of times it moved it. -/
def advance_cur : Nat → List direction_cycle → Option Nat → Nat → run (Option Nat × Nat)
  | 0, _, _, _ => run.timeout
  | fuel + 1, dcs, cur, moves =>
    match cur with
    | none => run.fault
    | some c =>
      match dcs.get? c with
      | none => run.fault
      | some node =>
        if node.num_cars = 0 then advance_cur fuel dcs node.next (moves + 1)
        else run.done (some c, moves)

/-- Function `direction_cycle_wait` up to its first test of `cur != my_dc`: the counter
of `my_dc` is incremented and `cur` is moved past the nodes without cars.  The result
tells, besides the variables and the number of moves of `cur`, whether the caller goes on
without sleeping (`cur == my_dc`). -/
def direction_cycle_wait_enter (fuel : Nat) (s : stoplight) (my_dc : Nat) :
    run (stoplight × Nat × Bool) :=
  match s.dcs.get? my_dc with
  | none => run.fault
  | some node =>
    let s1 := { s with dcs := s.dcs.set my_dc { node with num_cars := uinc node.num_cars } }
    match advance_cur fuel s1.dcs s1.cur 0 with
    | run.done (cur1, moves) =>
      run.done ({ s1 with cur := cur1 }, moves, decide (cur1 = some my_dc))
    | run.fault => run.fault
    | run.timeout => run.timeout

/-- Function `direction_cycle_wait` from a return of `cv_wait` to the next test of
`cur != my_dc`: `cur` is moved past the nodes without cars.  The result tells whether the
caller leaves the loop (`cur == my_dc`) or sleeps again. -/
def direction_cycle_wait_wake (fuel : Nat) (s : stoplight) (my_dc : Nat) :
    run (stoplight × Nat × Bool) :=
  match advance_cur fuel s.dcs s.cur 0 with
  | run.done (cur1, moves) =>
    run.done ({ s with cur := cur1 }, moves, decide (cur1 = some my_dc))
  | run.fault => run.fault
  | run.timeout => run.timeout

/-- The loop of `direction_cycle_signal` on `*next`: the pointer it ends with and the
number of times it moved it. -/
def signal_next : Nat → List direction_cycle → Nat → Option Nat → Nat → run (Option Nat × Nat)
  | 0, _, _, _, _ => run.timeout
  | fuel + 1, dcs, my_dc, next, moves =>
    if next = some my_dc then run.done (next, moves)
    else
      match next with
      | none => run.fault
      | some n =>
        match dcs.get? n with
        | none => run.fault
        | some node =>
          if node.num_cars ≠ 0 then run.done (next, moves)
          else signal_next fuel dcs my_dc node.next (moves + 1)

/-- Function `direction_cycle_signal`: the variables afterwards, the node stored in
`*next` (whose condition variable is then broadcast) and the number of times the loop
moved `*next`. -/
def direction_cycle_signal (fuel : Nat) (s : stoplight) (my_dc : Nat) :
    run (stoplight × Option Nat × Nat) :=
  match s.dcs.get? my_dc with
  | none => run.fault
  | some node =>
    let s1 := { s with dcs := s.dcs.set my_dc { node with num_cars := udec node.num_cars } }
    match signal_next fuel s1.dcs my_dc node.next 0 with
    | run.done (next, moves) =>
      match next with
      | none => run.fault
      | some _ => run.done (s1, next, moves)
    | run.fault => run.fault
    | run.timeout => run.timeout

/-- The variables of stoplight.c with the cycle built by `stoplight_init`, the counters
`c0`..`c3` in the four nodes and `cur` pointing to node `cur`. -/
def cycle_state (c0 c1 c2 c3 cur : Nat) : stoplight :=
  { stoplight_init with
    dcs := [{ direction := 0, num_cars := c0, next := some 1 },
            { direction := 1, num_cars := c1, next := some 2 },
            { direction := 2, num_cars := c2, next := some 3 },
            { direction := 3, num_cars := c3, next := some 0 }],
    cur := some cur }

/-- The counter of node `i`. -/
def cars_of (s : stoplight) (i : Nat) : Nat :=
  match s.dcs.get? i with
  | none => 0
  | some node => node.num_cars

/-- A car: the calls of the function it runs (`turnright`, `gostraight` or `turnleft`),
how many of them it has completed, and whether it is asleep in the `cv_wait` of
`direction_cycle_wait`. -/
structure car where
  prog : List call
  pc : Nat
  asleep : Bool
deriving DecidableEq

/-- A car that has not started: it is about to run one of the three functions. -/
def car_arrives (k : car) : Prop :=
  k.pc = 0 ∧ k.asleep = false ∧
  ∃ direction index, k.prog = turnright direction index ∨
    k.prog = gostraight direction index ∨ k.prog = turnleft direction index

/-- The car with its current call completed. -/
def car.advance (k : car) : car := { k with pc := k.pc + 1, asleep := false }

/-- One atomic step of a car that is at call `c`, on the variables of stoplight.c; `none`
when the car cannot move: its `P` finds the counter at 0, or the kernel would stop.  A car
in `direction_cycle_wait` either completes the call or falls (back) asleep.  The calls
`inQuadrant` and `leaveIntersection` belong to the driver and leave the variables of
stoplight.c alone.  The loops over the cycle get four rounds, which is what they need on
the cycle of `stoplight_init`. -/
def call_step (s : stoplight) (k : car) (c : call) : Option (stoplight × car) :=
  match c with
  | call.direction_cycle_wait num =>
    match get_direction_cycle num with
    | none => none
    | some my_dc =>
      match (if k.asleep then direction_cycle_wait_wake 4 s my_dc
             else direction_cycle_wait_enter 4 s my_dc) with
      | run.done (s1, _, go) =>
        if go then some (s1, k.advance) else some (s1, { k with asleep := true })
      | run.fault => none
      | run.timeout => none
  | call.direction_cycle_signal num =>
    match get_direction_cycle num with
    | none => none
    | some my_dc =>
      match direction_cycle_signal 4 s my_dc with
      | run.done (s1, _, _) => some (s1, k.advance)
      | run.fault => none
      | run.timeout => none
  | call.P_limit =>
    match P false s.limit [] with
    | sem_outcome.returned sem1 => some ({ s with limit := sem1 }, k.advance)
    | sem_outcome.sleeping _ => none
    | sem_outcome.crashed _ => none
  | call.V_limit =>
    match V s.limit with
    | sem_outcome.returned sem1 => some ({ s with limit := sem1 }, k.advance)
    | sem_outcome.sleeping _ => none
    | sem_outcome.crashed _ => none
  | call.P_quadrant num =>
    match get_quadrant num with
    | none => none
    | some q =>
      match s.quadrants.get? q with
      | none => none
      | some sem =>
        match P false sem [] with
        | sem_outcome.returned sem1 =>
          some ({ s with quadrants := s.quadrants.set q sem1 }, k.advance)
        | sem_outcome.sleeping _ => none
        | sem_outcome.crashed _ => none
  | call.V_quadrant num =>
    match get_quadrant num with
    | none => none
    | some q =>
      match s.quadrants.get? q with
      | none => none
      | some sem =>
        match V sem with
        | sem_outcome.returned sem1 =>
          some ({ s with quadrants := s.quadrants.set q sem1 }, k.advance)
        | sem_outcome.sleeping _ => none
        | sem_outcome.crashed _ => none
  | call.inQuadrant _ _ => some (s, k.advance)
  | call.leaveIntersection _ => some (s, k.advance)

/-- One atomic step of a car: the step of the call it is at; a car that has completed
its calls has left. -/
def car_step (s : stoplight) (k : car) : Option (stoplight × car) :=
  match k.prog.get? k.pc with
  | none => none
  | some c => call_step s k c

/-- The states of the intersection: after `stoplight_init`, cars arrive at any time and
the cars present take their atomic steps in any order. -/
inductive traffic : stoplight → List car → Prop where
  | init : traffic stoplight_init []
  | arrive (s : stoplight) (cars : List car) (k : car) :
      traffic s cars → car_arrives k → traffic s (cars ++ [k])
  | step (s s1 : stoplight) (before after : List car) (k k1 : car) :
      traffic s (before ++ k :: after) → car_step s k = some (s1, k1) →
      traffic s1 (before ++ k1 :: after)

/-- The calls a car has completed. -/
def car.done (k : car) : List call := k.prog.take k.pc

/-- The car has called `inQuadrant` and not yet `leaveIntersection`. -/
def in_intersection (k : car) : Bool :=
  k.done.any (fun c => match c with
    | call.inQuadrant _ _ => true
    | _ => false) &&
  !k.done.any (fun c => match c with
    | call.leaveIntersection _ => true
    | _ => false)

/-- The car is between its `P(limit)` and its `V(limit)`. -/
def holds_limit (k : car) : Bool :=
  k.done.contains call.P_limit && !k.done.contains call.V_limit

/-- The car runs one of the three functions `turnright`, `gostraight`, `turnleft`. -/
def runs_route (k : car) : Prop :=
  ∃ direction index, k.prog = turnright direction index ∨
    k.prog = gostraight direction index ∨ k.prog = turnleft direction index

/-- The variables of stoplight.c while one car from direction 0 is in quadrant 0. -/
def st_car_inside : stoplight :=
  { cycle_state 1 0 0 0 0 with
    quadrants := [sem_create 0, sem_create 1, sem_create 1, sem_create 1],
    limit := sem_create 2 }

/-! ## The shape of the request queue -/

/-- No two neighbours in the queue are reader-groups. -/
def coalesced (q : List request) : Prop :=
  q.Chain' (fun a b => ¬ (a.type = READ ∧ b.type = READ))

/-- Threads linked in the reader set of a queue entry. -/
def group_threads (r : request) : List thread :=
  match r.readers with
  | none => []
  | some rq => rq.head.map thread_ll.t

/-- A reader set that links at least one node and whose `tail` holds the address of the
last node linked. -/
def group_ok (rq : reader_q) : Prop :=
  rq.head ≠ [] ∧ rq.tail = rq.head.getLast?.map thread_ll.addr

/-- What holds of the request queue in every reachable state: its entries are
reader-groups and writer-requests, no two reader-groups are neighbours, every queued
reader set is non-empty with its `tail` at its last node, the queue is empty in mode FREE
and starts with a writer-request in mode READ. -/
structure InvQ (s : rwlock) : Prop where
  types : ∀ r ∈ s.reqs, r.type = READ ∨ r.type = WRITE
  merged : coalesced s.reqs
  groups : ∀ r ∈ s.reqs, r.type = READ → ∃ rq, r.readers = some rq ∧ group_ok rq
  free_ok : s.status = FREE → s.reqs = [] ∧ ∀ rq, s.active_readers = some rq → rq.head = []
  read_head : s.status = READ → ∀ r rest, s.reqs = r :: rest → r.type = WRITE

/-- Promotion in the words of the specification (Release-read, steps 3 and 4, to which
Release-write refers): when the queue is empty the mode becomes Free; otherwise the head
entry is popped, and a reader-group makes the mode Read and its set the active-reader set,
a writer-request makes the mode Write and its thread the active writer.  An entry that is
neither has no promotion. -/
def spec_promote (s : rwlock) : Option rwlock :=
  match s.reqs with
  | [] => some { s with status := FREE }
  | entry :: rest =>
    match entry.type with
    | READ => some { s with reqs := rest, status := READ, active_readers := entry.readers }
    | WRITE => some { s with reqs := rest, status := WRITE, active_writer := entry.writer }
    | FREE => none

/-- Reader 3 holds the lock; behind it the queue holds the writer-request of thread 4 and
the reader-group of thread 5. -/
def st_read_phase_tail_group : rwlock :=
  { status := READ, total_num_writers := 1,
    active_readers := some { head := [{ addr := 20, t := 3 }], tail := some 20, size := 1 },
    active_writer := none,
    reqs := [{ type := WRITE, readers := none, writer := some 4,
               req_cv := c_string (get_req_names 3).1,
               req_cv_lock := c_string (get_req_names 3).2 },
             { type := READ,
               readers := some { head := [{ addr := 21, t := 5 }], tail := some 21, size := 1 },
               writer := none,
               req_cv := c_string (get_req_names 4).1,
               req_cv_lock := c_string (get_req_names 4).2 }],
    naming_counter := 4 }

/-! ## The mutex and the condition variable of synch.c

The `struct lock` is reduced to its holder; its wait channel, its spinlock and the
deadlock detector hooks (`HANGMAN_*`) belong to the kernel.  `lock_acquire` sleeps in
`wchan_sleep` while the lock has a holder; each time it wakes it finds the holder as the
other threads have left it, and these values are an input of the call (`wakes`). -/

/-- The `struct lock`, reduced to `lk_holder`. -/
structure lock where
  lk_holder : Option thread
deriving DecidableEq

/-- How a call on a lock ends: it returns, or the caller is asleep on a wait channel, or
the kernel has stopped on a failed assertion; each with the lock as it is then. -/
inductive lock_outcome where
  | returned (l : lock)
  | sleeping (l : lock)
  | crashed (l : lock)
deriving DecidableEq

/-- Function `lock_create`, when its allocations succeed. -/
def lock_create : lock := { lk_holder := none }

/-- Function `lock_do_i_hold`. -/
def lock_do_i_hold (l : lock) (curthread : thread) : Bool :=
  l.lk_holder = some curthread

/-- The loop `while (lock->lk_holder) wchan_sleep(...)` of `lock_acquire` and the store
`lock->lk_holder = curthread` that follows it.  `holder` is the holder as the caller sees
it now, `wakes` the holders it will find at its next wake-ups. -/
def lock_acquire_loop (curthread : thread) : Option thread → List (Option thread) → lock_outcome
  | holder, [] =>
    if holder.isSome then lock_outcome.sleeping { lk_holder := holder }
    else lock_outcome.returned { lk_holder := some curthread }
  | holder, seen :: rest =>
    if holder.isSome then lock_acquire_loop curthread seen rest
    else lock_outcome.returned { lk_holder := some curthread }

/-- Function `lock_acquire`; `in_interrupt` is `curthread->t_in_interrupt`. -/
def lock_acquire (in_interrupt : Bool) (l : lock) (curthread : thread)
    (wakes : List (Option thread)) : lock_outcome :=
  if lock_do_i_hold l curthread then lock_outcome.crashed l
  else if in_interrupt ≠ false then lock_outcome.crashed l
  else lock_acquire_loop curthread l.lk_holder wakes

/-- Function `lock_release`. -/
def lock_release (l : lock) (curthread : thread) : lock_outcome :=
  if lock_do_i_hold l curthread = false then lock_outcome.crashed l
  else lock_outcome.returned { lk_holder := none }

/-- Function `lock_destroy`: `true` when the lock is freed, `false` when
`KASSERT(!lock->lk_holder)` stops the kernel. -/
def lock_destroy (l : lock) : Bool :=
  if l.lk_holder.isSome then false else true

/-- One call on a lock by a thread, as a step of an interleaving. -/
inductive lock_op where
  | acquire
  | release
deriving DecidableEq

/-- The states of a lock under calls of `lock_acquire` and `lock_release` by any threads,
none of which stops the kernel, together with the threads that have returned from
`lock_acquire` and not yet from `lock_release`.  A call of `lock_acquire` that finds a
holder sleeps and changes nothing; it is a step when, awake, it finds no holder. -/
inductive lock_history : lock → List thread → Prop where
  | create : lock_history lock_create []
  | acquire (l l1 : lock) (inside : List thread) (t : thread) :
      lock_history l inside → lock_acquire false l t [] = lock_outcome.returned l1 →
      lock_history l1 (t :: inside)
  | release (l l1 : lock) (inside : List thread) (t : thread) :
      lock_history l inside → lock_release l t = lock_outcome.returned l1 →
      lock_history l1 (inside.erase t)

/-- What a condition-variable function does, in program order, to the spinlock of the
condition variable, to its wait channel and to the mutex passed in. -/
inductive cv_event where
  | spinlock_acquire
  | spinlock_release
  | lock_release
  | lock_acquire
  | wchan_sleep
  | loose_wchan_sleep
  | wchan_wakeone
  | wchan_wakeall
deriving DecidableEq

/-- Function `cv_wait`.  `cv_ok` is `cv != NULL`.  `signalled` is `none` when the caller
is never woken from `wchan_sleep`, and otherwise the holder of the mutex at the moment the
caller runs again; `wakes` are the holders that the final `lock_acquire` finds at its
wake-ups.  The result is how the call ends, with the mutex, and the events so far. -/
def cv_wait (in_interrupt : Bool) (cv_ok : Bool) (l : lock) (curthread : thread)
    (signalled : Option (Option thread)) (wakes : List (Option thread)) :
    lock_outcome × List cv_event :=
  if cv_ok = false then (lock_outcome.crashed l, [])
  else if lock_do_i_hold l curthread = false then (lock_outcome.crashed l, [])
  else
    match lock_release l curthread with
    | lock_outcome.returned l1 =>
      match signalled with
      | none =>
        (lock_outcome.sleeping l1,
          [cv_event.spinlock_acquire, cv_event.lock_release, cv_event.wchan_sleep])
      | some holder =>
        (lock_acquire in_interrupt { lk_holder := holder } curthread wakes,
          [cv_event.spinlock_acquire, cv_event.lock_release, cv_event.wchan_sleep,
           cv_event.spinlock_release, cv_event.lock_acquire])
    | lock_outcome.sleeping l1 =>
      (lock_outcome.sleeping l1, [cv_event.spinlock_acquire, cv_event.lock_release])
    | lock_outcome.crashed l1 =>
      (lock_outcome.crashed l1, [cv_event.spinlock_acquire, cv_event.lock_release])

/-- Function `loose_cv_wait`, with the same inputs: after `loose_wchan_sleep` the function
ends, and the mutex is as the other threads have left it. -/
def loose_cv_wait (cv_ok : Bool) (l : lock) (curthread : thread)
    (signalled : Option (Option thread)) : lock_outcome × List cv_event :=
  if cv_ok = false then (lock_outcome.crashed l, [])
  else if lock_do_i_hold l curthread = false then (lock_outcome.crashed l, [])
  else
    match lock_release l curthread with
    | lock_outcome.returned l1 =>
      match signalled with
      | none =>
        (lock_outcome.sleeping l1,
          [cv_event.spinlock_acquire, cv_event.lock_release, cv_event.loose_wchan_sleep])
      | some holder =>
        (lock_outcome.returned { lk_holder := holder },
          [cv_event.spinlock_acquire, cv_event.lock_release, cv_event.loose_wchan_sleep])
    | lock_outcome.sleeping l1 =>
      (lock_outcome.sleeping l1, [cv_event.spinlock_acquire, cv_event.lock_release])
    | lock_outcome.crashed l1 =>
      (lock_outcome.crashed l1, [cv_event.spinlock_acquire, cv_event.lock_release])

/-- Function `cv_signal`. -/
def cv_signal (cv_ok : Bool) (l : lock) (curthread : thread) : lock_outcome × List cv_event :=
  if cv_ok = false then (lock_outcome.crashed l, [])
  else if lock_do_i_hold l curthread = false then (lock_outcome.crashed l, [])
  else
    (lock_outcome.returned l,
      [cv_event.spinlock_acquire, cv_event.wchan_wakeone, cv_event.spinlock_release])

/-- Function `cv_broadcast`. -/
def cv_broadcast (cv_ok : Bool) (l : lock) (curthread : thread) :
    lock_outcome × List cv_event :=
  if cv_ok = false then (lock_outcome.crashed l, [])
  else if lock_do_i_hold l curthread = false then (lock_outcome.crashed l, [])
  else
    (lock_outcome.returned l,
      [cv_event.spinlock_acquire, cv_event.wchan_wakeall, cv_event.spinlock_release])

/-! ## The test reporter of common/libtest161/test161.c

Strings are lists of bytes, as for the names of the queue entries.  Secure testing is off
(`SECRET_TESTING` is not defined) and the code runs in the kernel. -/

/-- The constant `TEST161_SUCCESS` (kern/test/rwtest.c). -/
def TEST161_SUCCESS : Int := 0

/-- The constant `TEST161_FAIL` (kern/test/rwtest.c). -/
def TEST161_FAIL : Int := 1

/-- Bytes of the C string "SUCCESS". -/
def SUCCESS_str : List Nat := [83, 85, 67, 67, 69, 83, 83]

/-- Bytes of the C string "FAIL". -/
def FAIL_str : List Nat := [70, 65, 73, 76]

/-- Modelled from the spec: `kprintf` is not among the sources.  With secure testing off a
report is literally `"<name>: <message>\n"`; this is what the call
`kprintf("%s: %s\n", name, msg)` of `secprintf` writes to the console: the bytes of `name`,
a colon and a blank, the bytes of `msg`, and a newline. -/
def kprintf_name_msg (name msg : List Nat) : List Nat :=
  name ++ [58, 32] ++ msg ++ [10]

/-- Function `secprintf` without `SECRET_TESTING`: the text it writes to the console. -/
def secprintf (_secret msg name : List Nat) : List Nat :=
  kprintf_name_msg name msg

/-- Function `success`: the text it writes to the console. -/
def success (status : Int) (secret name : List Nat) : List Nat :=
  if status = TEST161_SUCCESS then secprintf secret SUCCESS_str name
  else secprintf secret FAIL_str name

/-! ## The names of the queue entries -/

/-- Function `get_req_names` on the two buffers as `kmalloc` hands them out, whatever they
hold: the two buffers after the last store. -/
def get_req_names_in (num : Nat) (cv_buf lock_buf : List Nat) : List Nat × List Nat :=
  let length := digits num
  let cv_name := strcpy cv_buf request_cv_str
  let lock_name := strcpy lock_buf request_lock_str
  let r := get_req_names_loop length 0 length num cv_name lock_name
  (r.1.set (length + 8 + 3) 0, r.2.set (length + 8 + 5) 0)

/-- The decimal representation of `n` in ASCII, most significant digit first. -/
def decimal (n : Nat) : List Nat := (Nat.digits 10 n).reverse.map (fun d => d + 48)

/-- The entries that a run of calls appends to the request queue, in the order of their
creation. -/
def requests_created : rwlock → List (rwlock_op × allocs × thread) → List request
  | _, [] => []
  | s, (o, m, t) :: rest =>
    match (rwlock_call o m s t).next with
    | none => []
    | some s1 =>
      (if s.reqs.length < s1.reqs.length then s1.reqs.getLast?.toList else []) ++
        requests_created s1 rest

/-! ## Whalemating (kern/synchprobs/whalemating.c)

The six semaphores are the global variables of the file.  A whale is a thread running
`male`, `female` or `matchmaker`; one call of `P` or `V`, or of a hook of the driver
(`male_start`, ...), is one atomic step.  A `P` on a counter of 0 sleeps and is no step. -/

/-- The global variables of whalemating.c. -/
structure whalemating where
  male_sem : semaphore
  female_sem : semaphore
  matchmaker_sem_male : semaphore
  matchmaker_sem_female : semaphore
  matchmaker_sem_male_done : semaphore
  matchmaker_sem_female_done : semaphore
deriving DecidableEq

/-- Function `whalemating_init`, when its allocations succeed. -/
def whalemating_init : whalemating :=
  { male_sem := sem_create 0, female_sem := sem_create 0,
    matchmaker_sem_male := sem_create 0, matchmaker_sem_female := sem_create 0,
    matchmaker_sem_male_done := sem_create 0, matchmaker_sem_female_done := sem_create 0 }

/-- The six semaphores, by the name of their variable. -/
inductive whale_sem where
  | male_sem
  | female_sem
  | matchmaker_sem_male
  | matchmaker_sem_female
  | matchmaker_sem_male_done
  | matchmaker_sem_female_done
deriving DecidableEq

/-- The semaphore a variable holds. -/
def whalemating.get (s : whalemating) : whale_sem → semaphore
  | whale_sem.male_sem => s.male_sem
  | whale_sem.female_sem => s.female_sem
  | whale_sem.matchmaker_sem_male => s.matchmaker_sem_male
  | whale_sem.matchmaker_sem_female => s.matchmaker_sem_female
  | whale_sem.matchmaker_sem_male_done => s.matchmaker_sem_male_done
  | whale_sem.matchmaker_sem_female_done => s.matchmaker_sem_female_done

/-- The variables after a call has changed one semaphore. -/
def whalemating.set (s : whalemating) (x : whale_sem) (sem : semaphore) : whalemating :=
  match x with
  | whale_sem.male_sem => { s with male_sem := sem }
  | whale_sem.female_sem => { s with female_sem := sem }
  | whale_sem.matchmaker_sem_male => { s with matchmaker_sem_male := sem }
  | whale_sem.matchmaker_sem_female => { s with matchmaker_sem_female := sem }
  | whale_sem.matchmaker_sem_male_done => { s with matchmaker_sem_male_done := sem }
  | whale_sem.matchmaker_sem_female_done => { s with matchmaker_sem_female_done := sem }

/-- The calls that `male`, `female` and `matchmaker` make. -/
inductive whale_call where
  | male_start (index : Nat)
  | male_end (index : Nat)
  | female_start (index : Nat)
  | female_end (index : Nat)
  | matchmaker_start (index : Nat)
  | matchmaker_end (index : Nat)
  | P_sem (x : whale_sem)
  | V_sem (x : whale_sem)
deriving DecidableEq

/-- Function `male`: its calls in program order. -/
def male (index : Nat) : List whale_call :=
  [whale_call.male_start index,
   whale_call.V_sem whale_sem.male_sem,
   whale_call.V_sem whale_sem.matchmaker_sem_male,
   whale_call.P_sem whale_sem.matchmaker_sem_male_done,
   whale_call.male_end index]

/-- Function `female`: its calls in program order. -/
def female (index : Nat) : List whale_call :=
  [whale_call.female_start index,
   whale_call.V_sem whale_sem.female_sem,
   whale_call.V_sem whale_sem.matchmaker_sem_female,
   whale_call.P_sem whale_sem.matchmaker_sem_female_done,
   whale_call.female_end index]

/-- Function `matchmaker`: its calls in program order. -/
def matchmaker (index : Nat) : List whale_call :=
  [whale_call.P_sem whale_sem.matchmaker_sem_male,
   whale_call.P_sem whale_sem.matchmaker_sem_female,
   whale_call.matchmaker_start index,
   whale_call.P_sem whale_sem.male_sem,
   whale_call.P_sem whale_sem.female_sem,
   whale_call.matchmaker_end index,
   whale_call.V_sem whale_sem.matchmaker_sem_male_done,
   whale_call.V_sem whale_sem.matchmaker_sem_female_done]

/-- A whale: the calls of the function it runs and how many of them it has completed. -/
structure whale where
  prog : List whale_call
  pc : Nat
deriving DecidableEq

/-- A whale that has not started: it is about to run one of the three functions. -/
def whale_arrives (k : whale) : Prop :=
  k.pc = 0 ∧ ∃ index, k.prog = male index ∨ k.prog = female index ∨ k.prog = matchmaker index

/-- One call on the variables of whalemating.c; `none` when the call is no step: a `P`
that finds its counter at 0, or a call that stops the kernel.  The hooks of the driver
leave the variables alone. -/
def whale_call_step (s : whalemating) (c : whale_call) : Option whalemating :=
  match c with
  | whale_call.P_sem x =>
    match P false (s.get x) [] with
    | sem_outcome.returned sem1 => some (s.set x sem1)
    | sem_outcome.sleeping _ => none
    | sem_outcome.crashed _ => none
  | whale_call.V_sem x =>
    match V (s.get x) with
    | sem_outcome.returned sem1 => some (s.set x sem1)
    | sem_outcome.sleeping _ => none
    | sem_outcome.crashed _ => none
  | _ => some s

/-- One atomic step of a whale: the step of the call it is at. -/
def whale_step (s : whalemating) (k : whale) : Option (whalemating × whale) :=
  match k.prog.get? k.pc with
  | none => none
  | some c =>
    match whale_call_step s c with
    | none => none
    | some s1 => some (s1, { k with pc := k.pc + 1 })

/-- The states of the rendezvous: after `whalemating_init`, whales arrive at any time and
take their atomic steps in any order. -/
inductive mating : whalemating → List whale → Prop where
  | init : mating whalemating_init []
  | arrive (s : whalemating) (whales : List whale) (k : whale) :
      mating s whales → whale_arrives k → mating s (whales ++ [k])
  | step (s s1 : whalemating) (before after : List whale) (k k1 : whale) :
      mating s (before ++ k :: after) → whale_step s k = some (s1, k1) →
      mating s1 (before ++ k1 :: after)

/-- The number of calls made so far, by all whales, that satisfy `p`. -/
def calls_made (p : whale_call → Bool) (whales : List whale) : Nat :=
  (whales.map (fun k => (k.prog.take k.pc).countP p)).sum

/-- The call is a `male_end`. -/
def is_male_end : whale_call → Bool
  | whale_call.male_end _ => true
  | _ => false

/-- The call is a `female_end`. -/
def is_female_end : whale_call → Bool
  | whale_call.female_end _ => true
  | _ => false

/-- The call is a `matchmaker_start`. -/
def is_matchmaker_start : whale_call → Bool
  | whale_call.matchmaker_start _ => true
  | _ => false

/-- The call is a `matchmaker_end`. -/
def is_matchmaker_end : whale_call → Bool
  | whale_call.matchmaker_end _ => true
  | _ => false

/-- The call is `c`. -/
def is_call (c : whale_call) : whale_call → Bool := fun x => decide (x = c)

/-- The whale runs one of the three functions `male`, `female`, `matchmaker`. -/
def runs_whale (k : whale) : Prop :=
  ∃ index, k.prog = male index ∨ k.prog = female index ∨ k.prog = matchmaker index

/-- A schedule: the whales at the given positions take one step each, in that order;
`none` when one of them cannot. -/
def whale_run : whalemating → List whale → List Nat → Option (whalemating × List whale)
  | s, whales, [] => some (s, whales)
  | s, whales, i :: rest =>
    match whales.get? i with
    | none => none
    | some k =>
      match whale_step s k with
      | none => none
      | some (s1, k1) => whale_run s1 (whales.set i k1) rest

/-- The variables after one male, one female and one matchmaker have met, the
matchmaker has finished and the male has left: the female may go. -/
def st_male_released : whalemating :=
  { whalemating_init with matchmaker_sem_female_done := sem_create 1 }

/-! ## The turn of a direction

Cars are threads: each has its `struct thread *`, and no two cars present at the same
time share one. -/

/-- The node of the direction a car comes from: what `get_direction_cycle` returns for the
argument of its `direction_cycle_wait`. -/
def car_direction (k : car) : Option Nat :=
  match k.prog.head? with
  | some (call.direction_cycle_wait num) => get_direction_cycle num
  | _ => none

/-- The call is a `direction_cycle_wait`. -/
def is_wait : call → Bool
  | call.direction_cycle_wait _ => true
  | _ => false

/-- The call is a `direction_cycle_signal`. -/
def is_signal : call → Bool
  | call.direction_cycle_signal _ => true
  | _ => false

/-- The car has returned from `direction_cycle_wait` and not yet called
`direction_cycle_signal`. -/
def has_turn (k : car) : Bool :=
  k.done.any is_wait && !k.done.any is_signal

/-- The car is counted in its node: it has incremented `num_cars` (it sleeps in
`direction_cycle_wait` or has returned from it) and has not yet run
`direction_cycle_signal`. -/
def in_cycle (k : car) : Bool :=
  (k.asleep || k.done.any is_wait) && !k.done.any is_signal

/-- The states of the intersection when cars are threads: after `stoplight_init`, a
thread that is not among the cars present arrives as a car; the cars present take their
atomic steps in any order; a car that has completed its calls leaves. -/
inductive crossing : stoplight → List (thread × car) → Prop where
  | init : crossing stoplight_init []
  | arrive (s : stoplight) (cars : List (thread × car)) (t : thread) (k : car) :
      crossing s cars → thread_ok t → (∀ x ∈ cars, x.1 ≠ t) → car_arrives k →
      crossing s (cars ++ [(t, k)])
  | step (s s1 : stoplight) (before after : List (thread × car)) (t : thread) (k k1 : car) :
      crossing s (before ++ (t, k) :: after) → car_step s k = some (s1, k1) →
      crossing s1 (before ++ (t, k1) :: after)
  | leave (s : stoplight) (before after : List (thread × car)) (t : thread) (k : car) :
      crossing s (before ++ (t, k) :: after) → k.pc = k.prog.length →
      crossing s (before ++ after)

/-- The four nodes are linked as `stoplight_init` links them: 0, 1, 2, 3 and back to 0. -/
def linked (s : stoplight) : Prop :=
  ∀ i, i < 4 → ∃ node, s.dcs.get? i = some node ∧ node.next = some ((i + 1) % 4)

/-- The car is counted in node `d`. -/
def counted (d : Nat) (x : thread × car) : Bool :=
  decide (car_direction x.2 = some d) && in_cycle x.2

/-- What holds of the direction cycle in every state of `crossing`. -/
structure InvC (s : stoplight) (cars : List (thread × car)) : Prop where
  ids : (cars.map Prod.fst).Nodup ∧ ∀ x ∈ cars, thread_ok x.1
  routes : ∀ x ∈ cars, runs_route x.2 ∧ (x.2.asleep = true → x.2.pc = 0)
  links : linked s ∧ ∃ cur, cur < 4 ∧ s.cur = some cur
  counts : ∀ d, d < 4 → cars_of s d = cars.countP (counted d)
  turn : ∀ x ∈ cars, has_turn x.2 = true → car_direction x.2 = s.cur

/-! ## A reader that holds the lock without being linked in the active set -/

/-- Every call of a run is made by a thread able to make it: its identity is a thread
pointer and it is not asleep on a queue entry when it calls. -/
def callers_awake : rwlock → List (rwlock_op × allocs × thread) → Bool
  | _, [] => true
  | s, (o, m, t) :: rest =>
    decide (thread_ok t) && !is_waiting s t &&
      match (rwlock_call o m s t).next with
      | none => true
      | some s1 => callers_awake s1 rest

/-- Threads 1, 2 and 3 took the lock for reading (nodes at 10, 11 and 12), thread 3
released it, thread 4 took it for reading (its node, at 13, was stored behind the freed
node of thread 3), thread 5 asked for the write lock and sleeps, and thread 1 released:
threads 2 and 4 hold the lock for reading and only thread 2 is linked from `head`. -/
def st_reader_not_linked : rwlock :=
  { status := READ, total_num_writers := 1,
    active_readers := some { head := [{ addr := 11, t := 2 }], tail := some 13, size := 2 },
    active_writer := none,
    reqs := [{ type := WRITE, readers := none, writer := some 5,
               req_cv := c_string (get_req_names 1).1,
               req_cv_lock := c_string (get_req_names 1).2 }],
    naming_counter := 1 }

/-- The state above after thread 2 has released: thread 4 still holds the lock for
reading, no node is linked from `head` and the counter of the set is 1. -/
def st_no_reader_linked : rwlock :=
  { st_reader_not_linked with
    active_readers := some { head := [], tail := some 13, size := 1 } }

/-! ## Reader sets and inversion of the operations -/

theorem uinc_lt (x : Nat) : uinc x < UINT_RANGE := by
  unfold uinc UINT_RANGE; omega

theorem udec_lt (x : Nat) : udec x < UINT_RANGE := by
  unfold udec UINT_RANGE; omega

theorem set_next_length (l : List thread_ll) (p : Nat) (n : thread_ll) :
    (set_next l p n).length ≤ l.length + 1 := by
  induction l with
  | nil => simp [set_next]
  | cons x rest ih =>
    simp only [set_next]
    split
    · simp
    · simp only [List.length_cons]; omega

theorem unlink_length (l r : List thread_ll) (t : thread) (h : unlink l t = some r) :
    r.length + 1 = l.length := by
  induction l generalizing r with
  | nil => simp [unlink] at h
  | cons x rest ih =>
    simp only [unlink] at h
    split at h
    · simp only [Option.some.injEq] at h; subst h; simp
    · split at h
      · simp at h
      · next r1 hr1 =>
        simp only [Option.some.injEq] at h; subst h
        simp only [List.length_cons]
        have := ih r1 hr1
        omega

theorem reader_q_create_ok (b : Bool) (rq : reader_q) (h : reader_q_create b = some rq) :
    rq = { head := [], tail := none, size := 0 } := by
  unfold reader_q_create at h
  split at h
  · simp only [Option.some.injEq] at h; exact h.symm
  · simp at h

theorem reader_q_insert_ok (rq rq1 : reader_q) (node : Option Nat) (t : thread)
    (h : reader_q_insert rq node t = some rq1) (hok : rq_ok rq) : rq_ok rq1 := by
  unfold reader_q_insert at h
  obtain ⟨hlt, hlen⟩ := hok
  split at h
  · simp at h
  · next a =>
    simp only at h
    split at h
    · split at h
      · next h0 =>
        simp only [Option.some.injEq] at h; subst h
        refine ⟨uinc_lt _, ?_⟩
        simp only [h0.2.2, uinc, UINT_RANGE]; simp
      · simp at h
    · next hne =>
      split at h
      · split at h
        · simp at h
        · split at h
          · next h1 =>
            simp only [Option.some.injEq] at h; subst h
            refine ⟨uinc_lt _, ?_⟩
            simp only [h1.2, uinc, UINT_RANGE]; simp
          · simp at h
      · next hne1 =>
        split at h
        · simp at h
        · next p hp =>
          simp only [Option.some.injEq] at h; subst h
          refine ⟨uinc_lt _, ?_⟩
          simp only
          have h3 := set_next_length rq.head p { addr := a, t := t }
          have h4 : rq.size ≠ 0 := fun hh => hne (Or.inl hh)
          unfold uinc
          unfold UINT_RANGE at hlt ⊢
          by_cases h5 : rq.size + 1 = 4294967296
          · right; rw [h5]
          · left
            rw [Nat.mod_eq_of_lt (by omega)]
            rcases hlen with h6 | h6
            · omega
            · exact absurd h6 h4

theorem reader_q_remove_ok (rq rq1 : reader_q) (t : thread)
    (h : reader_q_remove rq t = some rq1) (hok : rq_ok rq) :
    rq_ok rq1 ∧ (rq1.size = 0 → rq1.head = []) := by
  unfold reader_q_remove at h
  obtain ⟨hlt, hlen⟩ := hok
  split at h
  · simp at h
  · next x rest hhead =>
    split at h
    · simp at h
    · split at h
      · simp at h
      · next hsz =>
        have hd : udec rq.size = rq.size - 1 := by
          unfold udec; unfold UINT_RANGE at hlt ⊢
          rw [show rq.size + 4294967296 - 1 = (rq.size - 1) + 4294967296 by omega,
            Nat.add_mod_right, Nat.mod_eq_of_lt (by omega)]
        have hl : rest.length + 1 ≤ rq.size := by
          rcases hlen with h6 | h6
          · rw [hhead] at h6; simpa using h6
          · exact absurd h6 hsz
        split at h
        · simp only [Option.some.injEq] at h; subst h
          simp only [hd]
          unfold rq_ok
          dsimp only
          refine ⟨⟨by omega, by omega⟩, ?_⟩
          intro h0
          apply List.eq_nil_of_length_eq_zero
          omega
        · split at h
          · simp at h
          · next r hr =>
            simp only [Option.some.injEq] at h; subst h
            simp only [hd]
            have := unlink_length _ _ _ hr
            unfold rq_ok
            dsimp only
            refine ⟨⟨by omega, by simp only [List.length_cons]; omega⟩, ?_⟩
            intro h0
            omega

theorem request_q_insert_next (m : allocs) (s s1 : rwlock) (st : status_t) (t : thread)
    (h : (request_q_insert m s st t).next = some s1) :
    ∃ r, s1.reqs = s.reqs ++ [r] ∧ s1.status = s.status ∧
      s1.active_readers = s.active_readers ∧ s1.active_writer = s.active_writer ∧
      r.type = st ∧
      ((st = READ ∧ s1.total_num_writers = s.total_num_writers ∧ r.writer = none ∧
          ∃ rq, r.readers = some rq ∧ rq_ok rq ∧ rq.head.map thread_ll.t = [t]) ∨
       (st = WRITE ∧ s1.total_num_writers = uinc s.total_num_writers ∧
          r.writer = some t ∧ r.readers = none)) := by
  unfold request_q_insert at h
  split at h
  · simp [outcome.next] at h
  · simp only at h
    split at h
    · simp [outcome.next] at h
    · split at h
      · simp [outcome.next] at h
      · split at h
        · simp [outcome.next] at h
        · split at h
          · split at h
            · simp [outcome.next] at h
            · next rq hrq =>
              split at h
              · simp [outcome.next] at h
              · next rq1 hrq1 =>
                simp only [outcome.next, Option.some.injEq] at h
                subst h
                refine ⟨_, rfl, rfl, rfl, rfl, rfl, Or.inl ⟨rfl, rfl, rfl, rq1, rfl, ?_, ?_⟩⟩
                · have h0 := reader_q_create_ok _ _ hrq
                  subst h0
                  exact reader_q_insert_ok _ _ _ _ hrq1 ⟨by simp [UINT_RANGE], Or.inl (by simp)⟩
                · have h0 := reader_q_create_ok _ _ hrq
                  subst h0
                  unfold reader_q_insert at hrq1
                  split at hrq1
                  · simp at hrq1
                  · simp at hrq1
                    subst hrq1
                    rfl
          · simp only [outcome.next, Option.some.injEq] at h
            subst h
            exact ⟨_, rfl, rfl, rfl, rfl, rfl, Or.inr ⟨rfl, rfl, rfl, rfl⟩⟩
          · simp [outcome.next] at h

theorem next_eq_some (o : outcome) (s1 : rwlock) (h : o.next = some s1) :
    o = outcome.returned s1 ∨ o = outcome.sleeping s1 := by
  cases o with
  | returned s => simp only [outcome.next, Option.some.injEq] at h; subst h; exact Or.inl rfl
  | sleeping s => simp only [outcome.next, Option.some.injEq] at h; subst h; exact Or.inr rfl
  | crashed c s => simp [outcome.next] at h

theorem request_q_insert_sleeps (m : allocs) (s s1 : rwlock) (st : status_t) (t : thread) :
    request_q_insert m s st t ≠ outcome.returned s1 := by
  unfold request_q_insert
  intro h
  split at h
  · simp at h
  · simp only at h
    split at h
    · simp at h
    · split at h
      · simp at h
      · split at h
        · simp at h
        · split at h
          · split at h
            · simp at h
            · split at h <;> simp at h
          · simp at h
          · simp at h

theorem rwlock_acquire_read_wait_sleeps (m : allocs) (s s1 : rwlock) (t : thread) :
    rwlock_acquire_read_wait m s t ≠ outcome.returned s1 := by
  unfold rwlock_acquire_read_wait
  intro h
  split at h
  · simp at h
  · split at h
    · simp at h
    · split at h
      · split at h
        · simp at h
        · split at h <;> simp at h
      · split at h
        · exact request_q_insert_sleeps _ _ _ _ _ h
        · simp at h

theorem rwlock_acquire_read_wait_next (m : allocs) (s s1 : rwlock) (t : thread)
    (h : (rwlock_acquire_read_wait m s t).next = some s1) :
    s.status = WRITE ∧ s.total_num_writers ≠ 0 ∧
    ∃ req_tail, s.reqs.getLast? = some req_tail ∧
      ((req_tail.type = READ ∧ ∃ rq rq1, req_tail.readers = some rq ∧
          reader_q_insert rq m.to_insert t = some rq1 ∧
          s1 = { s with reqs := s.reqs.dropLast ++ [{ req_tail with readers := some rq1 }] }) ∨
       (req_tail.type = WRITE ∧ (request_q_insert m s READ t).next = some s1)) := by
  unfold rwlock_acquire_read_wait at h
  split at h
  · simp [outcome.next] at h
  · next hc =>
    have hc1 : ¬ s.total_num_writers = 0 ∧ s.status = WRITE := by
      by_contra hx; exact hc hx
    split at h
    · simp [outcome.next] at h
    · next req_tail htl =>
      split at h
      · next hty =>
        split at h
        · simp [outcome.next] at h
        · next rq hrq =>
          split at h
          · simp [outcome.next] at h
          · next rq1 hrq1 =>
            simp only [outcome.next, Option.some.injEq] at h
            subst h
            exact ⟨hc1.2, hc1.1, req_tail, htl, Or.inl ⟨hty, rq, rq1, hrq, hrq1, rfl⟩⟩
      · next hty =>
        split at h
        · next hty2 =>
          exact ⟨hc1.2, hc1.1, req_tail, htl, Or.inr ⟨hty2, h⟩⟩
        · simp [outcome.next] at h

theorem rwlock_acquire_read_next (m : allocs) (s s1 : rwlock) (t : thread)
    (h : (rwlock_acquire_read m s t).next = some s1) :
    rwlock_do_i_hold_reader s t = false ∧
    ((rwlock_acquire_read m s t = outcome.returned s1 ∧
        s.status = FREE ∧ s.active_readers = none ∧ s.active_writer = none ∧
        ∃ rq1, reader_q_insert { head := [], tail := none, size := 0 } m.to_insert t = some rq1 ∧
          s1 = { s with status := READ, active_readers := some rq1 }) ∨
     (rwlock_acquire_read m s t = outcome.returned s1 ∧
        s.status = READ ∧ s.total_num_writers = 0 ∧ s.reqs = [] ∧ s.active_writer = none ∧
        ∃ rq rq1, s.active_readers = some rq ∧
          reader_q_insert rq m.to_insert t = some rq1 ∧
          s1 = { s with active_readers := some rq1 }) ∨
     (rwlock_acquire_read m s t = outcome.sleeping s1 ∧
        (rwlock_acquire_read_wait m s t).next = some s1)) := by
  have hk := next_eq_some _ _ h
  unfold rwlock_acquire_read at h
  split at h
  · simp [outcome.next] at h
  · next hh =>
    refine ⟨by simpa using hh, ?_⟩
    split at h
    · next hst =>
      split at h
      · simp [outcome.next] at h
      · next har =>
        split at h
        · simp [outcome.next] at h
        · next haw =>
          simp only at h
          split at h
          · simp [outcome.next] at h
          · next rq hrq =>
            have h0 := reader_q_create_ok _ _ hrq
            subst h0
            split at h
            · simp [outcome.next] at h
            · next rq1 hrq1 =>
              simp only [outcome.next, Option.some.injEq] at h
              subst h
              refine Or.inl ⟨?_, hst, by simpa using har, by simpa using haw, rq1, hrq1, rfl⟩
              rcases hk with hk | hk
              · exact hk
              · unfold rwlock_acquire_read at hk
                simp [hh, hst, har, haw, hrq, hrq1] at hk
    · next hst =>
      split at h
      · next htot =>
        split at h
        · simp [outcome.next] at h
        · next rq hrq =>
          split at h
          · simp [outcome.next] at h
          · next hq =>
            split at h
            · simp [outcome.next] at h
            · next haw =>
              split at h
              · simp [outcome.next] at h
              · next rq1 hrq1 =>
                simp only [outcome.next, Option.some.injEq] at h
                subst h
                refine Or.inr (Or.inl ⟨?_, hst, htot, by simpa using hq, by simpa using haw,
                  rq, rq1, hrq, hrq1, rfl⟩)
                rcases hk with hk | hk
                · exact hk
                · unfold rwlock_acquire_read at hk
                  simp [hh, hst, htot, hrq, hq, haw, hrq1] at hk
      · refine Or.inr (Or.inr ⟨?_, h⟩)
        rcases hk with hk | hk
        · unfold rwlock_acquire_read at hk
          simp only [hh, hst] at hk
          simp only [Bool.false_eq_true, ↓reduceIte] at hk
          rename_i htot
          simp only [htot, ↓reduceIte] at hk
          exact absurd hk (rwlock_acquire_read_wait_sleeps _ _ _ _)
        · exact hk
    · next hst =>
      refine Or.inr (Or.inr ⟨?_, h⟩)
      rcases hk with hk | hk
      · unfold rwlock_acquire_read at hk
        simp only [hh, hst] at hk
        exact absurd hk (rwlock_acquire_read_wait_sleeps _ _ _ _)
      · exact hk

theorem rwlock_acquire_write_next (m : allocs) (s s1 : rwlock) (t : thread)
    (h : (rwlock_acquire_write m s t).next = some s1) :
    s.active_writer ≠ some t ∧
    ((rwlock_acquire_write m s t = outcome.returned s1 ∧
        s.status = FREE ∧ s.active_readers = none ∧ s.active_writer = none ∧
        s1 = { s with status := WRITE, active_writer := some t,
                      total_num_writers := uinc s.total_num_writers }) ∨
     (rwlock_acquire_write m s t = outcome.sleeping s1 ∧ s.status ≠ FREE ∧
        (request_q_insert m s WRITE t).next = some s1)) := by
  have hk := next_eq_some _ _ h
  unfold rwlock_acquire_write at h
  split at h
  · simp [outcome.next] at h
  · next hh =>
    have hh1 : s.active_writer ≠ some t := by
      simpa [rwlock_do_i_hold_writer] using hh
    refine ⟨hh1, ?_⟩
    split at h
    · next hst =>
      split at h
      · simp [outcome.next] at h
      · next har =>
        split at h
        · simp [outcome.next] at h
        · next haw =>
          simp only [outcome.next, Option.some.injEq] at h
          subst h
          refine Or.inl ⟨?_, hst, by simpa using har, by simpa using haw, rfl⟩
          rcases hk with hk | hk
          · exact hk
          · unfold rwlock_acquire_write at hk
            simp [hh, hst, har, haw] at hk
    · next hst =>
      refine Or.inr ⟨?_, by simp [hst], h⟩
      rcases hk with hk | hk
      · unfold rwlock_acquire_write at hk
        simp only [hh, hst, Bool.false_eq_true, ↓reduceIte] at hk
        exact absurd hk (request_q_insert_sleeps _ _ _ _ _)
      · exact hk
    · next hst =>
      refine Or.inr ⟨?_, by simp [hst], h⟩
      rcases hk with hk | hk
      · unfold rwlock_acquire_write at hk
        simp only [hh, hst, Bool.false_eq_true, ↓reduceIte] at hk
        exact absurd hk (request_q_insert_sleeps _ _ _ _ _)
      · exact hk

theorem rwlock_release_read_returns (s s1 : rwlock) (t : thread) :
    rwlock_release_read s t ≠ outcome.sleeping s1 := by
  unfold rwlock_release_read
  intro h
  split at h
  · simp at h
  · split at h
    · simp at h
    · split at h
      · simp at h
      · split at h
        · simp at h
        · simp only at h
          split at h
          · simp at h
          · split at h
            · split at h <;> simp at h
            · split at h
              · simp at h
              · split at h <;> simp at h

theorem rwlock_release_write_returns (s s1 : rwlock) (t : thread) :
    rwlock_release_write s t ≠ outcome.sleeping s1 := by
  unfold rwlock_release_write
  intro h
  split at h
  · simp at h
  · split at h
    · simp at h
    · simp only at h
      split at h
      · split at h <;> simp at h
      · split at h <;> simp at h

theorem rwlock_release_read_next (s s1 : rwlock) (t : thread)
    (h : (rwlock_release_read s t).next = some s1) :
    rwlock_do_i_hold_reader s t = true ∧ s.status = READ ∧
    ∃ rq0 rq, s.active_readers = some rq0 ∧ reader_q_remove rq0 t = some rq ∧
      ((rq.size ≠ 0 ∧ s1 = { s with active_readers := some rq }) ∨
       (rq.size = 0 ∧ s.reqs = [] ∧ s.total_num_writers = 0 ∧
          s1 = { s with active_readers := some rq, status := FREE }) ∨
       (rq.size = 0 ∧ s.total_num_writers ≠ 0 ∧ ∃ pending rest, s.reqs = pending :: rest ∧
          ((pending.type = READ ∧
              s1 = { s with active_readers := pending.readers, reqs := rest,
                            status := READ }) ∨
           (pending.type = WRITE ∧
              s1 = { s with active_readers := some rq, reqs := rest, status := WRITE,
                            active_writer := pending.writer })))) := by
  unfold rwlock_release_read at h
  split at h
  · simp [outcome.next] at h
  · next hh =>
    split at h
    · simp [outcome.next] at h
    · next hst =>
      refine ⟨by simpa using hh, by simpa using hst, ?_⟩
      split at h
      · simp [outcome.next] at h
      · next rq0 hrq0 =>
        split at h
        · simp [outcome.next] at h
        · next rq hrq =>
          refine ⟨rq0, rq, hrq0, hrq, ?_⟩
          simp only at h
          split at h
          · next hsz =>
            simp only [outcome.next, Option.some.injEq] at h
            subst h
            exact Or.inl ⟨hsz, by simp [hrq0]⟩
          · next hsz =>
            have hsz0 : rq.size = 0 := by simpa using hsz
            split at h
            · split at h
              · next hfree =>
                simp only [outcome.next, Option.some.injEq] at h
                subst h
                exact Or.inr (Or.inl ⟨hsz0, hfree.1, hfree.2, by simp [hrq0]⟩)
              · simp [outcome.next] at h
            · next hpend =>
              simp only [not_or] at hpend
              split at h
              · simp [outcome.next] at h
              · next pending rest hq =>
                refine Or.inr (Or.inr ⟨hsz0, hpend.2, pending, rest, hq, ?_⟩)
                split at h
                · next hty =>
                  simp only [outcome.next, Option.some.injEq] at h
                  subst h
                  exact Or.inl ⟨hty, by simp [hty, hrq0]⟩
                · next hty =>
                  simp only [outcome.next, Option.some.injEq] at h
                  subst h
                  exact Or.inr ⟨hty, by simp [hty, hrq0]⟩
                · simp [outcome.next] at h

theorem rwlock_release_write_next (s s1 : rwlock) (t : thread)
    (h : (rwlock_release_write s t).next = some s1) :
    s.active_writer = some t ∧ s.status = WRITE ∧
      ((s.reqs = [] ∧ udec s.total_num_writers = 0 ∧
          s1 = { s with total_num_writers := udec s.total_num_writers,
                        active_writer := none, status := FREE }) ∨
       (∃ pending rest, s.reqs = pending :: rest ∧
          ((pending.type = READ ∧
              s1 = { s with total_num_writers := udec s.total_num_writers,
                            active_writer := none, active_readers := pending.readers,
                            reqs := rest, status := READ }) ∨
           (pending.type = WRITE ∧
              s1 = { s with total_num_writers := udec s.total_num_writers,
                            active_writer := pending.writer, reqs := rest,
                            status := WRITE })))) := by
  unfold rwlock_release_write at h
  split at h
  · simp [outcome.next] at h
  · next hh =>
    split at h
    · simp [outcome.next] at h
    · next hst =>
      refine ⟨by simpa [rwlock_do_i_hold_writer] using hh, by simpa using hst, ?_⟩
      simp only at h
      split at h
      · next hq =>
        split at h
        · next h0 =>
          simp only [outcome.next, Option.some.injEq] at h
          subst h
          exact Or.inl ⟨hq, h0, rfl⟩
        · simp [outcome.next] at h
      · next pending rest hq =>
        refine Or.inr ⟨pending, rest, hq, ?_⟩
        split at h
        · next hty =>
          simp only [outcome.next, Option.some.injEq] at h
          subst h
          exact Or.inl ⟨hty, by simp [hty]⟩
        · next hty =>
          simp only [outcome.next, Option.some.injEq] at h
          subst h
          exact Or.inr ⟨hty, by simp [hty]⟩
        · simp [outcome.next] at h

theorem length_lt_of_nodup (l : List thread) (hn : l.Nodup) (hv : ∀ t ∈ l, thread_ok t) :
    l.length < UINT_RANGE := by
  have hsub : l.toFinset ⊆ Finset.Ico 1 UINT_RANGE := by
    intro x hx
    have := hv x (List.mem_toFinset.mp hx)
    simp only [Finset.mem_Ico]
    exact ⟨this.1, this.2⟩
  have hc := Finset.card_le_card hsub
  rw [List.toFinset_card_of_nodup hn, Nat.card_Ico] at hc
  unfold UINT_RANGE at hc ⊢
  omega

theorem queued_writers_length (q : List request)
    (h : ∀ r ∈ q, r.type = WRITE → r.writer.isSome = true) :
    (queued_writers q).length = writer_entries q := by
  induction q with
  | nil => rfl
  | cons r rest ih =>
    have ih1 := ih (fun x hx => h x (List.mem_cons_of_mem _ hx))
    unfold queued_writers writer_entries at ih1 ⊢
    by_cases hty : r.type = WRITE
    · have hw := h r (List.mem_cons_self _ _) hty
      obtain ⟨w, hw1⟩ := Option.isSome_iff_exists.mp hw
      simp only [List.filterMap_cons, hty, ↓reduceIte, hw1, List.length_cons,
        List.filter_cons, decide_True]
      rw [ih1]
    · simp only [List.filterMap_cons, hty, ↓reduceIte, List.filter_cons, decide_False]
      exact ih1

theorem queued_writers_append (q : List request) (r : request) :
    queued_writers (q ++ [r]) =
      queued_writers q ++ (if r.type = WRITE then r.writer.toList else []) := by
  unfold queued_writers
  rw [List.filterMap_append]
  congr 1
  by_cases hty : r.type = WRITE
  · cases hw : r.writer <;> simp [hty, hw]
  · simp [hty]

theorem writer_entries_append (q : List request) (r : request) :
    writer_entries (q ++ [r]) = writer_entries q + (if r.type = WRITE then 1 else 0) := by
  unfold writer_entries
  rw [List.filter_append, List.length_append]
  congr 1
  by_cases hty : r.type = WRITE <;> simp [hty]

theorem not_mem_queued_writers (s : rwlock) (t : thread) (h : is_waiting s t = false) :
    t ∉ queued_writers s.reqs := by
  unfold is_waiting at h
  unfold queued_writers
  intro hm
  rw [List.mem_filterMap] at hm
  obtain ⟨r, hr, hrt⟩ := hm
  have h1 : waits_on r t = false := by
    have := List.any_eq_false.mp h r hr
    simpa using this
  unfold waits_on at h1
  simp only [Bool.or_eq_false_iff, decide_eq_false_iff_not] at h1
  split at hrt
  · exact h1.1 hrt
  · simp at hrt

theorem known_length (s : rwlock)
    (h : ∀ r ∈ s.reqs, r.type = WRITE → r.writer.isSome = true) :
    (known_writer_threads s).length = writers_known s := by
  unfold known_writer_threads writers_known
  rw [List.length_append, queued_writers_length _ h]
  cases s.active_writer <;> simp

theorem writers_known_lt (s : rwlock)
    (h : ∀ r ∈ s.reqs, r.type = WRITE → r.writer.isSome = true)
    (hn : (known_writer_threads s).Nodup) (hv : ∀ t ∈ known_writer_threads s, thread_ok t) :
    writers_known s < UINT_RANGE := by
  rw [← known_length s h]
  exact length_lt_of_nodup _ hn hv

theorem uinc_of_lt (x : Nat) (h : x + 1 < UINT_RANGE) : uinc x = x + 1 := by
  unfold uinc; exact Nat.mod_eq_of_lt h

theorem udec_succ (x : Nat) (h : x + 1 < UINT_RANGE) : udec (x + 1) = x := by
  unfold udec
  rw [show x + 1 + UINT_RANGE - 1 = x + UINT_RANGE by omega, Nat.add_mod_right]
  exact Nat.mod_eq_of_lt (by omega)

theorem join_queue (q : List request) (tl tl1 : request) (h : q.getLast? = some tl)
    (h1 : tl.type = READ) (h2 : tl1.type = READ) :
    queued_writers (q.dropLast ++ [tl1]) = queued_writers q ∧
    writer_entries (q.dropLast ++ [tl1]) = writer_entries q := by
  have hq : q.dropLast ++ [tl] = q := List.dropLast_append_getLast? tl h
  constructor
  · conv_rhs => rw [← hq]
    rw [queued_writers_append, queued_writers_append]
    simp [h1, h2]
  · conv_rhs => rw [← hq]
    rw [writer_entries_append, writer_entries_append]
    simp [h1, h2]

/-! ## Invariants of the reachable states -/

theorem inv_create : Inv rwlock_create := by
  constructor <;> simp [rwlock_create]

theorem invw_create : InvW rwlock_create := by
  constructor <;> simp [rwlock_create, writers_known, writer_entries, known_writer_threads,
    queued_writers]

theorem inv_request_q_insert (m : allocs) (s s1 : rwlock) (st : status_t) (t : thread)
    (hI : Inv s) (h : (request_q_insert m s st t).next = some s1) : Inv s1 := by
  obtain ⟨r, hq, hst, har, haw, hty, hcase⟩ := request_q_insert_next m s s1 st t h
  refine ⟨?_, ?_, ?_, ?_⟩
  · rw [hst, haw]; exact hI.writer_iff
  · rw [hst, har]; exact hI.no_readers
  · rw [har]; exact hI.active_ok
  · intro x hx
    rw [hq, List.mem_append, List.mem_singleton] at hx
    rcases hx with hx | hx
    · exact hI.queued_ok x hx
    · subst hx
      rcases hcase with ⟨h1, _, _, rq, h4, h5, _⟩ | ⟨h1, _, h3, h4⟩
      · refine ⟨fun hx => ?_, fun rq2 hrq2 => ?_⟩
        · rw [hty, h1] at hx; cases hx
        · rw [h4] at hrq2; cases hrq2; exact h5
      · refine ⟨fun _ => by simp [h3], fun rq2 hrq2 => ?_⟩
        rw [h4] at hrq2; cases hrq2

theorem invw_request_q_insert (m : allocs) (s s1 : rwlock) (st : status_t) (t : thread)
    (hI : Inv s) (hW : InvW s) (ht : thread_ok t) (hw : is_waiting s t = false)
    (hne : st = WRITE → s.active_writer ≠ some t)
    (h : (request_q_insert m s st t).next = some s1) : InvW s1 := by
  have hI1 := inv_request_q_insert m s s1 st t hI h
  obtain ⟨r, hq, hst, har, haw, hty, hcase⟩ := request_q_insert_next m s s1 st t h
  have hkn : known_writer_threads s1 =
      known_writer_threads s ++ (if st = WRITE then [t] else []) := by
    unfold known_writer_threads
    rw [haw, hq, queued_writers_append, List.append_assoc]
    congr 2
    rcases hcase with ⟨h1, _, _, _⟩ | ⟨h1, _, h3, _⟩
    · simp [hty, h1]
    · simp [hty, h1, h3]
  have hnot : st = WRITE → t ∉ known_writer_threads s := by
    intro hst1
    unfold known_writer_threads
    rw [List.mem_append]
    rintro (hx | hx)
    · apply hne hst1
      cases haw0 : s.active_writer with
      | none => rw [haw0] at hx; simp at hx
      | some w => rw [haw0] at hx; simp at hx; rw [hx]
    · exact not_mem_queued_writers s t hw hx
  have hnd : (known_writer_threads s1).Nodup := by
    rw [hkn]
    by_cases hst1 : st = WRITE
    · simp only [hst1, ↓reduceIte]
      rw [List.nodup_append]
      refine ⟨hW.nodup, List.nodup_singleton t, ?_⟩
      intro a ha hb
      rw [List.mem_singleton] at hb
      subst hb
      exact hnot hst1 ha
    · simp only [hst1, ↓reduceIte, List.append_nil]
      exact hW.nodup
  have hv : ∀ x ∈ known_writer_threads s1, thread_ok x := by
    intro x hx
    rw [hkn, List.mem_append] at hx
    rcases hx with hx | hx
    · exact hW.valid x hx
    · by_cases hst1 : st = WRITE
      · simp only [hst1, ↓reduceIte, List.mem_singleton] at hx
        subst hx; exact ht
      · simp [hst1] at hx
  have hlt := writers_known_lt s1 (fun x hx => (hI1.queued_ok x hx).1) hnd hv
  refine ⟨?_, hnd, hv⟩
  have hk1 : writers_known s1 = writers_known s + (if st = WRITE then 1 else 0) := by
    unfold writers_known
    rw [haw, hq, writer_entries_append, hty]
    omega
  rcases hcase with ⟨h1, h2, _, _⟩ | ⟨h1, h2, _, _⟩
  · rw [h2, hk1, hW.count]; simp [h1]
  · rw [h2, hk1, hW.count]
    simp only [h1, ↓reduceIte] at hk1 ⊢
    exact uinc_of_lt _ (by omega)

theorem inv_acquire_read (m : allocs) (s s1 : rwlock) (t : thread) (hI : Inv s)
    (h : (rwlock_acquire_read m s t).next = some s1) : Inv s1 := by
  obtain ⟨_, hcase⟩ := rwlock_acquire_read_next m s s1 t h
  rcases hcase with ⟨_, hst, har, haw, rq1, hins, hs1⟩ |
    ⟨_, hst, htot, hq, haw, rq, rq1, har, hins, hs1⟩ | ⟨_, hwait⟩
  · subst hs1
    have hok : rq_ok rq1 :=
      reader_q_insert_ok _ _ _ _ hins ⟨by simp [UINT_RANGE], Or.inl (by simp)⟩
    refine ⟨?_, ?_, ?_, hI.queued_ok⟩
    · simp [haw]
    · intro hx; cases hx
    · intro rq hrq
      simp only [Option.some.injEq] at hrq
      subst hrq; exact hok
  · subst hs1
    have hok : rq_ok rq1 := reader_q_insert_ok _ _ _ _ hins (hI.active_ok rq har)
    refine ⟨hI.writer_iff, ?_, ?_, hI.queued_ok⟩
    · intro hx
      simp only at hx
      rw [hst] at hx; cases hx
    · intro rq2 hrq
      simp only [Option.some.injEq] at hrq
      subst hrq; exact hok
  · obtain ⟨hst, _, tl, htl, hj⟩ := rwlock_acquire_read_wait_next m s s1 t hwait
    rcases hj with ⟨hty, rq, rq1, hrq, hins, hs1⟩ | ⟨_, hreq⟩
    · subst hs1
      have hmem : tl ∈ s.reqs := List.mem_of_mem_getLast? htl
      have hok : rq_ok rq1 :=
        reader_q_insert_ok _ _ _ _ hins ((hI.queued_ok tl hmem).2 rq hrq)
      refine ⟨hI.writer_iff, hI.no_readers, hI.active_ok, ?_⟩
      intro x hx
      simp only [List.mem_append, List.mem_singleton] at hx
      rcases hx with hx | hx
      · exact hI.queued_ok x (List.mem_of_mem_dropLast hx)
      · subst hx
        refine ⟨fun hx => ?_, fun rq2 hrq2 => ?_⟩
        · simp only at hx; rw [hty] at hx; cases hx
        · simp only [Option.some.injEq] at hrq2
          subst hrq2; exact hok
    · exact inv_request_q_insert m s s1 READ t hI hreq

theorem invw_acquire_read (m : allocs) (s s1 : rwlock) (t : thread)
    (hI : Inv s) (hW : InvW s) (ht : thread_ok t) (hw : is_waiting s t = false)
    (h : (rwlock_acquire_read m s t).next = some s1) : InvW s1 := by
  obtain ⟨_, hcase⟩ := rwlock_acquire_read_next m s s1 t h
  rcases hcase with ⟨_, _, _, _, rq1, _, hs1⟩ | ⟨_, _, _, _, _, rq, rq1, _, _, hs1⟩ |
    ⟨_, hwait⟩
  · subst hs1; exact ⟨hW.count, hW.nodup, hW.valid⟩
  · subst hs1; exact ⟨hW.count, hW.nodup, hW.valid⟩
  · obtain ⟨hst, _, tl, htl, hj⟩ := rwlock_acquire_read_wait_next m s s1 t hwait
    rcases hj with ⟨hty, rq, rq1, hrq, hins, hs1⟩ | ⟨_, hreq⟩
    · subst hs1
      have hj := join_queue s.reqs tl { tl with readers := some rq1 } htl hty hty
      refine ⟨?_, ?_, ?_⟩
      · have := hW.count
        unfold writers_known at this ⊢
        simp only
        rw [hj.2]; exact this
      · have := hW.nodup
        unfold known_writer_threads at this ⊢
        simp only
        rw [hj.1]; exact this
      · have := hW.valid
        unfold known_writer_threads at this ⊢
        simp only
        rw [hj.1]; exact this
    · exact invw_request_q_insert m s s1 READ t hI hW ht hw (fun hx => by cases hx) hreq

theorem inv_acquire_write (m : allocs) (s s1 : rwlock) (t : thread) (hI : Inv s)
    (h : (rwlock_acquire_write m s t).next = some s1) : Inv s1 := by
  obtain ⟨_, hcase⟩ := rwlock_acquire_write_next m s s1 t h
  rcases hcase with ⟨_, hst, har, haw, hs1⟩ | ⟨_, _, hreq⟩
  · subst hs1
    refine ⟨?_, ?_, hI.active_ok, hI.queued_ok⟩
    · simp
    · intro _ rq hrq
      simp only [har] at hrq; cases hrq
  · exact inv_request_q_insert m s s1 WRITE t hI hreq

theorem invw_acquire_write (m : allocs) (s s1 : rwlock) (t : thread)
    (hI : Inv s) (hW : InvW s) (ht : thread_ok t) (hw : is_waiting s t = false)
    (h : (rwlock_acquire_write m s t).next = some s1) : InvW s1 := by
  have hI1 := inv_acquire_write m s s1 t hI h
  obtain ⟨hne, hcase⟩ := rwlock_acquire_write_next m s s1 t h
  rcases hcase with ⟨_, hst, har, haw, hs1⟩ | ⟨_, _, hreq⟩
  · have e1 : s1.active_writer = some t := by rw [hs1]
    have e2 : s1.reqs = s.reqs := by rw [hs1]
    have e5 : s1.total_num_writers = uinc s.total_num_writers := by rw [hs1]
    have hkn : known_writer_threads s1 = t :: known_writer_threads s := by
      unfold known_writer_threads
      simp [haw, e1, e2]
    have hnot : t ∉ known_writer_threads s := by
      unfold known_writer_threads
      simp only [haw, Option.toList_none, List.nil_append]
      exact not_mem_queued_writers s t hw
    have hnd : (known_writer_threads s1).Nodup := by
      rw [hkn]; exact List.nodup_cons.mpr ⟨hnot, hW.nodup⟩
    have hv : ∀ x ∈ known_writer_threads s1, thread_ok x := by
      intro x hx
      rw [hkn, List.mem_cons] at hx
      rcases hx with hx | hx
      · subst hx; exact ht
      · exact hW.valid x hx
    have hlt := writers_known_lt s1 (fun x hx => (hI1.queued_ok x hx).1) hnd hv
    refine ⟨?_, hnd, hv⟩
    have hc := hW.count
    unfold writers_known at hc hlt ⊢
    simp only [haw, e1, e2, Option.isSome_none, Bool.false_eq_true, ↓reduceIte, zero_add,
      Option.isSome_some] at hc hlt ⊢
    rw [e5, hc]
    rw [uinc_of_lt _ (by omega)]
    omega
  · exact invw_request_q_insert m s s1 WRITE t hI hW ht hw (fun _ => hne) hreq

theorem release_read_no_writer (s : rwlock) (hI : Inv s) (hst : s.status = READ) :
    s.active_writer = none := by
  have := hI.writer_iff
  rw [hst] at this
  cases hx : s.active_writer with
  | none => rfl
  | some w => rw [hx] at this; simp at this

theorem inv_release_read (s s1 : rwlock) (t : thread) (hI : Inv s)
    (h : (rwlock_release_read s t).next = some s1) : Inv s1 := by
  obtain ⟨_, hst, rq0, rq, har, hrem, hcase⟩ := rwlock_release_read_next s s1 t h
  obtain ⟨hok, hempty⟩ := reader_q_remove_ok rq0 rq t hrem (hI.active_ok rq0 har)
  have haw := release_read_no_writer s hI hst
  rcases hcase with ⟨_, hs1⟩ | ⟨_, _, _, hs1⟩ | ⟨hsz, _, pending, rest, hq, hp⟩
  · subst hs1
    refine ⟨hI.writer_iff, ?_, ?_, hI.queued_ok⟩
    · intro hx
      simp only at hx
      rw [hst] at hx; cases hx
    · intro rq2 hrq
      simp only [Option.some.injEq] at hrq
      subst hrq; exact hok
  · subst hs1
    refine ⟨?_, ?_, ?_, hI.queued_ok⟩
    · simp [haw]
    · intro hx; cases hx
    · intro rq2 hrq
      simp only [Option.some.injEq] at hrq
      subst hrq; exact hok
  · have hqok : ∀ x ∈ rest,
        (x.type = WRITE → x.writer.isSome = true) ∧ ∀ rq, x.readers = some rq → rq_ok rq :=
      fun x hx => hI.queued_ok x (by rw [hq]; exact List.mem_cons_of_mem _ hx)
    have hpok := hI.queued_ok pending (by rw [hq]; exact List.mem_cons_self _ _)
    rcases hp with ⟨hty, hs1⟩ | ⟨hty, hs1⟩
    · subst hs1
      refine ⟨?_, ?_, ?_, hqok⟩
      · simp [haw]
      · intro hx; cases hx
      · intro rq2 hrq; exact hpok.2 rq2 hrq
    · subst hs1
      obtain ⟨w, hw⟩ := Option.isSome_iff_exists.mp (hpok.1 hty)
      refine ⟨?_, ?_, ?_, hqok⟩
      · simp [hw]
      · intro _ rq2 hrq
        simp only [Option.some.injEq] at hrq
        subst hrq
        exact ⟨hempty hsz, hsz⟩
      · intro rq2 hrq
        simp only [Option.some.injEq] at hrq
        subst hrq; exact hok

theorem invw_release_read (s s1 : rwlock) (t : thread) (hI : Inv s) (hW : InvW s)
    (h : (rwlock_release_read s t).next = some s1) : InvW s1 := by
  obtain ⟨_, hst, rq0, rq, har, hrem, hcase⟩ := rwlock_release_read_next s s1 t h
  have haw := release_read_no_writer s hI hst
  rcases hcase with ⟨_, hs1⟩ | ⟨_, _, _, hs1⟩ | ⟨hsz, _, pending, rest, hq, hp⟩
  · subst hs1; exact ⟨hW.count, hW.nodup, hW.valid⟩
  · subst hs1; exact ⟨hW.count, hW.nodup, hW.valid⟩
  · have hpok := hI.queued_ok pending (by rw [hq]; exact List.mem_cons_self _ _)
    rcases hp with ⟨hty, hs1⟩ | ⟨hty, hs1⟩
    · subst hs1
      have hqw : queued_writers s.reqs = queued_writers rest := by
        rw [hq]; unfold queued_writers; simp [hty]
      have hwe : writer_entries s.reqs = writer_entries rest := by
        rw [hq]; unfold writer_entries; simp [hty]
      refine ⟨?_, ?_, ?_⟩
      · have := hW.count
        unfold writers_known at this ⊢
        simp only
        rw [← hwe]; exact this
      · have := hW.nodup
        unfold known_writer_threads at this ⊢
        simp only
        rw [← hqw]; exact this
      · have := hW.valid
        unfold known_writer_threads at this ⊢
        simp only
        rw [← hqw]; exact this
    · subst hs1
      obtain ⟨w, hw⟩ := Option.isSome_iff_exists.mp (hpok.1 hty)
      have hqw : queued_writers s.reqs = w :: queued_writers rest := by
        rw [hq]; unfold queued_writers; simp [hty, hw]
      have hwe : writer_entries s.reqs = writer_entries rest + 1 := by
        rw [hq]; unfold writer_entries; simp [hty]
      refine ⟨?_, ?_, ?_⟩
      · have := hW.count
        unfold writers_known at this ⊢
        simp only [haw, hwe, hw] at this ⊢
        simp only [Option.isSome_none, Bool.false_eq_true, ↓reduceIte, zero_add,
          Option.isSome_some] at this ⊢
        omega
      · have := hW.nodup
        unfold known_writer_threads at this ⊢
        simp only [haw, hqw, hw] at this ⊢
        simpa using this
      · have := hW.valid
        unfold known_writer_threads at this ⊢
        simp only [haw, hqw, hw] at this ⊢
        simpa using this

theorem inv_release_write (s s1 : rwlock) (t : thread) (hI : Inv s)
    (h : (rwlock_release_write s t).next = some s1) : Inv s1 := by
  obtain ⟨haw, hst, hcase⟩ := rwlock_release_write_next s s1 t h
  rcases hcase with ⟨hq, h0, hs1⟩ | ⟨pending, rest, hq, hp⟩
  · subst hs1
    refine ⟨?_, ?_, hI.active_ok, hI.queued_ok⟩
    · simp
    · intro hx; cases hx
  · have hqok : ∀ x ∈ rest,
        (x.type = WRITE → x.writer.isSome = true) ∧ ∀ rq, x.readers = some rq → rq_ok rq :=
      fun x hx => hI.queued_ok x (by rw [hq]; exact List.mem_cons_of_mem _ hx)
    have hpok := hI.queued_ok pending (by rw [hq]; exact List.mem_cons_self _ _)
    rcases hp with ⟨hty, hs1⟩ | ⟨hty, hs1⟩
    · subst hs1
      refine ⟨?_, ?_, ?_, hqok⟩
      · simp
      · intro hx; cases hx
      · intro rq2 hrq; exact hpok.2 rq2 hrq
    · subst hs1
      obtain ⟨w, hw⟩ := Option.isSome_iff_exists.mp (hpok.1 hty)
      refine ⟨?_, ?_, ?_, hqok⟩
      · simp [hw]
      · intro _ rq2 hrq
        exact hI.no_readers hst rq2 hrq
      · exact hI.active_ok

theorem invw_release_write (s s1 : rwlock) (t : thread) (hI : Inv s) (hW : InvW s)
    (h : (rwlock_release_write s t).next = some s1) : InvW s1 := by
  obtain ⟨haw, hst, hcase⟩ := rwlock_release_write_next s s1 t h
  have hlt := writers_known_lt s (fun x hx => (hI.queued_ok x hx).1) hW.nodup hW.valid
  have hc := hW.count
  have hnd := hW.nodup
  have hv := hW.valid
  unfold writers_known at hc hlt
  unfold known_writer_threads at hnd hv
  simp only [haw, Option.isSome_some, ↓reduceIte, Option.toList_some, List.singleton_append,
    List.nodup_cons, List.mem_cons, forall_eq_or_imp] at hc hlt hnd hv
  rcases hcase with ⟨hq, h0, hs1⟩ | ⟨pending, rest, hq, hp⟩
  · subst hs1
    refine ⟨?_, ?_, ?_⟩
    · unfold writers_known
      simp [hq, h0, writer_entries]
    · unfold known_writer_threads
      simp [hq, queued_writers]
    · unfold known_writer_threads
      simp [hq, queued_writers]
  · have hpok := hI.queued_ok pending (by rw [hq]; exact List.mem_cons_self _ _)
    rcases hp with ⟨hty, hs1⟩ | ⟨hty, hs1⟩
    · subst hs1
      have hqw : queued_writers s.reqs = queued_writers rest := by
        rw [hq]; unfold queued_writers; simp [hty]
      have hwe : writer_entries s.reqs = writer_entries rest := by
        rw [hq]; unfold writer_entries; simp [hty]
      rw [hwe] at hc hlt
      rw [hqw] at hnd hv
      refine ⟨?_, ?_, ?_⟩
      · unfold writers_known
        simp only [Option.isSome_none, Bool.false_eq_true, ↓reduceIte, zero_add]
        rw [hc, Nat.add_comm]
        exact udec_succ _ (by omega)
      · unfold known_writer_threads
        simpa using hnd.2
      · unfold known_writer_threads
        simpa using hv.2
    · subst hs1
      obtain ⟨w, hw⟩ := Option.isSome_iff_exists.mp (hpok.1 hty)
      have hqw : queued_writers s.reqs = w :: queued_writers rest := by
        rw [hq]; unfold queued_writers; simp [hty, hw]
      have hwe : writer_entries s.reqs = writer_entries rest + 1 := by
        rw [hq]; unfold writer_entries; simp [hty]
      rw [hwe] at hc hlt
      rw [hqw] at hnd hv
      refine ⟨?_, ?_, ?_⟩
      · unfold writers_known
        simp only [hw, Option.isSome_some, ↓reduceIte]
        rw [hc, show 1 + (writer_entries rest + 1) = (1 + writer_entries rest) + 1 by omega]
        exact udec_succ _ (by omega)
      · unfold known_writer_threads
        simpa [hw] using hnd.2
      · unfold known_writer_threads
        simpa [hw] using hv.2

theorem inv_of_reachable (s : rwlock) (h : Reachable s) : Inv s := by
  induction h with
  | create => exact inv_create
  | step o m t s s1 _ hstep ih =>
    cases o with
    | acquire_read => exact inv_acquire_read m s s1 t ih hstep
    | acquire_write => exact inv_acquire_write m s s1 t ih hstep
    | release_read => exact inv_release_read s s1 t ih hstep
    | release_write => exact inv_release_write s s1 t ih hstep

theorem reachable_of_awake (s : rwlock) (h : ReachableAwake s) : Reachable s := by
  induction h with
  | create => exact Reachable.create
  | step o m t s s1 _ _ _ hstep ih => exact Reachable.step o m t s s1 ih hstep

theorem invw_of_awake (s : rwlock) (h : ReachableAwake s) : InvW s := by
  induction h with
  | create => exact invw_create
  | step o m t s s1 hr ht hw hstep ih =>
    have hI := inv_of_reachable s (reachable_of_awake s hr)
    cases o with
    | acquire_read => exact invw_acquire_read m s s1 t hI ih ht hw hstep
    | acquire_write => exact invw_acquire_write m s s1 t hI ih ht hw hstep
    | release_read => exact invw_release_read s s1 t hI ih hstep
    | release_write => exact invw_release_write s s1 t hI ih hstep

/-! ## The claims -/

theorem do_i_hold_reader_iff (s : rwlock) (t : thread) :
    rwlock_do_i_hold_reader s t = true ↔ t ∈ active_reader_threads s := by
  unfold rwlock_do_i_hold_reader active_reader_threads
  cases s.active_readers with
  | none => simp
  | some rq =>
    simp only [List.any_eq_true, decide_eq_true_eq, List.mem_map]

theorem reach_one_reader : ReachableAwake st_one_reader :=
  ReachableAwake.step rwlock_op.acquire_read (allocs.all 10) 1 rwlock_create st_one_reader
    ReachableAwake.create (by decide) (by decide) (by decide)

theorem reach_reader_and_queued_writer : ReachableAwake st_reader_and_queued_writer :=
  ReachableAwake.step rwlock_op.acquire_write (allocs.all 0) 2 st_one_reader
    st_reader_and_queued_writer reach_one_reader (by decide) (by decide) (by decide)

theorem reach_one_writer : ReachableAwake st_one_writer :=
  ReachableAwake.step rwlock_op.acquire_write (allocs.all 0) 1 rwlock_create st_one_writer
    ReachableAwake.create (by decide) (by decide) (by decide)

theorem reach_after_read_phase : ReachableAwake st_after_read_phase :=
  ReachableAwake.step rwlock_op.release_read (allocs.all 0) 1 st_one_reader st_after_read_phase
    reach_one_reader (by decide) (by decide) (by decide)

theorem reach_reader_left : ReachableAwake st_reader_left :=
  ReachableAwake.step rwlock_op.release_read (allocs.all 0) 2
    { st_one_reader with
      active_readers := some { head := [{ addr := 10, t := 1 }, { addr := 11, t := 2 }],
                               tail := some 11, size := 2 } }
    st_reader_left
    (ReachableAwake.step rwlock_op.acquire_read (allocs.all 11) 2 st_one_reader _
      reach_one_reader (by decide) (by decide) (by decide))
    (by decide) (by decide) (by decide)

/-- Claim C1 (RW exclusion).  In every state reached from `rwlock_create` by any sequence
of calls of the four operations, by any threads, that do not stop the kernel, no thread
is recorded in the active reader set while an active writer is set (and the counter of
the set is then zero), and the mode is WRITE exactly when an active writer is set. -/
theorem rwlock_exclusion (s : rwlock) (h : Reachable s) :
    ¬ (active_reader_threads s ≠ [] ∧ s.active_writer.isSome = true) ∧
    (s.status = WRITE ↔ s.active_writer.isSome = true) ∧
    (s.active_writer.isSome = true → ∀ rq, s.active_readers = some rq → rq.size = 0) := by
  have hI := inv_of_reachable s h
  refine ⟨?_, hI.writer_iff, ?_⟩
  · rintro ⟨hne, hw⟩
    apply hne
    unfold active_reader_threads
    cases har : s.active_readers with
    | none => rfl
    | some rq =>
      have := (hI.no_readers (hI.writer_iff.mpr hw) rq har).1
      simp [this]
  · intro hw rq har
    exact (hI.no_readers (hI.writer_iff.mpr hw) rq har).2

/-- Instance of claim C1: the state with reader 1 active and writer 2 queued. -/
theorem rwlock_exclusion_witness :
    Reachable st_reader_and_queued_writer ∧
    (¬ (active_reader_threads st_reader_and_queued_writer ≠ [] ∧
          st_reader_and_queued_writer.active_writer.isSome = true) ∧
      (st_reader_and_queued_writer.status = WRITE ↔
          st_reader_and_queued_writer.active_writer.isSome = true) ∧
      (st_reader_and_queued_writer.active_writer.isSome = true →
          ∀ rq, st_reader_and_queued_writer.active_readers = some rq → rq.size = 0)) :=
  ⟨reachable_of_awake _ reach_reader_and_queued_writer,
    rwlock_exclusion st_reader_and_queued_writer
      (reachable_of_awake _ reach_reader_and_queued_writer)⟩

/-- Claim C6 (releasing without holding).  In every state, `rwlock_release_read` by a
thread that is not recorded in the active reader set and `rwlock_release_write` by a
thread that is not the active writer stop the kernel on their first assertion, with every
field of the lock as it was before the call. -/
theorem release_without_holding_is_fatal (s : rwlock) (t : thread) :
    (t ∉ active_reader_threads s →
      rwlock_release_read s t = outcome.crashed crash.panic s) ∧
    (s.active_writer ≠ some t →
      rwlock_release_write s t = outcome.crashed crash.panic s) := by
  constructor
  · intro h
    have h1 : rwlock_do_i_hold_reader s t = false := by
      cases hx : rwlock_do_i_hold_reader s t with
      | false => rfl
      | true => exact absurd ((do_i_hold_reader_iff s t).mp hx) h
    unfold rwlock_release_read
    simp [h1]
  · intro h
    unfold rwlock_release_write
    simp [rwlock_do_i_hold_writer, h]

/-- Instance of claim C6: both releases on the freshly created lock. -/
theorem release_without_holding_is_fatal_witness :
    (1 ∉ active_reader_threads rwlock_create ∧ rwlock_create.active_writer ≠ some 1) ∧
    rwlock_release_read rwlock_create 1 = outcome.crashed crash.panic rwlock_create ∧
    rwlock_release_write rwlock_create 1 = outcome.crashed crash.panic rwlock_create :=
  ⟨by decide,
    (release_without_holding_is_fatal rwlock_create 1).1 (by decide),
    (release_without_holding_is_fatal rwlock_create 1).2 (by decide)⟩

/-- Claim C9 (writers-known).  In every state reached from `rwlock_create` by calls that
do not stop the kernel, each made by a thread able to make it, `total_num_writers` is one
for the active writer, if there is one, plus the number of writer-request entries in the
queue (the 32-bit counter does not wrap). -/
theorem writers_known_invariant (s : rwlock) (h : ReachableAwake s) :
    s.total_num_writers =
      (if s.active_writer.isSome then 1 else 0) +
        (s.reqs.filter (fun r => r.type = WRITE)).length :=
  (invw_of_awake s h).count

/-- Instance of claim C9: the state with reader 1 active and writer 2 queued. -/
theorem writers_known_invariant_witness :
    ReachableAwake st_reader_and_queued_writer ∧
    st_reader_and_queued_writer.total_num_writers =
      (if st_reader_and_queued_writer.active_writer.isSome then 1 else 0) +
        (st_reader_and_queued_writer.reqs.filter (fun r => r.type = WRITE)).length :=
  ⟨reach_reader_and_queued_writer,
    writers_known_invariant st_reader_and_queued_writer reach_reader_and_queued_writer⟩

theorem acquire_read_crashes_in_read_mode (m : allocs) (s : rwlock) (t : thread)
    (hh : rwlock_do_i_hold_reader s t = false) (hst : s.status = READ)
    (hw : s.total_num_writers ≠ 0) :
    rwlock_acquire_read m s t = outcome.crashed crash.panic s := by
  unfold rwlock_acquire_read
  simp only [hh, Bool.false_eq_true, ↓reduceIte, hst, hw]
  unfold rwlock_acquire_read_wait
  simp [hst]

theorem acquire_read_crashes_on_empty_queue (m : allocs) (s : rwlock) (t : thread)
    (hh : rwlock_do_i_hold_reader s t = false) (hst : s.status = WRITE)
    (hw : s.total_num_writers ≠ 0) (hq : s.reqs = []) :
    rwlock_acquire_read m s t = outcome.crashed crash.null_deref s := by
  unfold rwlock_acquire_read
  simp only [hh, Bool.false_eq_true, ↓reduceIte, hst]
  unfold rwlock_acquire_read_wait
  simp [hst, hw, hq]

theorem acquire_read_crashes_on_stale_set (m : allocs) (s : rwlock) (t : thread)
    (hst : s.status = FREE) (har : s.active_readers.isSome = true) :
    rwlock_acquire_read m s t = outcome.crashed crash.panic s := by
  unfold rwlock_acquire_read
  split
  · rfl
  · simp [hst, har]

theorem release_read_free_keeps_set (s s1 : rwlock) (t : thread)
    (h : (rwlock_release_read s t).next = some s1) (hfree : s1.status = FREE) :
    s1.active_readers.isSome = true := by
  obtain ⟨_, hst, rq0, rq, _, _, hcase⟩ := rwlock_release_read_next s s1 t h
  rcases hcase with ⟨_, hs1⟩ | ⟨_, _, _, hs1⟩ | ⟨_, _, pending, rest, _, hp⟩
  · rw [hs1] at hfree; simp only at hfree; rw [hst] at hfree; cases hfree
  · rw [hs1]; rfl
  · rcases hp with ⟨_, hs1⟩ | ⟨_, hs1⟩
    · rw [hs1] at hfree; cases hfree
    · rw [hs1] at hfree; cases hfree

theorem no_acquire_read_after_read_phase (m : allocs) (s s1 : rwlock) (t t2 : thread)
    (h : (rwlock_release_read s t).next = some s1) (hfree : s1.status = FREE) :
    rwlock_acquire_read m s1 t2 = outcome.crashed crash.panic s1 :=
  acquire_read_crashes_on_stale_set m s1 t2 hfree (release_read_free_keeps_set s s1 t h hfree)

/-- Claim C2, evaluated on the code.  Reader 1 holds the lock and writer 2 is queued (a
reachable state with mode READ, a non-empty active reader set and one writer known).
Thread 3, not an active reader, calls `rwlock_acquire_read`: whatever the allocator
returns, the call stops the kernel on the assertion at the label `case WRITE:`, and
thread 3 is not placed in the queue. -/
theorem reader_behind_queued_writer_crashes :
    rwlock_run rwlock_create
        [(rwlock_op.acquire_read, allocs.all 10, 1), (rwlock_op.acquire_write, allocs.all 0, 2)]
      = some st_reader_and_queued_writer ∧
    ReachableAwake st_reader_and_queued_writer ∧
    st_reader_and_queued_writer.status = READ ∧
    active_reader_threads st_reader_and_queued_writer = [1] ∧
    st_reader_and_queued_writer.total_num_writers = 1 ∧
    ∀ m, rwlock_acquire_read m st_reader_and_queued_writer 3 =
      outcome.crashed crash.panic st_reader_and_queued_writer :=
  ⟨by decide, reach_reader_and_queued_writer, rfl, rfl, rfl,
    fun m => acquire_read_crashes_in_read_mode m _ 3 (by decide) rfl (by decide)⟩

/-- Claim C3, evaluated on the code.  Writer 1 holds the lock and the queue is empty (a
reachable state).  Thread 2 calls `rwlock_acquire_read`: whatever the allocator returns,
the call reads `rwlock->req_tail->type` through the NULL `req_tail` and the kernel stops;
no reader-group entry is created. -/
theorem reader_behind_active_writer_crashes :
    rwlock_run rwlock_create [(rwlock_op.acquire_write, allocs.all 0, 1)]
      = some st_one_writer ∧
    ReachableAwake st_one_writer ∧
    st_one_writer.status = WRITE ∧ st_one_writer.active_writer = some 1 ∧
    st_one_writer.reqs = [] ∧
    ∀ m, rwlock_acquire_read m st_one_writer 2 =
      outcome.crashed crash.null_deref st_one_writer :=
  ⟨by decide, reach_one_writer, rfl, rfl, rfl,
    fun m => acquire_read_crashes_on_empty_queue m _ 2 (by decide) rfl (by decide) rfl⟩

/-- Claim C4, evaluated on the code.  Thread 1 takes a fresh lock for reading and
releases it: the mode is FREE again, but `active_readers` still points to the emptied
set.  A following `rwlock_acquire_read` (by any thread, whatever the allocator returns)
stops the kernel on `KASSERT(!rwlock->active_readers)`, whereas on the fresh lock the
same call returns with the caller as the only active reader. -/
theorem lock_not_reusable_after_read_phase :
    rwlock_run rwlock_create
        [(rwlock_op.acquire_read, allocs.all 10, 1), (rwlock_op.release_read, allocs.all 0, 1)]
      = some st_after_read_phase ∧
    ReachableAwake st_after_read_phase ∧
    st_after_read_phase.status = FREE ∧
    (∀ m t, rwlock_acquire_read m st_after_read_phase t =
      outcome.crashed crash.panic st_after_read_phase) ∧
    rwlock_acquire_read (allocs.all 10) rwlock_create 1 = outcome.returned st_one_reader :=
  ⟨by decide, reach_after_read_phase, rfl,
    fun m t => acquire_read_crashes_on_stale_set m _ t rfl rfl, by decide⟩

/-- Claim C10, evaluated on the code.  Threads 1 and 2 take a fresh lock for reading and
thread 2 releases it: `reader_q_remove` unlinks the last node without moving `tail`.  The
state is reachable, its mode is READ and no writer is known.  Thread 3, not an active
reader, calls `rwlock_acquire_read`: whatever the allocator returns, the call stops the
kernel in `reader_q_insert` (`size` is 1 but `head` and `tail` differ). -/
theorem reader_after_departure_crashes :
    rwlock_run rwlock_create
        [(rwlock_op.acquire_read, allocs.all 10, 1), (rwlock_op.acquire_read, allocs.all 11, 2),
         (rwlock_op.release_read, allocs.all 0, 2)]
      = some st_reader_left ∧
    ReachableAwake st_reader_left ∧
    st_reader_left.status = READ ∧ st_reader_left.total_num_writers = 0 ∧
    st_reader_left.reqs = [] ∧ 3 ∉ active_reader_threads st_reader_left ∧
    ∀ m, rwlock_acquire_read m st_reader_left 3 =
      outcome.crashed crash.panic st_reader_left := by
  refine ⟨by decide, reach_reader_left, rfl, rfl, rfl, by decide, ?_⟩
  intro m
  cases hm : m.to_insert with
  | none =>
    unfold rwlock_acquire_read
    simp [hm, rwlock_do_i_hold_reader, st_reader_left, reader_q_insert]
  | some a =>
    unfold rwlock_acquire_read
    simp [hm, rwlock_do_i_hold_reader, st_reader_left, reader_q_insert, reader_q.head_ptr]

theorem request_q_insert_alloc_failure (m : allocs) (s : rwlock) (st : status_t) (t : thread)
    (hn : m.cv_name = true ∧ m.lock_name = true) (hst : st ≠ FREE)
    (hf : m.new_req = false ∨ m.req_cv = false ∨ m.req_cv_lock = false ∨
      (st = READ ∧ (m.rq = false ∨ m.to_insert = none))) :
    request_q_insert m s st t =
      outcome.crashed crash.panic
        { s with naming_counter :=
            if m.new_req = true then uinc s.naming_counter else s.naming_counter } := by
  unfold request_q_insert
  by_cases h1 : m.new_req = false
  · simp [h1]
  · have h1t : m.new_req = true := by simpa using h1
    simp only [h1, ↓reduceIte, hn.1, hn.2, Bool.true_eq_false, or_self, h1t]
    by_cases h2 : m.req_cv = false
    · simp [h2]
    · simp only [h2, ↓reduceIte]
      by_cases h3 : m.req_cv_lock = false
      · simp [h3]
      · simp only [h3, ↓reduceIte]
        rcases hf with hf | hf | hf | ⟨hr, hf⟩
        · exact absurd hf h1
        · exact absurd hf h2
        · exact absurd hf h3
        · subst hr
          simp only
          rcases hf with hf | hf
          · simp [reader_q_create, hf]
          · cases hrq : m.rq
            · simp [reader_q_create]
            · simp [reader_q_create, reader_q_insert, hf]

/-- Claim C8 as the code has it.  When `rwlock_acquire_write` or `rwlock_acquire_read`
creates a queue entry and the allocation of the request record, of its condition
variable, of its mutex, of its reader set or of the node of that set fails (the name
buffers being allocated), the call stops the kernel on a failed assertion: it does not
return to its caller.  At that moment mode, active holders, queue and writers-known are
those before the call; the naming counter is the one before the call when the request
record could not be allocated and has been incremented otherwise. -/
theorem alloc_failure_stops_kernel (m : allocs) (s : rwlock) (t : thread)
    (hn : m.cv_name = true ∧ m.lock_name = true) :
    (s.status ≠ FREE → s.active_writer ≠ some t →
      (m.new_req = false ∨ m.req_cv = false ∨ m.req_cv_lock = false) →
      rwlock_acquire_write m s t =
        outcome.crashed crash.panic
          { s with naming_counter :=
              if m.new_req = true then uinc s.naming_counter else s.naming_counter }) ∧
    (t ∉ active_reader_threads s → s.status = WRITE → s.total_num_writers ≠ 0 →
      (∃ req_tail, s.reqs.getLast? = some req_tail ∧ req_tail.type = WRITE) →
      (m.new_req = false ∨ m.req_cv = false ∨ m.req_cv_lock = false ∨ m.rq = false ∨
        m.to_insert = none) →
      rwlock_acquire_read m s t =
        outcome.crashed crash.panic
          { s with naming_counter :=
              if m.new_req = true then uinc s.naming_counter else s.naming_counter }) := by
  constructor
  · intro hst hne hf
    have hreq := request_q_insert_alloc_failure m s WRITE t hn (by simp)
      (by rcases hf with hf | hf | hf
          · exact Or.inl hf
          · exact Or.inr (Or.inl hf)
          · exact Or.inr (Or.inr (Or.inl hf)))
    unfold rwlock_acquire_write
    have hh : rwlock_do_i_hold_writer s t = false := by
      simp [rwlock_do_i_hold_writer, hne]
    simp only [hh, Bool.false_eq_true, ↓reduceIte]
    split
    · next hs => exact absurd hs hst
    · exact hreq
    · exact hreq
  · intro hnr hst hw htl hf
    obtain ⟨req_tail, htl1, hty⟩ := htl
    have hreq := request_q_insert_alloc_failure m s READ t hn (by simp)
      (by rcases hf with hf | hf | hf | hf | hf
          · exact Or.inl hf
          · exact Or.inr (Or.inl hf)
          · exact Or.inr (Or.inr (Or.inl hf))
          · exact Or.inr (Or.inr (Or.inr ⟨rfl, Or.inl hf⟩))
          · exact Or.inr (Or.inr (Or.inr ⟨rfl, Or.inr hf⟩)))
    have hh : rwlock_do_i_hold_reader s t = false := by
      cases hx : rwlock_do_i_hold_reader s t with
      | false => rfl
      | true => exact absurd ((do_i_hold_reader_iff s t).mp hx) hnr
    have key : rwlock_acquire_read m s t = request_q_insert m s READ t := by
      unfold rwlock_acquire_read
      simp only [hh, Bool.false_eq_true, ↓reduceIte, hst]
      unfold rwlock_acquire_read_wait
      simp [hw, hst, htl1, hty]
    rw [key]
    exact hreq

/-- Instance of the amended claim C8: thread 2 asks to write while reader 1 holds the
lock and `cv_create` fails. -/
theorem alloc_failure_stops_kernel_witness :
    (cv_create_fails.cv_name = true ∧ cv_create_fails.lock_name = true) ∧
    st_one_reader.status ≠ FREE ∧ st_one_reader.active_writer ≠ some 2 ∧
    (cv_create_fails.new_req = false ∨ cv_create_fails.req_cv = false ∨
      cv_create_fails.req_cv_lock = false) ∧
    rwlock_acquire_write cv_create_fails st_one_reader 2 =
      outcome.crashed crash.panic
        { st_one_reader with
          naming_counter :=
            if cv_create_fails.new_req = true then uinc st_one_reader.naming_counter
              else st_one_reader.naming_counter } :=
  ⟨by decide, by decide, by decide, by decide,
    (alloc_failure_stops_kernel cv_create_fails st_one_reader 2 (by decide)).1
      (by decide) (by decide) (by decide)⟩

/-- Claim C8 fails on the code.  Reader 1 holds the lock and thread 2 calls
`rwlock_acquire_write`.  When the request record cannot be allocated the call stops the
kernel instead of returning an error; when `cv_create` fails it stops the kernel too, and
the naming counter is then 1 where it was 0 before the call. -/
theorem alloc_failure_not_reported :
    rwlock_acquire_write new_req_fails st_one_reader 2 =
      outcome.crashed crash.panic st_one_reader ∧
    (rwlock_acquire_write new_req_fails st_one_reader 2).next = none ∧
    rwlock_acquire_write cv_create_fails st_one_reader 2 =
      outcome.crashed crash.panic { st_one_reader with naming_counter := 1 } ∧
    (rwlock_acquire_write cv_create_fails st_one_reader 2).next = none ∧
    st_one_reader.naming_counter = 0 := by
  decide

theorem request_q_insert_appends (m : allocs) (s s1 : rwlock) (st : status_t) (t : thread)
    (h : (request_q_insert m s st t).next = some s1) :
    ∃ r, s1.reqs = s.reqs ++ [r] ∧ waits_on r t = true := by
  obtain ⟨r, hq, _, _, _, _, hcase⟩ := request_q_insert_next m s s1 st t h
  refine ⟨r, hq, ?_⟩
  unfold waits_on
  rcases hcase with ⟨_, _, _, rq, hr, _, hmap⟩ | ⟨_, _, hw, _⟩
  · rw [hr]
    simp only [Bool.or_eq_true, decide_eq_true_eq, List.any_eq_true]
    right
    cases hh : rq.head with
    | nil => rw [hh] at hmap; simp at hmap
    | cons n rest =>
      rw [hh] at hmap
      simp only [List.map_cons, List.cons.injEq] at hmap
      exact ⟨n, List.mem_cons_self _ _, hmap.1⟩
  · simp [hw]

theorem acquire_read_queue (m : allocs) (s s1 : rwlock) (t : thread)
    (h : (rwlock_acquire_read m s t).next = some s1) :
    (rwlock_acquire_read m s t = outcome.returned s1 ∧ s1.reqs = s.reqs) ∨
    (rwlock_acquire_read m s t = outcome.sleeping s1 ∧
      ((∃ r, s1.reqs = s.reqs ++ [r] ∧ waits_on r t = true) ∨
       (∃ req_tail rq rq1, s.reqs.getLast? = some req_tail ∧ req_tail.type = READ ∧
          req_tail.readers = some rq ∧ reader_q_insert rq m.to_insert t = some rq1 ∧
          s1.reqs = s.reqs.dropLast ++ [({ req_tail with readers := some rq1 } : request)]))) := by
  obtain ⟨_, hcase⟩ := rwlock_acquire_read_next m s s1 t h
  rcases hcase with ⟨hr, _, _, _, rq1, _, hs1⟩ | ⟨hr, _, _, _, _, rq, rq1, _, _, hs1⟩ |
    ⟨hsl, hwait⟩
  · exact Or.inl ⟨hr, by rw [hs1]⟩
  · exact Or.inl ⟨hr, by rw [hs1]⟩
  · refine Or.inr ⟨hsl, ?_⟩
    obtain ⟨_, _, tl, htl, hj⟩ := rwlock_acquire_read_wait_next m s s1 t hwait
    rcases hj with ⟨hty, rq, rq1, hrq, hins, hs1⟩ | ⟨_, hreq⟩
    · exact Or.inr ⟨tl, rq, rq1, htl, hty, hrq, hins, by rw [hs1]⟩
    · exact Or.inl (request_q_insert_appends m s s1 READ t hreq)

theorem acquire_write_queue (m : allocs) (s s1 : rwlock) (t : thread)
    (h : (rwlock_acquire_write m s t).next = some s1) :
    (rwlock_acquire_write m s t = outcome.returned s1 ∧ s1.reqs = s.reqs) ∨
    (rwlock_acquire_write m s t = outcome.sleeping s1 ∧
      ∃ r, s1.reqs = s.reqs ++ [r] ∧ waits_on r t = true) := by
  obtain ⟨_, hcase⟩ := rwlock_acquire_write_next m s s1 t h
  rcases hcase with ⟨hr, _, _, _, hs1⟩ | ⟨hsl, _, hreq⟩
  · exact Or.inl ⟨hr, by rw [hs1]⟩
  · exact Or.inr ⟨hsl, request_q_insert_appends m s s1 WRITE t hreq⟩

theorem release_read_queue (s s1 : rwlock) (t : thread)
    (h : (rwlock_release_read s t).next = some s1) :
    s1.reqs = s.reqs ∨
    ∃ pending, s.reqs = pending :: s1.reqs ∧ s1.status = pending.type ∧
      (pending.type = READ → s1.active_readers = pending.readers) ∧
      (pending.type = WRITE → s1.active_writer = pending.writer) := by
  obtain ⟨_, _, rq0, rq, _, _, hcase⟩ := rwlock_release_read_next s s1 t h
  rcases hcase with ⟨_, hs1⟩ | ⟨_, _, _, hs1⟩ | ⟨_, _, pending, rest, hq, hp⟩
  · exact Or.inl (by rw [hs1])
  · exact Or.inl (by rw [hs1])
  · right
    rcases hp with ⟨hty, hs1⟩ | ⟨hty, hs1⟩
    · refine ⟨pending, by rw [hs1]; exact hq, by rw [hs1, hty], fun _ => by rw [hs1], ?_⟩
      intro hx; rw [hty] at hx; cases hx
    · refine ⟨pending, by rw [hs1]; exact hq, by rw [hs1, hty], ?_, fun _ => by rw [hs1]⟩
      intro hx; rw [hty] at hx; cases hx

theorem release_write_queue (s s1 : rwlock) (t : thread)
    (h : (rwlock_release_write s t).next = some s1) :
    s1.reqs = s.reqs ∨
    ∃ pending, s.reqs = pending :: s1.reqs ∧ s1.status = pending.type ∧
      (pending.type = READ → s1.active_readers = pending.readers) ∧
      (pending.type = WRITE → s1.active_writer = pending.writer) := by
  obtain ⟨_, _, hcase⟩ := rwlock_release_write_next s s1 t h
  rcases hcase with ⟨_, _, hs1⟩ | ⟨pending, rest, hq, hp⟩
  · exact Or.inl (by rw [hs1])
  · right
    rcases hp with ⟨hty, hs1⟩ | ⟨hty, hs1⟩
    · refine ⟨pending, by rw [hs1]; exact hq, by rw [hs1, hty], fun _ => by rw [hs1], ?_⟩
      intro hx; rw [hty] at hx; cases hx
    · refine ⟨pending, by rw [hs1]; exact hq, by rw [hs1, hty], ?_, fun _ => by rw [hs1]⟩
      intro hx; rw [hty] at hx; cases hx

theorem step_queue (o : rwlock_op) (m : allocs) (s s1 : rwlock) (t : thread)
    (h : (rwlock_call o m s t).next = some s1) :
    (∃ new, s1.reqs.map entry_id = s.reqs.map entry_id ++ new ∧
        s.reqs.length ≤ s1.reqs.length) ∨
    (∃ pending, s.reqs = pending :: s1.reqs) := by
  have happ : ∀ r, s1.reqs = s.reqs ++ [r] →
      ∃ new, s1.reqs.map entry_id = s.reqs.map entry_id ++ new ∧
        s.reqs.length ≤ s1.reqs.length := fun r hr =>
    ⟨[entry_id r], by rw [hr]; simp, by rw [hr]; simp⟩
  have hsame : s1.reqs = s.reqs →
      ∃ new, s1.reqs.map entry_id = s.reqs.map entry_id ++ new ∧
        s.reqs.length ≤ s1.reqs.length := fun hr =>
    ⟨[], by rw [hr]; simp, by rw [hr]⟩
  cases o with
  | acquire_read =>
    left
    rcases acquire_read_queue m s s1 t h with ⟨_, hq⟩ | ⟨_, ⟨r, hq, _⟩ | hj⟩
    · exact hsame hq
    · exact happ r hq
    · obtain ⟨tl, rq, rq1, htl, _, _, _, hq⟩ := hj
      have hd : s.reqs.dropLast ++ [tl] = s.reqs := List.dropLast_append_getLast? tl htl
      refine ⟨[], ?_, ?_⟩
      · rw [hq, List.append_nil]
        conv_rhs => rw [← hd]
        simp [entry_id]
      · rw [hq]
        conv_lhs => rw [← hd]
        simp
  | acquire_write =>
    left
    rcases acquire_write_queue m s s1 t h with ⟨_, hq⟩ | ⟨_, r, hq, _⟩
    · exact hsame hq
    · exact happ r hq
  | release_read =>
    rcases release_read_queue s s1 t h with hq | ⟨p, hq, _⟩
    · exact Or.inl (hsame hq)
    · exact Or.inr ⟨p, hq⟩
  | release_write =>
    rcases release_write_queue s s1 t h with hq | ⟨p, hq, _⟩
    · exact Or.inl (hsame hq)
    · exact Or.inr ⟨p, hq⟩

theorem run_queue (steps : List (rwlock_op × allocs × thread)) :
    ∀ s s1, rwlock_run s steps = some s1 →
      ∃ new, s1.reqs.map entry_id =
        (s.reqs.map entry_id).drop (promotions s steps) ++ new := by
  induction steps with
  | nil =>
    intro s s1 h
    simp only [rwlock_run, Option.some.injEq] at h
    subst h
    exact ⟨[], by simp [promotions]⟩
  | cons x rest ih =>
    intro s s1 h
    obtain ⟨o, m, t⟩ := x
    simp only [rwlock_run] at h
    simp only [promotions]
    cases hn : (rwlock_call o m s t).next with
    | none => rw [hn] at h; simp at h
    | some s2 =>
      rw [hn] at h
      simp only at h ⊢
      obtain ⟨new1, hnew1⟩ := ih s2 s1 h
      rcases step_queue o m s s2 t hn with ⟨new, hmap, hlen⟩ | ⟨p, hp⟩
      · rw [if_neg (by omega), Nat.zero_add, hnew1, hmap, List.drop_append_eq_append_drop,
          List.append_assoc]
        exact ⟨_, rfl⟩
      · have hlt : s2.reqs.length < s.reqs.length := by rw [hp]; simp
        rw [if_pos hlt, hnew1, hp, List.map_cons, Nat.add_comm 1, List.drop_succ_cons]
        exact ⟨_, rfl⟩

/-- Claim C5 (FIFO across the request queue).  (i) A call of `rwlock_acquire_read` or
`rwlock_acquire_write` that puts its caller to sleep either appends one entry, on which
the caller waits, at the tail of the queue, or inserts the caller into the reader set of
the reader-group at the tail and changes nothing else in the queue.  (ii) An acquire that
returns leaves the queue as it is.  (iii) A release that returns either leaves the queue
as it is or removes exactly its head, which it promotes: the mode becomes the type of the
head and its readers, or its writer, become the active ones; the other entries stay, in
order.  (iv) Hence, after any run of calls that performed `k` promotions, the entries of
the initial queue that are still queued are those after the first `k`, in their order and
ahead of every entry queued since: of two queued entries the earlier leaves the queue
first, each when it is the head. -/
theorem fifo_request_queue :
    (∀ m s t s1,
      (rwlock_acquire_read m s t = outcome.sleeping s1 ∨
        rwlock_acquire_write m s t = outcome.sleeping s1) →
      (∃ r, s1.reqs = s.reqs ++ [r] ∧ waits_on r t = true) ∨
      (∃ req_tail rq rq1, s.reqs.getLast? = some req_tail ∧ req_tail.type = READ ∧
          req_tail.readers = some rq ∧ reader_q_insert rq m.to_insert t = some rq1 ∧
          s1.reqs = s.reqs.dropLast ++ [({ req_tail with readers := some rq1 } : request)])) ∧
    (∀ m s t s1,
      (rwlock_acquire_read m s t = outcome.returned s1 ∨
        rwlock_acquire_write m s t = outcome.returned s1) → s1.reqs = s.reqs) ∧
    (∀ s t s1,
      (rwlock_release_read s t = outcome.returned s1 ∨
        rwlock_release_write s t = outcome.returned s1) →
      s1.reqs = s.reqs ∨
      ∃ pending, s.reqs = pending :: s1.reqs ∧ s1.status = pending.type ∧
        (pending.type = READ → s1.active_readers = pending.readers) ∧
        (pending.type = WRITE → s1.active_writer = pending.writer)) ∧
    (∀ s steps s1, rwlock_run s steps = some s1 →
      ∃ new, s1.reqs.map entry_id =
        (s.reqs.map entry_id).drop (promotions s steps) ++ new) := by
  refine ⟨?_, ?_, ?_, fun s steps s1 h => run_queue steps s s1 h⟩
  · intro m s t s1 h
    rcases h with h | h
    · rcases acquire_read_queue m s s1 t (by rw [h]; rfl) with ⟨hr, _⟩ | ⟨_, hq⟩
      · rw [h] at hr; cases hr
      · exact hq
    · rcases acquire_write_queue m s s1 t (by rw [h]; rfl) with ⟨hr, _⟩ | ⟨_, hq⟩
      · rw [h] at hr; cases hr
      · exact Or.inl hq
  · intro m s t s1 h
    rcases h with h | h
    · rcases acquire_read_queue m s s1 t (by rw [h]; rfl) with ⟨_, hq⟩ | ⟨hr, _⟩
      · exact hq
      · rw [h] at hr; cases hr
    · rcases acquire_write_queue m s s1 t (by rw [h]; rfl) with ⟨_, hq⟩ | ⟨hr, _⟩
      · exact hq
      · rw [h] at hr; cases hr
  · intro s t s1 h
    rcases h with h | h
    · exact release_read_queue s s1 t (by rw [h]; rfl)
    · exact release_write_queue s s1 t (by rw [h]; rfl)

/-- Instance of claim C5.  From a fresh lock, writer 1 acquires, writer 2 queues, readers
3 and 4 queue as one group behind it and writer 5 queues last; writers 1 and 2 then
release.  Two promotions took place and the queue is the initial one without its first
two entries. -/
theorem fifo_request_queue_witness :
    rwlock_run rwlock_create
        [(rwlock_op.acquire_write, allocs.all 0, 1), (rwlock_op.acquire_write, allocs.all 0, 2),
         (rwlock_op.acquire_read, allocs.all 20, 3), (rwlock_op.acquire_read, allocs.all 21, 4),
         (rwlock_op.acquire_write, allocs.all 0, 5)]
      = some st_three_queued ∧
    rwlock_run st_three_queued
        [(rwlock_op.release_write, allocs.all 0, 1), (rwlock_op.release_write, allocs.all 0, 2)]
      = some st_two_promoted ∧
    promotions st_three_queued
        [(rwlock_op.release_write, allocs.all 0, 1), (rwlock_op.release_write, allocs.all 0, 2)]
      = 2 ∧
    ∃ new, st_two_promoted.reqs.map entry_id =
      (st_three_queued.reqs.map entry_id).drop
        (promotions st_three_queued
          [(rwlock_op.release_write, allocs.all 0, 1),
           (rwlock_op.release_write, allocs.all 0, 2)]) ++ new :=
  ⟨by decide, by decide, by decide,
    fifo_request_queue.2.2.2 st_three_queued
      [(rwlock_op.release_write, allocs.all 0, 1), (rwlock_op.release_write, allocs.all 0, 2)]
      st_two_promoted (by decide)⟩

/-! ## The shape of the request queue in the reachable states -/

theorem set_next_getLast (l : List thread_ll) (p : Nat) (n : thread_ll) (hne : l ≠ [])
    (hp : l.getLast?.map thread_ll.addr = some p) :
    (set_next l p n).getLast? = some n := by
  induction l with
  | nil => exact absurd rfl hne
  | cons x rest ih =>
    unfold set_next
    by_cases hx : x.addr = p
    · simp [hx]
    · rw [if_neg hx]
      cases rest with
      | nil =>
        simp at hp
        exact absurd hp hx
      | cons y ys =>
        have hp1 : (y :: ys).getLast?.map thread_ll.addr = some p := by
          rw [List.getLast?_cons_cons] at hp
          exact hp
        have h1 := ih (by simp) hp1
        have hform : ∃ z zs, set_next (y :: ys) p n = z :: zs := by
          unfold set_next
          split <;> exact ⟨_, _, rfl⟩
        obtain ⟨z, zs, hz⟩ := hform
        rw [hz] at h1 ⊢
        rw [List.getLast?_cons_cons]
        exact h1

theorem reader_q_insert_group (rq rq1 : reader_q) (node : Option Nat) (t : thread)
    (h : reader_q_insert rq node t = some rq1) (hg : rq.head = [] ∨ group_ok rq) :
    group_ok rq1 ∧ rq1.head.getLast?.map thread_ll.t = some t := by
  unfold reader_q_insert at h
  split at h
  · simp at h
  · next a =>
    simp only at h
    split at h
    · split at h
      · simp only [Option.some.injEq] at h; subst h
        simp [group_ok]
      · simp at h
    · next hne =>
      split at h
      · split at h
        · simp at h
        · split at h
          · simp only [Option.some.injEq] at h; subst h
            simp [group_ok]
          · simp at h
      · split at h
        · simp at h
        · next p hp =>
          simp only [Option.some.injEq] at h; subst h
          have hhd : rq.head ≠ [] := fun hx => hne (Or.inr (Or.inl hx))
          rcases hg with hg | hg
          · exact absurd hg hhd
          · have hl := set_next_getLast rq.head p { addr := a, t := t } hhd
              (by rw [← hg.2, hp])
            refine ⟨⟨?_, ?_⟩, ?_⟩
            · intro hx
              simp only at hx
              rw [hx] at hl
              simp at hl
            · simp only
              rw [hl]
              rfl
            · simp only
              rw [hl]
              rfl

theorem reader_q_insert_mem (rq rq1 : reader_q) (node : Option Nat) (t : thread)
    (h : reader_q_insert rq node t = some rq1) (hg : rq.head = [] ∨ group_ok rq) :
    t ∈ rq1.head.map thread_ll.t := by
  have h1 := (reader_q_insert_group rq rq1 node t h hg).2
  cases hl : rq1.head.getLast? with
  | none => rw [hl] at h1; simp at h1
  | some x =>
    rw [hl] at h1
    simp only [Option.map_some', Option.some.injEq] at h1
    exact List.mem_map.mpr ⟨x, List.mem_of_getLast?_eq_some hl, h1⟩

theorem request_q_insert_group (m : allocs) (s s1 : rwlock) (t : thread)
    (h : (request_q_insert m s READ t).next = some s1) :
    ∃ r rq, s1.reqs = s.reqs ++ [r] ∧ r.type = READ ∧ r.readers = some rq ∧ group_ok rq ∧
      rq.head.map thread_ll.t = [t] := by
  unfold request_q_insert at h
  split at h
  · simp [outcome.next] at h
  · simp only at h
    split at h
    · simp [outcome.next] at h
    · split at h
      · simp [outcome.next] at h
      · split at h
        · simp [outcome.next] at h
        · split at h
          · simp [outcome.next] at h
          · next rq hrq =>
            split at h
            · simp [outcome.next] at h
            · next rq1 hrq1 =>
              simp only [outcome.next, Option.some.injEq] at h
              subst h
              have h0 := reader_q_create_ok _ _ hrq
              subst h0
              have hg := reader_q_insert_group _ _ _ _ hrq1 (Or.inl rfl)
              refine ⟨_, rq1, rfl, rfl, rfl, hg.1, ?_⟩
              unfold reader_q_insert at hrq1
              split at hrq1
              · simp at hrq1
              · simp at hrq1
                subst hrq1
                rfl

theorem coalesced_append (q : List request) (r : request) (h : coalesced q)
    (hl : ∀ tl, q.getLast? = some tl → ¬ (tl.type = READ ∧ r.type = READ)) :
    coalesced (q ++ [r]) := by
  unfold coalesced at h ⊢
  rw [List.chain'_append]
  refine ⟨h, List.chain'_singleton r, ?_⟩
  intro x hx y hy
  simp only [List.head?_cons, Option.mem_def, Option.some.injEq] at hy
  subst hy
  exact hl x hx

theorem coalesced_join (q : List request) (tl tl1 : request) (h : coalesced q)
    (hl : q.getLast? = some tl) (hty : tl1.type = tl.type) :
    coalesced (q.dropLast ++ [tl1]) := by
  have hq : q.dropLast ++ [tl] = q := List.dropLast_append_getLast? tl hl
  unfold coalesced at h ⊢
  rw [← hq, List.chain'_append] at h
  rw [List.chain'_append]
  refine ⟨h.1, List.chain'_singleton tl1, ?_⟩
  intro x hx y hy
  simp only [List.head?_cons, Option.mem_def, Option.some.injEq] at hy
  subst hy
  rw [hty]
  exact h.2.2 x hx tl (by simp)

theorem invq_create : InvQ rwlock_create := by
  constructor <;> simp [rwlock_create, coalesced]

theorem invq_request_q_insert (m : allocs) (s s1 : rwlock) (st : status_t) (t : thread)
    (hQ : InvQ s) (hfree : s.status ≠ FREE)
    (hread : st = READ → s.status = WRITE ∧ ∃ tl, s.reqs.getLast? = some tl ∧ tl.type = WRITE)
    (h : (request_q_insert m s st t).next = some s1) : InvQ s1 := by
  obtain ⟨r, hq, hst, har, haw, hty, hcase⟩ := request_q_insert_next m s s1 st t h
  have hst2 : st = READ ∨ st = WRITE := by
    rcases hcase with ⟨h1, _⟩ | ⟨h1, _⟩
    · exact Or.inl h1
    · exact Or.inr h1
  refine ⟨?_, ?_, ?_, ?_, ?_⟩
  · intro x hx
    rw [hq, List.mem_append, List.mem_singleton] at hx
    rcases hx with hx | hx
    · exact hQ.types x hx
    · rw [hx, hty]
      exact hst2
  · rw [hq]
    apply coalesced_append _ _ hQ.merged
    intro tl htl hboth
    rw [hty] at hboth
    obtain ⟨_, tl2, htl2, hw⟩ := hread hboth.2
    rw [htl] at htl2
    cases htl2
    rw [hw] at hboth
    cases hboth.1
  · intro x hx hxt
    rw [hq, List.mem_append, List.mem_singleton] at hx
    rcases hx with hx | hx
    · exact hQ.groups x hx hxt
    · subst hx
      rw [hty] at hxt
      subst hxt
      obtain ⟨r2, rq, hq2, _, hrq, hg, _⟩ := request_q_insert_group m s s1 t h
      rw [hq] at hq2
      have := List.append_inj_right hq2 rfl
      simp only [List.cons.injEq, and_true] at this
      subst this
      exact ⟨rq, hrq, hg⟩
  · intro hf
    rw [hst] at hf
    exact absurd hf hfree
  · intro hrd x rest hx
    rw [hst] at hrd
    cases hs : s.reqs with
    | nil =>
      rw [hq, hs] at hx
      simp only [List.nil_append, List.cons.injEq] at hx
      rw [← hx.1, hty]
      rcases hst2 with h1 | h1
      · have := (hread h1).1
        rw [hrd] at this
        cases this
      · exact h1
    | cons y ys =>
      rw [hq, hs] at hx
      simp only [List.cons_append, List.cons.injEq] at hx
      rw [← hx.1]
      exact hQ.read_head hrd y ys hs

theorem invq_acquire_read (m : allocs) (s s1 : rwlock) (t : thread) (hQ : InvQ s)
    (h : (rwlock_acquire_read m s t).next = some s1) : InvQ s1 := by
  obtain ⟨_, hcase⟩ := rwlock_acquire_read_next m s s1 t h
  rcases hcase with ⟨_, hst, _, _, rq1, _, hs1⟩ | ⟨_, hst, _, hq, _, rq, rq1, _, _, hs1⟩ |
    ⟨_, hwait⟩
  · have hq := (hQ.free_ok hst).1
    subst hs1
    refine ⟨?_, ?_, ?_, ?_, ?_⟩
    · exact hQ.types
    · exact hQ.merged
    · exact hQ.groups
    · intro hf
      cases hf
    · intro _ x rest hx
      simp only at hx
      rw [hq] at hx
      cases hx
  · subst hs1
    refine ⟨hQ.types, hQ.merged, hQ.groups, ?_, hQ.read_head⟩
    intro hf
    simp only at hf
    rw [hst] at hf
    cases hf
  · obtain ⟨hst, _, req_tail, htl, hcase⟩ := rwlock_acquire_read_wait_next m s s1 t hwait
    rcases hcase with ⟨hty, rq, rq1, hrq, hins, hs1⟩ | ⟨hty, hins⟩
    · have hmem : req_tail ∈ s.reqs := List.mem_of_getLast?_eq_some htl
      have hq : s.reqs.dropLast ++ [req_tail] = s.reqs :=
        List.dropLast_append_getLast? req_tail htl
      obtain ⟨rq0, hrq0, hg0⟩ := hQ.groups req_tail hmem hty
      rw [hrq] at hrq0
      cases hrq0
      subst hs1
      refine ⟨?_, ?_, ?_, ?_, ?_⟩
      · intro x hx
        simp only [List.mem_append, List.mem_singleton] at hx
        rcases hx with hx | hx
        · exact hQ.types x (by rw [← hq]; exact List.mem_append_left _ hx)
        · subst hx
          exact Or.inl hty
      · exact coalesced_join _ _ _ hQ.merged htl rfl
      · intro x hx hxt
        simp only [List.mem_append, List.mem_singleton] at hx
        rcases hx with hx | hx
        · exact hQ.groups x (by rw [← hq]; exact List.mem_append_left _ hx) hxt
        · subst hx
          exact ⟨rq1, rfl, (reader_q_insert_group _ _ _ _ hins (Or.inr hg0)).1⟩
      · intro hf
        simp only at hf
        rw [hst] at hf
        cases hf
      · intro hrd
        simp only at hrd
        rw [hst] at hrd
        cases hrd
    · exact invq_request_q_insert m s s1 READ t hQ (by rw [hst]; simp)
        (fun _ => ⟨hst, req_tail, htl, hty⟩) hins

theorem invq_acquire_write (m : allocs) (s s1 : rwlock) (t : thread) (hQ : InvQ s)
    (h : (rwlock_acquire_write m s t).next = some s1) : InvQ s1 := by
  obtain ⟨_, hcase⟩ := rwlock_acquire_write_next m s s1 t h
  rcases hcase with ⟨_, hst, _, _, hs1⟩ | ⟨_, hst, hins⟩
  · have hq := (hQ.free_ok hst).1
    subst hs1
    refine ⟨hQ.types, hQ.merged, hQ.groups, ?_, ?_⟩
    · intro hf
      cases hf
    · intro hrd
      cases hrd
  · exact invq_request_q_insert m s s1 WRITE t hQ hst (fun hx => by cases hx) hins

theorem invq_pop (s : rwlock) (pending : request) (rest : List request) (hQ : InvQ s)
    (hq : s.reqs = pending :: rest) :
    (∀ r ∈ rest, r.type = READ ∨ r.type = WRITE) ∧ coalesced rest ∧
    (∀ r ∈ rest, r.type = READ → ∃ rq, r.readers = some rq ∧ group_ok rq) ∧
    (pending.type = READ → ∀ r rest1, rest = r :: rest1 → r.type = WRITE) := by
  have hm := hQ.merged
  rw [hq] at hm
  refine ⟨?_, ?_, ?_, ?_⟩
  · intro r hr
    exact hQ.types r (by rw [hq]; exact List.mem_cons_of_mem _ hr)
  · unfold coalesced at hm ⊢
    exact hm.tail
  · intro r hr
    exact hQ.groups r (by rw [hq]; exact List.mem_cons_of_mem _ hr)
  · intro hp r rest1 hrest
    subst hrest
    unfold coalesced at hm
    have hrel := (List.chain'_cons.mp hm).1
    rcases hQ.types r (by rw [hq]; simp) with h1 | h1
    · exact absurd ⟨hp, h1⟩ hrel
    · exact h1

theorem invq_release_read (s s1 : rwlock) (t : thread) (hI : Inv s) (hQ : InvQ s)
    (h : (rwlock_release_read s t).next = some s1) : InvQ s1 := by
  obtain ⟨_, hst, rq0, rq, har, hrem, hcase⟩ := rwlock_release_read_next s s1 t h
  rcases hcase with ⟨_, hs1⟩ | ⟨hsz, hq, _, hs1⟩ | ⟨_, _, pending, rest, hq, hcase⟩
  · subst hs1
    refine ⟨hQ.types, hQ.merged, hQ.groups, ?_, hQ.read_head⟩
    intro hf
    simp only at hf
    rw [hst] at hf
    cases hf
  · subst hs1
    refine ⟨hQ.types, hQ.merged, hQ.groups, ?_, ?_⟩
    · intro _
      refine ⟨hq, ?_⟩
      intro rq2 hrq2
      simp only [Option.some.injEq] at hrq2
      subst hrq2
      exact (reader_q_remove_ok rq0 _ t hrem (hI.active_ok rq0 har)).2 hsz
    · intro hrd
      cases hrd
  · obtain ⟨p1, p2, p3, p4⟩ := invq_pop s pending rest hQ hq
    rcases hcase with ⟨hty, hs1⟩ | ⟨hty, hs1⟩
    · subst hs1
      refine ⟨p1, p2, p3, ?_, ?_⟩
      · intro hf
        cases hf
      · intro _
        exact p4 hty
    · subst hs1
      refine ⟨p1, p2, p3, ?_, ?_⟩
      · intro hf
        cases hf
      · intro hrd
        cases hrd

theorem invq_release_write (s s1 : rwlock) (t : thread) (hI : Inv s) (hQ : InvQ s)
    (h : (rwlock_release_write s t).next = some s1) : InvQ s1 := by
  obtain ⟨_, hst, hcase⟩ := rwlock_release_write_next s s1 t h
  rcases hcase with ⟨hq, _, hs1⟩ | ⟨pending, rest, hq, hcase⟩
  · subst hs1
    refine ⟨hQ.types, hQ.merged, hQ.groups, ?_, ?_⟩
    · intro _
      refine ⟨hq, ?_⟩
      intro rq hrq
      exact (hI.no_readers hst rq hrq).1
    · intro hrd
      cases hrd
  · obtain ⟨p1, p2, p3, p4⟩ := invq_pop s pending rest hQ hq
    rcases hcase with ⟨hty, hs1⟩ | ⟨hty, hs1⟩
    · subst hs1
      refine ⟨p1, p2, p3, ?_, ?_⟩
      · intro hf
        cases hf
      · intro _
        exact p4 hty
    · subst hs1
      refine ⟨p1, p2, p3, ?_, ?_⟩
      · intro hf
        cases hf
      · intro hrd
        cases hrd

theorem invq_of_reachable (s : rwlock) (h : Reachable s) : InvQ s := by
  induction h with
  | create => exact invq_create
  | step o m t s s1 hr hstep ih =>
    have hI := inv_of_reachable s hr
    cases o with
    | acquire_read => exact invq_acquire_read m s s1 t ih hstep
    | acquire_write => exact invq_acquire_write m s s1 t ih hstep
    | release_read => exact invq_release_read s s1 t hI ih hstep
    | release_write => exact invq_release_write s s1 t hI ih hstep

theorem reachable_of_run (steps : List (rwlock_op × allocs × thread)) (s s1 : rwlock)
    (hr : Reachable s) (h : rwlock_run s steps = some s1) : Reachable s1 := by
  induction steps generalizing s with
  | nil =>
    simp only [rwlock_run, Option.some.injEq] at h
    subst h
    exact hr
  | cons x rest ih =>
    obtain ⟨o, m, t⟩ := x
    simp only [rwlock_run] at h
    split at h
    · simp at h
    · next s2 hs2 => exact ih s2 (Reachable.step o m t s s2 hr hs2) h

theorem hold_writer_iff (s : rwlock) (t : thread) :
    rwlock_do_i_hold_writer s t = true ↔ s.active_writer = some t := by
  unfold rwlock_do_i_hold_writer
  simp

theorem unlink_mem (l r : List thread_ll) (t : thread) (h : unlink l t = some r) :
    ∃ x ∈ l, x.t = t := by
  induction l generalizing r with
  | nil => simp [unlink] at h
  | cons x rest ih =>
    unfold unlink at h
    split at h
    · next hx => exact ⟨x, by simp, hx⟩
    · split at h
      · simp at h
      · next r1 hr1 =>
        obtain ⟨y, hy, hyt⟩ := ih r1 hr1
        exact ⟨y, List.mem_cons_of_mem _ hy, hyt⟩

theorem reader_q_remove_mem (rq rq1 : reader_q) (t : thread)
    (h : reader_q_remove rq t = some rq1) : ∃ x ∈ rq.head, x.t = t := by
  unfold reader_q_remove at h
  split at h
  · simp at h
  · next x rest hhead =>
    rw [hhead]
    split at h
    · simp at h
    · split at h
      · simp at h
      · split at h
        · next hx => exact ⟨x, List.mem_cons_self _ _, hx⟩
        · split at h
          · simp at h
          · next r hr =>
            obtain ⟨y, hy, hyt⟩ := unlink_mem rest r t hr
            exact ⟨y, List.mem_cons_of_mem _ hy, hyt⟩

theorem writers_pos_of_head (s : rwlock) (pending : request) (rest : List request)
    (hW : InvW s) (hq : s.reqs = pending :: rest) (hty : pending.type = WRITE) :
    s.total_num_writers ≠ 0 := by
  rw [hW.count]
  unfold writers_known writer_entries
  rw [hq]
  simp [hty]

theorem spec_promote_result (s0 s2 : rwlock) (h : spec_promote s0 = some s2) :
    (s0.reqs = [] → s2.status = FREE ∧ s2.reqs = []) ∧
    (∀ entry rest, s0.reqs = entry :: rest →
      s2.status = entry.type ∧ s2.reqs = rest ∧
      (entry.type = READ →
        s2.active_readers = entry.readers ∧ active_reader_threads s2 = group_threads entry) ∧
      (entry.type = WRITE → s2.active_writer = entry.writer)) := by
  unfold spec_promote at h
  split at h
  · next hq =>
    simp only [Option.some.injEq] at h
    subst h
    refine ⟨fun _ => ⟨rfl, hq⟩, ?_⟩
    intro entry rest hx
    rw [hq] at hx
    cases hx
  · next entry rest hq =>
    refine ⟨fun hx => ?_, ?_⟩
    · rw [hq] at hx
      cases hx
    intro entry1 rest1 hx
    rw [hq] at hx
    cases hx
    split at h
    · next hty =>
      simp only [Option.some.injEq] at h
      subst h
      refine ⟨hty.symm, rfl, fun _ => ⟨rfl, ?_⟩, fun hw => ?_⟩
      · simp [active_reader_threads, group_threads]
      · rw [hty] at hw
        cases hw
    · next hty =>
      simp only [Option.some.injEq] at h
      subst h
      refine ⟨hty.symm, rfl, fun hr => ?_, fun _ => rfl⟩
      rw [hty] at hr
      cases hr
    · simp at h

theorem release_write_promotes (s : rwlock) (t : thread) (hr : ReachableAwake s)
    (hh : rwlock_do_i_hold_writer s t = true) :
    ∃ s2, rwlock_release_write s t = outcome.returned s2 ∧
      spec_promote { s with total_num_writers := udec s.total_num_writers,
                            active_writer := none } = some s2 := by
  have hR := reachable_of_awake s hr
  have hI := inv_of_reachable s hR
  have hW := invw_of_awake s hr
  have hQ := invq_of_reachable s hR
  have haw := (hold_writer_iff s t).mp hh
  have hst : s.status = WRITE := hI.writer_iff.mpr (by rw [haw]; rfl)
  unfold rwlock_release_write spec_promote
  cases hq : s.reqs with
  | nil =>
    have hc : udec s.total_num_writers = 0 := by
      rw [hW.count]
      unfold writers_known writer_entries
      rw [hq, haw]
      simp [udec, UINT_RANGE]
    simp [hh, hst, hq, hc]
  | cons pending rest =>
    rcases hQ.types pending (by rw [hq]; simp) with hty | hty
    · simp [hh, hst, hq, hty]
    · simp [hh, hst, hq, hty]

theorem release_read_promotes (s : rwlock) (t : thread) (rq0 rq : reader_q)
    (hr : ReachableAwake s) (har : s.active_readers = some rq0)
    (hrem : reader_q_remove rq0 t = some rq) (hsz : rq.size = 0) :
    ∃ s2, rwlock_release_read s t = outcome.returned s2 ∧
      spec_promote { s with active_readers := some rq } = some s2 := by
  have hR := reachable_of_awake s hr
  have hI := inv_of_reachable s hR
  have hW := invw_of_awake s hr
  have hQ := invq_of_reachable s hR
  obtain ⟨x, hx, hxt⟩ := reader_q_remove_mem rq0 rq t hrem
  have hne : rq0.head ≠ [] := List.ne_nil_of_mem hx
  have hh : rwlock_do_i_hold_reader s t = true := by
    rw [do_i_hold_reader_iff]
    unfold active_reader_threads
    rw [har]
    exact List.mem_map.mpr ⟨x, hx, hxt⟩
  have hst : s.status = READ := by
    cases hs : s.status with
    | FREE => exact absurd ((hQ.free_ok hs).2 rq0 har) hne
    | READ => rfl
    | WRITE => exact absurd (hI.no_readers hs rq0 har).1 hne
  have hnw : s.active_writer = none := by
    cases hb : s.active_writer with
    | none => rfl
    | some w =>
      have := hI.writer_iff.mpr (by rw [hb]; rfl)
      rw [hst] at this
      cases this
  unfold rwlock_release_read spec_promote
  cases hq : s.reqs with
  | nil =>
    have hc : s.total_num_writers = 0 := by
      rw [hW.count]
      unfold writers_known writer_entries
      rw [hq, hnw]
      simp
    simp [hh, hst, har, hrem, hsz, hq, hc]
  | cons pending rest =>
    have hty := hQ.read_head hst pending rest hq
    have hc := writers_pos_of_head s pending rest hW hq hty
    simp [hh, hst, har, hrem, hsz, hq, hc, hty]

/-- The part of claim C12 that holds.  In every state reached by calls of threads able to
make them, `rwlock_release_write` by the active writer, and `rwlock_release_read` by the
reader whose removal brings the counter of the active reader set to 0, return, and the
lock they leave is the promotion of the specification (`spec_promote`) applied to the lock
after the bookkeeping of the release: the same function for both.  With an empty queue the mode
becomes FREE; otherwise the head entry is popped, the mode becomes its type, a reader-group
hands its set to the active readers and a writer-request its thread to the active writer. -/
theorem promotion_when_counter_empties (s : rwlock) (t : thread) (hr : ReachableAwake s) :
    (rwlock_do_i_hold_writer s t = true →
      ∃ s2, rwlock_release_write s t = outcome.returned s2 ∧
        spec_promote { s with total_num_writers := udec s.total_num_writers,
                              active_writer := none } = some s2 ∧
        (s.reqs = [] → s2.status = FREE ∧ s2.reqs = []) ∧
        (∀ entry rest, s.reqs = entry :: rest →
          s2.status = entry.type ∧ s2.reqs = rest ∧
          (entry.type = READ →
            s2.active_readers = entry.readers ∧
            active_reader_threads s2 = group_threads entry) ∧
          (entry.type = WRITE → s2.active_writer = entry.writer))) ∧
    (∀ rq0 rq, s.active_readers = some rq0 → reader_q_remove rq0 t = some rq → rq.size = 0 →
      ∃ s2, rwlock_release_read s t = outcome.returned s2 ∧
        spec_promote { s with active_readers := some rq } = some s2 ∧
        (s.reqs = [] → s2.status = FREE ∧ s2.reqs = []) ∧
        (∀ entry rest, s.reqs = entry :: rest →
          s2.status = entry.type ∧ s2.reqs = rest ∧
          (entry.type = READ →
            s2.active_readers = entry.readers ∧
            active_reader_threads s2 = group_threads entry) ∧
          (entry.type = WRITE → s2.active_writer = entry.writer))) := by
  constructor
  · intro hh
    obtain ⟨s2, h1, h2⟩ := release_write_promotes s t hr hh
    obtain ⟨h3, h4⟩ := spec_promote_result _ s2 h2
    exact ⟨s2, h1, h2, h3, h4⟩
  · intro rq0 rq har hrem hsz
    obtain ⟨s2, h1, h2⟩ := release_read_promotes s t rq0 rq hr har hrem hsz
    obtain ⟨h3, h4⟩ := spec_promote_result _ s2 h2
    exact ⟨s2, h1, h2, h3, h4⟩

/-- Instance of the promotion.  Reader 1 holds the lock and writer 2 is queued: the release
of reader 1 empties the active reader set and promotes the writer-request of thread 2;
writer 1 holds the lock with an empty queue: its release leaves the lock FREE. -/
theorem promotion_when_counter_empties_instance :
    ReachableAwake st_reader_and_queued_writer ∧
    rwlock_release_read st_reader_and_queued_writer 1 =
      outcome.returned
        { status := WRITE, total_num_writers := 1,
          active_readers := some { head := [], tail := none, size := 0 },
          active_writer := some 2, reqs := [], naming_counter := 1 } ∧
    rwlock_release_write st_one_writer 1 =
      outcome.returned { st_one_writer with status := FREE, total_num_writers := 0,
                                            active_writer := none } ∧
    ∃ s2, rwlock_release_read st_reader_and_queued_writer 1 = outcome.returned s2 ∧
      spec_promote { st_reader_and_queued_writer with
                     active_readers := some { head := [], tail := none, size := 0 } }
        = some s2 ∧
      (st_reader_and_queued_writer.reqs = [] → s2.status = FREE ∧ s2.reqs = []) ∧
      (∀ entry rest, st_reader_and_queued_writer.reqs = entry :: rest →
        s2.status = entry.type ∧ s2.reqs = rest ∧
        (entry.type = READ →
          s2.active_readers = entry.readers ∧
          active_reader_threads s2 = group_threads entry) ∧
        (entry.type = WRITE → s2.active_writer = entry.writer)) :=
  ⟨reach_reader_and_queued_writer, by decide, by decide,
    (promotion_when_counter_empties st_reader_and_queued_writer 1
      reach_reader_and_queued_writer).2
      { head := [{ addr := 10, t := 1 }], tail := some 10, size := 1 }
      { head := [], tail := none, size := 0 } rfl (by decide) (by decide)⟩

theorem awake_of_run (steps : List (rwlock_op × allocs × thread)) (s s1 : rwlock)
    (h : ReachableAwake s) (hrun : rwlock_run s steps = some s1)
    (hok : callers_awake s steps = true) : ReachableAwake s1 := by
  induction steps generalizing s with
  | nil =>
    simp only [rwlock_run, Option.some.injEq] at hrun
    rw [← hrun]
    exact h
  | cons x rest ih =>
    obtain ⟨o, m, t⟩ := x
    simp only [rwlock_run, callers_awake] at hrun hok
    cases hn : (rwlock_call o m s t).next with
    | none =>
      rw [hn] at hrun
      cases hrun
    | some s2 =>
      rw [hn] at hrun hok
      simp only [Bool.and_eq_true, decide_eq_true_eq, Bool.not_eq_true'] at hok
      exact ih s2 (ReachableAwake.step o m t s s2 h hok.1.1 hok.1.2 hn) hrun hok.2

/-- Claim C12, evaluated on the code.  Threads 1, 2 and 3 take a fresh lock for reading,
thread 3 releases it (`reader_q_remove` unlinks the last node without moving `tail`),
thread 4 takes it for reading (its node is stored behind the freed one and is not reached
from `head`), thread 5 asks for the write lock and sleeps on its writer-request, and
thread 1 releases.  Threads 2 and 4 then hold the lock for reading.  The release of thread
2, the last reader linked in the set, returns with the counter of the set at 1: the mode
stays READ and the writer-request of thread 5 stays at the head of the queue.  Thread 4
is then the last active reader and the queue is not empty: the promotion of the head
entry would make the mode WRITE and thread 5 the active writer, but the release of thread
4 stops the kernel, and so does the release of any other thread. -/
theorem last_reader_release_skips_promotion :
    rwlock_run rwlock_create
        [(rwlock_op.acquire_read, allocs.all 10, 1), (rwlock_op.acquire_read, allocs.all 11, 2),
         (rwlock_op.acquire_read, allocs.all 12, 3), (rwlock_op.release_read, allocs.all 0, 3),
         (rwlock_op.acquire_read, allocs.all 13, 4), (rwlock_op.acquire_write, allocs.all 0, 5),
         (rwlock_op.release_read, allocs.all 0, 1)]
      = some st_reader_not_linked ∧
    ReachableAwake st_reader_not_linked ∧
    st_reader_not_linked.status = READ ∧
    active_reader_threads st_reader_not_linked = [2] ∧
    st_reader_not_linked.reqs.map request.type = [WRITE] ∧
    st_reader_not_linked.reqs.map request.writer = [some 5] ∧
    rwlock_release_read st_reader_not_linked 2 = outcome.returned st_no_reader_linked ∧
    ReachableAwake st_no_reader_linked ∧
    st_no_reader_linked.status = READ ∧
    st_no_reader_linked.active_writer = none ∧
    active_reader_threads st_no_reader_linked = [] ∧
    st_no_reader_linked.reqs = st_reader_not_linked.reqs ∧
    (spec_promote st_no_reader_linked).map (fun s => (s.status, s.active_writer)) =
      some (WRITE, some 5) ∧
    rwlock_release_read st_no_reader_linked 4 =
      outcome.crashed crash.panic st_no_reader_linked ∧
    (∀ t, rwlock_release_read st_no_reader_linked t =
      outcome.crashed crash.panic st_no_reader_linked) ∧
    (∀ t, rwlock_release_write st_no_reader_linked t =
      outcome.crashed crash.panic st_no_reader_linked) := by
  have hA : ReachableAwake st_reader_not_linked :=
    awake_of_run _ _ _ ReachableAwake.create
      (show rwlock_run rwlock_create
        [(rwlock_op.acquire_read, allocs.all 10, 1), (rwlock_op.acquire_read, allocs.all 11, 2),
         (rwlock_op.acquire_read, allocs.all 12, 3), (rwlock_op.release_read, allocs.all 0, 3),
         (rwlock_op.acquire_read, allocs.all 13, 4), (rwlock_op.acquire_write, allocs.all 0, 5),
         (rwlock_op.release_read, allocs.all 0, 1)] = some st_reader_not_linked by decide)
      (by decide)
  refine ⟨by decide, hA, rfl, by decide, by decide, by decide, by decide,
    ReachableAwake.step rwlock_op.release_read (allocs.all 0) 2 _ _ hA (by decide) (by decide)
      (by decide),
    rfl, rfl, by decide, rfl, by decide, by decide, ?_, ?_⟩
  · intro t
    simp [rwlock_release_read, rwlock_do_i_hold_reader, st_no_reader_linked,
      st_reader_not_linked]
  · intro t
    simp [rwlock_release_write, rwlock_do_i_hold_writer, st_no_reader_linked,
      st_reader_not_linked]

/-- The part of claim C11 that holds, on the queue: in every reachable state no two
neighbours in the queue are reader-groups and every queued reader-group records at least
one thread. -/
theorem queue_coalesced (s : rwlock) (h : Reachable s) :
    coalesced s.reqs ∧ ∀ r ∈ s.reqs, r.type = READ → group_threads r ≠ [] := by
  have hQ := invq_of_reachable s h
  refine ⟨hQ.merged, ?_⟩
  intro r hr hty
  obtain ⟨rq, hrq, hg⟩ := hQ.groups r hr hty
  unfold group_threads
  rw [hrq]
  simp only [ne_eq, List.map_eq_nil_iff]
  exact hg.1

/-- The part of claim C11 that holds, on the call: in mode WRITE, in a state reached by
calls of threads able to make them, `rwlock_acquire_read` on a non-empty queue puts its
caller to sleep.  When the tail entry is a reader-group and `reader_q_insert` accepts the
caller, the caller is in the reader set of that entry afterwards and the queue has as
many entries as before; when the tail entry is a writer-request and the allocations
succeed, a reader-group that records the caller alone is appended. -/
theorem acquire_read_coalesces (m : allocs) (s : rwlock) (t : thread) (req_tail : request)
    (hr : ReachableAwake s) (hst : s.status = WRITE) (htl : s.reqs.getLast? = some req_tail) :
    (req_tail.type = READ → ∀ rq rq1, req_tail.readers = some rq →
      reader_q_insert rq m.to_insert t = some rq1 →
      rwlock_acquire_read m s t =
        outcome.sleeping
          { s with reqs := s.reqs.dropLast ++ [({ req_tail with readers := some rq1 } : request)] } ∧
      (s.reqs.dropLast ++ [({ req_tail with readers := some rq1 } : request)]).length =
        s.reqs.length ∧
      t ∈ rq1.head.map thread_ll.t) ∧
    (req_tail.type = WRITE → ∀ a, ∃ r,
      rwlock_acquire_read (allocs.all a) s t =
        outcome.sleeping
          { s with naming_counter := uinc s.naming_counter, reqs := s.reqs ++ [r] } ∧
      r.type = READ ∧ group_threads r = [t]) := by
  have hR := reachable_of_awake s hr
  have hI := inv_of_reachable s hR
  have hW := invw_of_awake s hr
  have hQ := invq_of_reachable s hR
  have hhold : rwlock_do_i_hold_reader s t = false := by
    unfold rwlock_do_i_hold_reader
    cases har : s.active_readers with
    | none => rfl
    | some rq0 => simp [(hI.no_readers hst rq0 har).1]
  have hnw : s.total_num_writers ≠ 0 := by
    have hsome := hI.writer_iff.mp hst
    rw [hW.count]
    unfold writers_known
    rw [if_pos hsome]
    omega
  constructor
  · intro hty rq rq1 hrq hins
    have hmem : req_tail ∈ s.reqs := List.mem_of_getLast?_eq_some htl
    obtain ⟨rq0, hrq0, hg0⟩ := hQ.groups req_tail hmem hty
    rw [hrq] at hrq0
    cases hrq0
    refine ⟨?_, ?_, reader_q_insert_mem rq rq1 _ t hins (Or.inr hg0)⟩
    · unfold rwlock_acquire_read rwlock_acquire_read_wait
      simp [hhold, hst, hnw, htl, hty, hrq, hins]
    · have hq : s.reqs.dropLast ++ [req_tail] = s.reqs :=
        List.dropLast_append_getLast? req_tail htl
      conv_rhs => rw [← hq]
      simp
  · intro hty a
    refine ⟨{ type := READ,
              readers := some { head := [{ addr := a, t := t }], tail := some a,
                                size := uinc 0 },
              writer := none,
              req_cv := c_string (get_req_names (uinc s.naming_counter)).1,
              req_cv_lock := c_string (get_req_names (uinc s.naming_counter)).2 },
      ?_, rfl, rfl⟩
    unfold rwlock_acquire_read rwlock_acquire_read_wait
    simp [hhold, hst, hnw, htl, hty, request_q_insert, allocs.all, reader_q_create,
      reader_q_insert]

/-- Claim C11, evaluated on the code.  Writers 1 and 2 and readers 3 and 5 bring the
lock to mode READ with reader 3 active and, in the queue, the writer-request of thread 4
followed by the reader-group of thread 5.  Thread 6 calls `rwlock_acquire_read` and has
to queue behind the writer: the tail entry is a reader-group, but the call stops the
kernel on the assertion at the label `case WRITE:` and thread 6 joins no group.  With
reader 1 active and the writer-request of thread 2 as tail entry, the call of thread 3
stops the kernel the same way and no reader-group is appended. -/
theorem reader_coalescing_stops_in_read_mode :
    rwlock_run rwlock_create
        [(rwlock_op.acquire_write, allocs.all 0, 1), (rwlock_op.acquire_write, allocs.all 0, 2),
         (rwlock_op.acquire_read, allocs.all 20, 3), (rwlock_op.release_write, allocs.all 0, 1),
         (rwlock_op.acquire_write, allocs.all 0, 4), (rwlock_op.acquire_read, allocs.all 21, 5),
         (rwlock_op.release_write, allocs.all 0, 2)]
      = some st_read_phase_tail_group ∧
    st_read_phase_tail_group.status = READ ∧
    st_read_phase_tail_group.total_num_writers = 1 ∧
    st_read_phase_tail_group.reqs.getLast?.map request.type = some READ ∧
    rwlock_do_i_hold_reader st_read_phase_tail_group 6 = false ∧
    (∀ m, rwlock_acquire_read m st_read_phase_tail_group 6 =
      outcome.crashed crash.panic st_read_phase_tail_group) ∧
    st_reader_and_queued_writer.reqs.getLast?.map request.type = some WRITE ∧
    (∀ m, rwlock_acquire_read m st_reader_and_queued_writer 3 =
      outcome.crashed crash.panic st_reader_and_queued_writer) :=
  ⟨by decide, rfl, rfl, by decide, by decide,
    fun m => acquire_read_crashes_in_read_mode m _ 6 (by decide) rfl (by decide),
    by decide,
    fun m => acquire_read_crashes_in_read_mode m _ 3 (by decide) rfl (by decide)⟩

/-! ## Semaphores: claims C19 and C20 -/

theorem P_loop_pos (c : Nat) (wakes : List Nat) (h : 0 < c) :
    P_loop c wakes = sem_outcome.returned { sem_count := udec c } := by
  cases wakes with
  | nil => simp [P_loop, Nat.pos_iff_ne_zero.mp h]
  | cons w rest => simp [P_loop, Nat.pos_iff_ne_zero.mp h]

theorem P_loop_zeros (wakes : List Nat) (h : ∀ w ∈ wakes, w = 0) :
    P_loop 0 wakes = sem_outcome.sleeping { sem_count := 0 } := by
  induction wakes with
  | nil => simp [P_loop]
  | cons w rest ih =>
    have hw : w = 0 := h w (List.mem_cons_self _ _)
    subst hw
    simp only [P_loop, ↓reduceIte]
    exact ih (fun x hx => h x (List.mem_cons_of_mem _ hx))

theorem P_loop_first_pos (k w : Nat) (rest : List Nat) (h : 0 < w) :
    P_loop 0 (List.replicate k 0 ++ w :: rest) =
      sem_outcome.returned { sem_count := udec w } := by
  induction k with
  | zero =>
    simp only [List.replicate_zero, List.nil_append, P_loop, ↓reduceIte]
    exact P_loop_pos w rest h
  | succ n ih =>
    simp only [List.replicate_succ, List.cons_append, P_loop, ↓reduceIte]
    exact ih

theorem udec_pos (c : Nat) (h : 0 < c) (hc : c < UINT_RANGE) : udec c = c - 1 := by
  unfold udec
  rw [show c + UINT_RANGE - 1 = (c - 1) + UINT_RANGE by omega, Nat.add_mod_right]
  exact Nat.mod_eq_of_lt (by omega)

theorem V_below_max (sem : semaphore) (h : sem.sem_count < UINT_RANGE - 1) :
    V sem = sem_outcome.returned { sem_count := sem.sem_count + 1 } := by
  have h1 : uinc sem.sem_count = sem.sem_count + 1 := by
    unfold uinc; exact Nat.mod_eq_of_lt (by unfold UINT_RANGE at h ⊢; omega)
  unfold V
  simp [h1]

/-- Claim C19 (V asserts against wrap).  For a semaphore whose counter `c` is below
`2 ^ 32 - 1`, `V` returns with the counter at `c + 1`; when `c = 2 ^ 32 - 1` the
increment wraps to 0, the assertion fails and `V` stops the kernel; and whenever `V`
returns the counter is positive. -/
theorem V_asserts_against_wrap (sem : semaphore) :
    (sem.sem_count < UINT_RANGE - 1 →
      V sem = sem_outcome.returned { sem_count := sem.sem_count + 1 }) ∧
    (sem.sem_count = UINT_RANGE - 1 → V sem = sem_outcome.crashed { sem_count := 0 }) ∧
    (∀ sem1, V sem = sem_outcome.returned sem1 → 0 < sem1.sem_count) := by
  refine ⟨?_, ?_, ?_⟩
  · exact V_below_max sem
  · intro h
    have h1 : uinc sem.sem_count = 0 := by
      unfold uinc; rw [h]; decide
    unfold V
    simp [h1]
  · intro sem1 h
    unfold V at h
    simp only at h
    split at h
    · next hpos =>
      simp only [sem_outcome.returned.injEq] at h
      rw [← h]; exact hpos
    · simp at h

/-- Instance of claim C19: a counter of 3, and the largest counter. -/
theorem V_asserts_against_wrap_witness :
    ((3 : Nat) < UINT_RANGE - 1 ∧ (4294967295 : Nat) = UINT_RANGE - 1) ∧
    V { sem_count := 3 } = sem_outcome.returned { sem_count := 3 + 1 } ∧
    V { sem_count := 4294967295 } = sem_outcome.crashed { sem_count := 0 } :=
  ⟨by decide,
    (V_asserts_against_wrap { sem_count := 3 }).1 (by decide),
    (V_asserts_against_wrap { sem_count := 4294967295 }).2.1 (by decide)⟩

/-- Claim C20 (semaphore down/up).  Outside an interrupt handler, `P` on a semaphore whose
counter `c` is positive returns without sleeping, whatever would be found at later
wake-ups, and leaves `c - 1`, and a following `V` returns and leaves `c` again.  On a
counter of 0, `P` is asleep with the counter untouched as long as every wake-up finds it
at 0, and it returns at the first wake-up that finds a positive value `w`, leaving
`w - 1`. -/
theorem P_then_V (c : Nat) (wakes : List Nat) :
    (0 < c → c < UINT_RANGE →
      P false { sem_count := c } wakes = sem_outcome.returned { sem_count := c - 1 } ∧
      V { sem_count := c - 1 } = sem_outcome.returned { sem_count := c }) ∧
    ((∀ w ∈ wakes, w = 0) →
      P false { sem_count := 0 } wakes = sem_outcome.sleeping { sem_count := 0 }) ∧
    (∀ k w rest, 0 < w → w < UINT_RANGE →
      P false { sem_count := 0 } (List.replicate k 0 ++ w :: rest) =
        sem_outcome.returned { sem_count := w - 1 }) := by
  refine ⟨?_, ?_, ?_⟩
  · intro h hc
    constructor
    · unfold P
      simp only [ne_eq, not_true_eq_false, ↓reduceIte]
      rw [P_loop_pos c wakes h, udec_pos c h hc]
    · have := V_below_max { sem_count := c - 1 }
        (by simp only; unfold UINT_RANGE at hc ⊢; omega)
      rw [this]
      simp only [sem_outcome.returned.injEq, semaphore.mk.injEq]
      omega
  · intro h
    unfold P
    simp only [ne_eq, not_true_eq_false, ↓reduceIte]
    exact P_loop_zeros wakes h
  · intro k w rest h hw
    unfold P
    simp only [ne_eq, not_true_eq_false, ↓reduceIte]
    rw [P_loop_first_pos k w rest h, udec_pos w h hw]

/-- Instance of claim C20: `P` then `V` on a counter of 2; `P` on a counter of 0 that is
woken twice for nothing and then finds 5. -/
theorem P_then_V_witness :
    ((0 : Nat) < 2 ∧ (2 : Nat) < UINT_RANGE ∧ (∀ w ∈ [0, 0], w = 0)) ∧
    (P false { sem_count := 2 } [0, 0] = sem_outcome.returned { sem_count := 2 - 1 } ∧
      V { sem_count := 2 - 1 } = sem_outcome.returned { sem_count := 2 }) ∧
    P false { sem_count := 0 } [0, 0] = sem_outcome.sleeping { sem_count := 0 } ∧
    P false { sem_count := 0 } (List.replicate 2 0 ++ 5 :: []) =
      sem_outcome.returned { sem_count := 5 - 1 } :=
  ⟨by decide,
    (P_then_V 2 [0, 0]).1 (by decide) (by decide),
    (P_then_V 2 [0, 0]).2.1 (by decide),
    (P_then_V 2 [0, 0]).2.2 2 5 [] (by decide) (by decide)⟩

/-! ## Stoplight routes: claims C13 and C14 -/

/-- Claim C13 (stoplight routes).  For a direction `X` in 0..3, with the `uint32_t`
arithmetic of the code, the quadrants entered are `[X]` for `turnright`,
`[X, (X + 3) % 4]` for `gostraight` and `[X, (X + 3) % 4, (X + 2) % 4]` for `turnleft`;
`(X - 1) % 4` and `(X - 2) % 4` as the code computes them are the residues of `X - 1`
and `X - 2` modulo 4 in the integers, also when the difference wraps; and every argument
passed to `get_quadrant` is one of 0..3, so that its `default` branch is not taken. -/
theorem stoplight_routes (X index : Nat) (h : X < 4) :
    quadrants_entered (turnright X index) = [X] ∧
    quadrants_entered (gostraight X index) = [X, (X + 3) % 4] ∧
    quadrants_entered (turnleft X index) = [X, (X + 3) % 4, (X + 2) % 4] ∧
    ((usub32 X 1 % 4 : Nat) : Int) = ((X : Int) - 1) % 4 ∧
    ((usub32 X 2 % 4 : Nat) : Int) = ((X : Int) - 2) % 4 ∧
    (∀ num ∈ get_quadrant_args (turnright X index) ++ get_quadrant_args (gostraight X index)
        ++ get_quadrant_args (turnleft X index), (get_quadrant num).isSome = true) := by
  interval_cases X <;> refine ⟨rfl, rfl, rfl, by decide, by decide, ?_⟩ <;>
    simp [get_quadrant_args, turnright, gostraight, turnleft, usub32, UINT_RANGE,
      get_quadrant]

/-- Instance of claim C13: direction 0, where `X - 1` and `X - 2` wrap. -/
theorem stoplight_routes_witness :
    (0 : Nat) < 4 ∧
    quadrants_entered (turnright 0 7) = [0] ∧
    quadrants_entered (gostraight 0 7) = [0, (0 + 3) % 4] ∧
    quadrants_entered (turnleft 0 7) = [0, (0 + 3) % 4, (0 + 2) % 4] :=
  ⟨by decide, (stoplight_routes 0 7 (by decide)).1, (stoplight_routes 0 7 (by decide)).2.1,
    (stoplight_routes 0 7 (by decide)).2.2.1⟩

/-- Claim C14 (hand-over-hand).  For a direction `X` in 0..3, the calls of `turnright`,
`gostraight` and `turnleft` pass the hand-over-hand check: each `inQuadrant` names a
quadrant whose semaphore the car has taken and not given back; a semaphore is given back
only once the car is no longer recorded in its quadrant, that is, after the `P` and the
`inQuadrant` for the next quadrant or, for the last quadrant, after `leaveIntersection`;
and at the end nothing is held.  The quadrants taken with `P` and those given back with
`V` are, in the same order, the quadrants entered, each once. -/
theorem stoplight_hand_over_hand (X index : Nat) (h : X < 4) :
    hand_over_hand (turnright X index) = true ∧
    hand_over_hand (gostraight X index) = true ∧
    hand_over_hand (turnleft X index) = true ∧
    (∀ prog ∈ [turnright X index, gostraight X index, turnleft X index],
      quadrants_taken prog = quadrants_entered prog ∧
      quadrants_given_back prog = quadrants_entered prog ∧
      (quadrants_entered prog).Nodup) := by
  interval_cases X <;> refine ⟨rfl, rfl, rfl, ?_⟩ <;>
    simp [quadrants_taken, quadrants_given_back, quadrants_entered, turnright, gostraight,
      turnleft, usub32, UINT_RANGE]

/-- Instance of claim C14: a left turn from direction 1. -/
theorem stoplight_hand_over_hand_witness :
    (1 : Nat) < 4 ∧ hand_over_hand (turnleft 1 0) = true ∧
    quadrants_given_back (turnleft 1 0) = quadrants_entered (turnleft 1 0) :=
  ⟨by decide, (stoplight_hand_over_hand 1 0 (by decide)).2.2.1,
    ((stoplight_hand_over_hand 1 0 (by decide)).2.2.2 (turnleft 1 0) (by simp)).2.1⟩

/-! ## The direction cycle: claims C16 and C17 -/

/-- Claim C17 (direction_cycle_signal).  On the cycle built by `stoplight_init`, with
counters in the range of an `unsigned` and at least one car in node `me`,
`direction_cycle_signal(me)` comes to its end whenever the loop is given four rounds: it
takes one from the counter of `me` and changes nothing else (the other counters, the
links and `cur`); its loop moves `*next` at most three times, over nodes without cars
only, and stops on the first node after `me` that has cars, or on `me` itself when the
three others have none. -/
theorem direction_cycle_signal_selects (c0 c1 c2 c3 cur me fuel : Nat) (hme : me < 4)
    (hcars : 1 ≤ cars_of (cycle_state c0 c1 c2 c3 cur) me)
    (hrange : cars_of (cycle_state c0 c1 c2 c3 cur) me < UINT_RANGE) (hfuel : 4 ≤ fuel) :
    ∃ s1 next moves,
      direction_cycle_signal fuel (cycle_state c0 c1 c2 c3 cur) me =
        run.done (s1, some next, moves) ∧
      s1 = cycle_state (if me = 0 then c0 - 1 else c0) (if me = 1 then c1 - 1 else c1)
            (if me = 2 then c2 - 1 else c2) (if me = 3 then c3 - 1 else c3) cur ∧
      moves ≤ 3 ∧ next = (me + moves + 1) % 4 ∧
      (∀ j, j < moves → cars_of s1 ((me + j + 1) % 4) = 0) ∧
      (moves < 3 → cars_of s1 next ≠ 0) := by
  obtain ⟨f, rfl⟩ := Nat.exists_eq_add_of_le hfuel
  rw [Nat.add_comm 4 f]
  interval_cases me
  · simp only [cars_of, cycle_state, stoplight_init] at hcars hrange
    simp at hcars hrange
    have hd : udec c0 = c0 - 1 := udec_pos c0 hcars hrange
    by_cases h1 : c1 = 0
    · by_cases h2 : c2 = 0
      · by_cases h3 : c3 = 0
        · refine ⟨_, 0, 3, ?_, rfl, by omega, rfl, ?_, by omega⟩
          · simp [direction_cycle_signal, signal_next, cycle_state, stoplight_init, hd, h1, h2, h3]
          · intro j hj
            interval_cases j <;> simp [cars_of, cycle_state, stoplight_init, h1, h2, h3]
        · refine ⟨_, 3, 2, ?_, rfl, by omega, rfl, ?_, ?_⟩
          · simp [direction_cycle_signal, signal_next, cycle_state, stoplight_init, hd, h1, h2, h3]
          · intro j hj
            interval_cases j <;> simp [cars_of, cycle_state, stoplight_init, h1, h2, h3]
          · simp [cars_of, cycle_state, stoplight_init, h3]
      · refine ⟨_, 2, 1, ?_, rfl, by omega, rfl, ?_, ?_⟩
        · simp [direction_cycle_signal, signal_next, cycle_state, stoplight_init, hd, h1, h2]
        · intro j hj
          have hj0 : j = 0 := by omega
          subst hj0
          simp [cars_of, cycle_state, stoplight_init, h1, h2]
        · simp [cars_of, cycle_state, stoplight_init, h2]
    · refine ⟨_, 1, 0, ?_, rfl, by omega, rfl, ?_, ?_⟩
      · simp [direction_cycle_signal, signal_next, cycle_state, stoplight_init, hd, h1]
      · intro j hj; omega
      · simp [cars_of, cycle_state, stoplight_init, h1]
  · simp only [cars_of, cycle_state, stoplight_init] at hcars hrange
    simp at hcars hrange
    have hd : udec c1 = c1 - 1 := udec_pos c1 hcars hrange
    by_cases h1 : c2 = 0
    · by_cases h2 : c3 = 0
      · by_cases h3 : c0 = 0
        · refine ⟨_, 1, 3, ?_, rfl, by omega, rfl, ?_, by omega⟩
          · simp [direction_cycle_signal, signal_next, cycle_state, stoplight_init, hd, h1, h2, h3]
          · intro j hj
            interval_cases j <;> simp [cars_of, cycle_state, stoplight_init, h1, h2, h3]
        · refine ⟨_, 0, 2, ?_, rfl, by omega, rfl, ?_, ?_⟩
          · simp [direction_cycle_signal, signal_next, cycle_state, stoplight_init, hd, h1, h2, h3]
          · intro j hj
            interval_cases j <;> simp [cars_of, cycle_state, stoplight_init, h1, h2, h3]
          · simp [cars_of, cycle_state, stoplight_init, h3]
      · refine ⟨_, 3, 1, ?_, rfl, by omega, rfl, ?_, ?_⟩
        · simp [direction_cycle_signal, signal_next, cycle_state, stoplight_init, hd, h1, h2]
        · intro j hj
          have hj0 : j = 0 := by omega
          subst hj0
          simp [cars_of, cycle_state, stoplight_init, h1, h2]
        · simp [cars_of, cycle_state, stoplight_init, h2]
    · refine ⟨_, 2, 0, ?_, rfl, by omega, rfl, ?_, ?_⟩
      · simp [direction_cycle_signal, signal_next, cycle_state, stoplight_init, hd, h1]
      · intro j hj; omega
      · simp [cars_of, cycle_state, stoplight_init, h1]
  · simp only [cars_of, cycle_state, stoplight_init] at hcars hrange
    simp at hcars hrange
    have hd : udec c2 = c2 - 1 := udec_pos c2 hcars hrange
    by_cases h1 : c3 = 0
    · by_cases h2 : c0 = 0
      · by_cases h3 : c1 = 0
        · refine ⟨_, 2, 3, ?_, rfl, by omega, rfl, ?_, by omega⟩
          · simp [direction_cycle_signal, signal_next, cycle_state, stoplight_init, hd, h1, h2, h3]
          · intro j hj
            interval_cases j <;> simp [cars_of, cycle_state, stoplight_init, h1, h2, h3]
        · refine ⟨_, 1, 2, ?_, rfl, by omega, rfl, ?_, ?_⟩
          · simp [direction_cycle_signal, signal_next, cycle_state, stoplight_init, hd, h1, h2, h3]
          · intro j hj
            interval_cases j <;> simp [cars_of, cycle_state, stoplight_init, h1, h2, h3]
          · simp [cars_of, cycle_state, stoplight_init, h3]
      · refine ⟨_, 0, 1, ?_, rfl, by omega, rfl, ?_, ?_⟩
        · simp [direction_cycle_signal, signal_next, cycle_state, stoplight_init, hd, h1, h2]
        · intro j hj
          have hj0 : j = 0 := by omega
          subst hj0
          simp [cars_of, cycle_state, stoplight_init, h1, h2]
        · simp [cars_of, cycle_state, stoplight_init, h2]
    · refine ⟨_, 3, 0, ?_, rfl, by omega, rfl, ?_, ?_⟩
      · simp [direction_cycle_signal, signal_next, cycle_state, stoplight_init, hd, h1]
      · intro j hj; omega
      · simp [cars_of, cycle_state, stoplight_init, h1]
  · simp only [cars_of, cycle_state, stoplight_init] at hcars hrange
    simp at hcars hrange
    have hd : udec c3 = c3 - 1 := udec_pos c3 hcars hrange
    by_cases h1 : c0 = 0
    · by_cases h2 : c1 = 0
      · by_cases h3 : c2 = 0
        · refine ⟨_, 3, 3, ?_, rfl, by omega, rfl, ?_, by omega⟩
          · simp [direction_cycle_signal, signal_next, cycle_state, stoplight_init, hd, h1, h2, h3]
          · intro j hj
            interval_cases j <;> simp [cars_of, cycle_state, stoplight_init, h1, h2, h3]
        · refine ⟨_, 2, 2, ?_, rfl, by omega, rfl, ?_, ?_⟩
          · simp [direction_cycle_signal, signal_next, cycle_state, stoplight_init, hd, h1, h2, h3]
          · intro j hj
            interval_cases j <;> simp [cars_of, cycle_state, stoplight_init, h1, h2, h3]
          · simp [cars_of, cycle_state, stoplight_init, h3]
      · refine ⟨_, 1, 1, ?_, rfl, by omega, rfl, ?_, ?_⟩
        · simp [direction_cycle_signal, signal_next, cycle_state, stoplight_init, hd, h1, h2]
        · intro j hj
          have hj0 : j = 0 := by omega
          subst hj0
          simp [cars_of, cycle_state, stoplight_init, h1, h2]
        · simp [cars_of, cycle_state, stoplight_init, h2]
    · refine ⟨_, 0, 0, ?_, rfl, by omega, rfl, ?_, ?_⟩
      · simp [direction_cycle_signal, signal_next, cycle_state, stoplight_init, hd, h1]
      · intro j hj; omega
      · simp [cars_of, cycle_state, stoplight_init, h1]

theorem direction_cycle_signal_selects_witness :
    (0 < 4 ∧ 1 ≤ cars_of (cycle_state 2 0 1 0 3) 0 ∧
      cars_of (cycle_state 2 0 1 0 3) 0 < UINT_RANGE ∧ 4 ≤ 4) ∧
    direction_cycle_signal 4 (cycle_state 2 0 1 0 3) 0 =
      run.done (cycle_state 1 0 1 0 3, some 2, 1) ∧
    ∃ s1 next moves,
      direction_cycle_signal 4 (cycle_state 2 0 1 0 3) 0 = run.done (s1, some next, moves) ∧
      s1 = cycle_state (if 0 = 0 then 2 - 1 else 2) (if 0 = 1 then 0 - 1 else 0)
            (if 0 = 2 then 1 - 1 else 1) (if 0 = 3 then 0 - 1 else 0) 3 ∧
      moves ≤ 3 ∧ next = (0 + moves + 1) % 4 ∧
      (∀ j, j < moves → cars_of s1 ((0 + j + 1) % 4) = 0) ∧
      (moves < 3 → cars_of s1 next ≠ 0) :=
  ⟨by decide, by decide,
    direction_cycle_signal_selects 2 0 1 0 3 0 4 (by decide) (by decide) (by decide)
      (by decide)⟩

/-- Claim C16, amended.  On the cycle built by `stoplight_init` with `cur` at node `me`,
at least one car in `me` and cars in some other node, `direction_cycle_signal(me)` ends
with `cur` still at `me`: it never writes `cur`.  The node it stores in `*next` is the
first node after `me` that has cars, reached over nodes without cars.  The turn moves when
the counter of `me` has come down to 0: a car of the node `next`, woken by the broadcast,
then moves `cur` to `next` in the loop of `direction_cycle_wait` and goes on; while `me`
still has cars that car finds `cur` at `me` and sleeps again. -/
theorem direction_cycle_signal_keeps_cur (c0 c1 c2 c3 me fuel : Nat) (hme : me < 4)
    (hcars : 1 ≤ cars_of (cycle_state c0 c1 c2 c3 me) me)
    (hrange : cars_of (cycle_state c0 c1 c2 c3 me) me < UINT_RANGE)
    (hother : ∃ i, i < 4 ∧ i ≠ me ∧ cars_of (cycle_state c0 c1 c2 c3 me) i ≠ 0)
    (hfuel : 4 ≤ fuel) :
    ∃ s1 next moves,
      direction_cycle_signal fuel (cycle_state c0 c1 c2 c3 me) me =
        run.done (s1, some next, moves) ∧
      s1.cur = some me ∧ next ≠ me ∧ next = (me + moves + 1) % 4 ∧
      cars_of s1 next ≠ 0 ∧
      (∀ j, j < moves → cars_of s1 ((me + j + 1) % 4) = 0) ∧
      (cars_of s1 me = 0 →
        ∃ moves1, direction_cycle_wait_wake fuel s1 next =
          run.done ({ s1 with cur := some next }, moves1, true)) ∧
      (cars_of s1 me ≠ 0 → direction_cycle_wait_wake fuel s1 next = run.done (s1, 0, false)) := by
  obtain ⟨f, rfl⟩ := Nat.exists_eq_add_of_le hfuel
  rw [Nat.add_comm 4 f]
  interval_cases me
  · simp only [cars_of, cycle_state, stoplight_init] at hcars hrange
    simp at hcars hrange
    have hd : udec c0 = c0 - 1 := udec_pos c0 hcars hrange
    have hoth : ¬ (c1 = 0 ∧ c2 = 0 ∧ c3 = 0) := by
      rintro ⟨ha, hb, hc⟩
      obtain ⟨i, hi, hne, hz⟩ := hother
      interval_cases i <;>
        first
        | exact hne rfl
        | simp [cars_of, cycle_state, stoplight_init, ha, hb, hc] at hz
    by_cases hm : c0 = 1
    · subst hm
      by_cases h1 : c1 = 0
      · by_cases h2 : c2 = 0
        · have h3 : c3 ≠ 0 := fun h3 => hoth ⟨h1, h2, h3⟩
          refine ⟨(cycle_state (1 - 1) c1 c2 c3 0), 3, 2, ?_, rfl, by decide, rfl, ?_, ?_, ?_, ?_⟩
          · simp [direction_cycle_signal, signal_next, cycle_state, stoplight_init, hd, h1, h2, h3]
          · simp [cars_of, cycle_state, stoplight_init, h1, h2, h3]
          · intro j hj
            interval_cases j <;> simp [cars_of, cycle_state, stoplight_init, h1, h2, h3]
          · intro _
            refine ⟨3, ?_⟩
            simp [direction_cycle_wait_wake, advance_cur, cycle_state, stoplight_init, h1, h2, h3]
          · intro hz
            simp [cars_of, cycle_state, stoplight_init] at hz
        · refine ⟨(cycle_state (1 - 1) c1 c2 c3 0), 2, 1, ?_, rfl, by decide, rfl, ?_, ?_, ?_, ?_⟩
          · simp [direction_cycle_signal, signal_next, cycle_state, stoplight_init, hd, h1, h2]
          · simp [cars_of, cycle_state, stoplight_init, h1, h2]
          · intro j hj
            have hj0 : j = 0 := by omega
            subst hj0
            simp [cars_of, cycle_state, stoplight_init, h1, h2]
          · intro _
            refine ⟨2, ?_⟩
            simp [direction_cycle_wait_wake, advance_cur, cycle_state, stoplight_init, h1, h2]
          · intro hz
            simp [cars_of, cycle_state, stoplight_init] at hz
      · refine ⟨(cycle_state (1 - 1) c1 c2 c3 0), 1, 0, ?_, rfl, by decide, rfl, ?_, ?_, ?_, ?_⟩
        · simp [direction_cycle_signal, signal_next, cycle_state, stoplight_init, hd, h1]
        · simp [cars_of, cycle_state, stoplight_init, h1]
        · intro j hj; omega
        · intro _
          refine ⟨1, ?_⟩
          simp [direction_cycle_wait_wake, advance_cur, cycle_state, stoplight_init, h1]
        · intro hz
          simp [cars_of, cycle_state, stoplight_init] at hz
    · have hnz : c0 - 1 ≠ 0 := by omega
      by_cases h1 : c1 = 0
      · by_cases h2 : c2 = 0
        · have h3 : c3 ≠ 0 := fun h3 => hoth ⟨h1, h2, h3⟩
          refine ⟨(cycle_state (c0 - 1) c1 c2 c3 0), 3, 2, ?_, rfl, by decide, rfl, ?_, ?_, ?_, ?_⟩
          · simp [direction_cycle_signal, signal_next, cycle_state, stoplight_init, hd, h1, h2, h3]
          · simp [cars_of, cycle_state, stoplight_init, h1, h2, h3]
          · intro j hj
            interval_cases j <;> simp [cars_of, cycle_state, stoplight_init, h1, h2, h3]
          · intro hz
            simp [cars_of, cycle_state, stoplight_init] at hz
            omega
          · intro _
            simp [direction_cycle_wait_wake, advance_cur, cycle_state, stoplight_init, hnz, h1, h2, h3]
        · refine ⟨(cycle_state (c0 - 1) c1 c2 c3 0), 2, 1, ?_, rfl, by decide, rfl, ?_, ?_, ?_, ?_⟩
          · simp [direction_cycle_signal, signal_next, cycle_state, stoplight_init, hd, h1, h2]
          · simp [cars_of, cycle_state, stoplight_init, h1, h2]
          · intro j hj
            have hj0 : j = 0 := by omega
            subst hj0
            simp [cars_of, cycle_state, stoplight_init, h1, h2]
          · intro hz
            simp [cars_of, cycle_state, stoplight_init] at hz
            omega
          · intro _
            simp [direction_cycle_wait_wake, advance_cur, cycle_state, stoplight_init, hnz, h1, h2]
      · refine ⟨(cycle_state (c0 - 1) c1 c2 c3 0), 1, 0, ?_, rfl, by decide, rfl, ?_, ?_, ?_, ?_⟩
        · simp [direction_cycle_signal, signal_next, cycle_state, stoplight_init, hd, h1]
        · simp [cars_of, cycle_state, stoplight_init, h1]
        · intro j hj; omega
        · intro hz
          simp [cars_of, cycle_state, stoplight_init] at hz
          omega
        · intro _
          simp [direction_cycle_wait_wake, advance_cur, cycle_state, stoplight_init, hnz, h1]
  · simp only [cars_of, cycle_state, stoplight_init] at hcars hrange
    simp at hcars hrange
    have hd : udec c1 = c1 - 1 := udec_pos c1 hcars hrange
    have hoth : ¬ (c2 = 0 ∧ c3 = 0 ∧ c0 = 0) := by
      rintro ⟨ha, hb, hc⟩
      obtain ⟨i, hi, hne, hz⟩ := hother
      interval_cases i <;>
        first
        | exact hne rfl
        | simp [cars_of, cycle_state, stoplight_init, ha, hb, hc] at hz
    by_cases hm : c1 = 1
    · subst hm
      by_cases h1 : c2 = 0
      · by_cases h2 : c3 = 0
        · have h3 : c0 ≠ 0 := fun h3 => hoth ⟨h1, h2, h3⟩
          refine ⟨(cycle_state c0 (1 - 1) c2 c3 1), 0, 2, ?_, rfl, by decide, rfl, ?_, ?_, ?_, ?_⟩
          · simp [direction_cycle_signal, signal_next, cycle_state, stoplight_init, hd, h1, h2, h3]
          · simp [cars_of, cycle_state, stoplight_init, h1, h2, h3]
          · intro j hj
            interval_cases j <;> simp [cars_of, cycle_state, stoplight_init, h1, h2, h3]
          · intro _
            refine ⟨3, ?_⟩
            simp [direction_cycle_wait_wake, advance_cur, cycle_state, stoplight_init, h1, h2, h3]
          · intro hz
            simp [cars_of, cycle_state, stoplight_init] at hz
        · refine ⟨(cycle_state c0 (1 - 1) c2 c3 1), 3, 1, ?_, rfl, by decide, rfl, ?_, ?_, ?_, ?_⟩
          · simp [direction_cycle_signal, signal_next, cycle_state, stoplight_init, hd, h1, h2]
          · simp [cars_of, cycle_state, stoplight_init, h1, h2]
          · intro j hj
            have hj0 : j = 0 := by omega
            subst hj0
            simp [cars_of, cycle_state, stoplight_init, h1, h2]
          · intro _
            refine ⟨2, ?_⟩
            simp [direction_cycle_wait_wake, advance_cur, cycle_state, stoplight_init, h1, h2]
          · intro hz
            simp [cars_of, cycle_state, stoplight_init] at hz
      · refine ⟨(cycle_state c0 (1 - 1) c2 c3 1), 2, 0, ?_, rfl, by decide, rfl, ?_, ?_, ?_, ?_⟩
        · simp [direction_cycle_signal, signal_next, cycle_state, stoplight_init, hd, h1]
        · simp [cars_of, cycle_state, stoplight_init, h1]
        · intro j hj; omega
        · intro _
          refine ⟨1, ?_⟩
          simp [direction_cycle_wait_wake, advance_cur, cycle_state, stoplight_init, h1]
        · intro hz
          simp [cars_of, cycle_state, stoplight_init] at hz
    · have hnz : c1 - 1 ≠ 0 := by omega
      by_cases h1 : c2 = 0
      · by_cases h2 : c3 = 0
        · have h3 : c0 ≠ 0 := fun h3 => hoth ⟨h1, h2, h3⟩
          refine ⟨(cycle_state c0 (c1 - 1) c2 c3 1), 0, 2, ?_, rfl, by decide, rfl, ?_, ?_, ?_, ?_⟩
          · simp [direction_cycle_signal, signal_next, cycle_state, stoplight_init, hd, h1, h2, h3]
          · simp [cars_of, cycle_state, stoplight_init, h1, h2, h3]
          · intro j hj
            interval_cases j <;> simp [cars_of, cycle_state, stoplight_init, h1, h2, h3]
          · intro hz
            simp [cars_of, cycle_state, stoplight_init] at hz
            omega
          · intro _
            simp [direction_cycle_wait_wake, advance_cur, cycle_state, stoplight_init, hnz, h1, h2, h3]
        · refine ⟨(cycle_state c0 (c1 - 1) c2 c3 1), 3, 1, ?_, rfl, by decide, rfl, ?_, ?_, ?_, ?_⟩
          · simp [direction_cycle_signal, signal_next, cycle_state, stoplight_init, hd, h1, h2]
          · simp [cars_of, cycle_state, stoplight_init, h1, h2]
          · intro j hj
            have hj0 : j = 0 := by omega
            subst hj0
            simp [cars_of, cycle_state, stoplight_init, h1, h2]
          · intro hz
            simp [cars_of, cycle_state, stoplight_init] at hz
            omega
          · intro _
            simp [direction_cycle_wait_wake, advance_cur, cycle_state, stoplight_init, hnz, h1, h2]
      · refine ⟨(cycle_state c0 (c1 - 1) c2 c3 1), 2, 0, ?_, rfl, by decide, rfl, ?_, ?_, ?_, ?_⟩
        · simp [direction_cycle_signal, signal_next, cycle_state, stoplight_init, hd, h1]
        · simp [cars_of, cycle_state, stoplight_init, h1]
        · intro j hj; omega
        · intro hz
          simp [cars_of, cycle_state, stoplight_init] at hz
          omega
        · intro _
          simp [direction_cycle_wait_wake, advance_cur, cycle_state, stoplight_init, hnz, h1]
  · simp only [cars_of, cycle_state, stoplight_init] at hcars hrange
    simp at hcars hrange
    have hd : udec c2 = c2 - 1 := udec_pos c2 hcars hrange
    have hoth : ¬ (c3 = 0 ∧ c0 = 0 ∧ c1 = 0) := by
      rintro ⟨ha, hb, hc⟩
      obtain ⟨i, hi, hne, hz⟩ := hother
      interval_cases i <;>
        first
        | exact hne rfl
        | simp [cars_of, cycle_state, stoplight_init, ha, hb, hc] at hz
    by_cases hm : c2 = 1
    · subst hm
      by_cases h1 : c3 = 0
      · by_cases h2 : c0 = 0
        · have h3 : c1 ≠ 0 := fun h3 => hoth ⟨h1, h2, h3⟩
          refine ⟨(cycle_state c0 c1 (1 - 1) c3 2), 1, 2, ?_, rfl, by decide, rfl, ?_, ?_, ?_, ?_⟩
          · simp [direction_cycle_signal, signal_next, cycle_state, stoplight_init, hd, h1, h2, h3]
          · simp [cars_of, cycle_state, stoplight_init, h1, h2, h3]
          · intro j hj
            interval_cases j <;> simp [cars_of, cycle_state, stoplight_init, h1, h2, h3]
          · intro _
            refine ⟨3, ?_⟩
            simp [direction_cycle_wait_wake, advance_cur, cycle_state, stoplight_init, h1, h2, h3]
          · intro hz
            simp [cars_of, cycle_state, stoplight_init] at hz
        · refine ⟨(cycle_state c0 c1 (1 - 1) c3 2), 0, 1, ?_, rfl, by decide, rfl, ?_, ?_, ?_, ?_⟩
          · simp [direction_cycle_signal, signal_next, cycle_state, stoplight_init, hd, h1, h2]
          · simp [cars_of, cycle_state, stoplight_init, h1, h2]
          · intro j hj
            have hj0 : j = 0 := by omega
            subst hj0
            simp [cars_of, cycle_state, stoplight_init, h1, h2]
          · intro _
            refine ⟨2, ?_⟩
            simp [direction_cycle_wait_wake, advance_cur, cycle_state, stoplight_init, h1, h2]
          · intro hz
            simp [cars_of, cycle_state, stoplight_init] at hz
      · refine ⟨(cycle_state c0 c1 (1 - 1) c3 2), 3, 0, ?_, rfl, by decide, rfl, ?_, ?_, ?_, ?_⟩
        · simp [direction_cycle_signal, signal_next, cycle_state, stoplight_init, hd, h1]
        · simp [cars_of, cycle_state, stoplight_init, h1]
        · intro j hj; omega
        · intro _
          refine ⟨1, ?_⟩
          simp [direction_cycle_wait_wake, advance_cur, cycle_state, stoplight_init, h1]
        · intro hz
          simp [cars_of, cycle_state, stoplight_init] at hz
    · have hnz : c2 - 1 ≠ 0 := by omega
      by_cases h1 : c3 = 0
      · by_cases h2 : c0 = 0
        · have h3 : c1 ≠ 0 := fun h3 => hoth ⟨h1, h2, h3⟩
          refine ⟨(cycle_state c0 c1 (c2 - 1) c3 2), 1, 2, ?_, rfl, by decide, rfl, ?_, ?_, ?_, ?_⟩
          · simp [direction_cycle_signal, signal_next, cycle_state, stoplight_init, hd, h1, h2, h3]
          · simp [cars_of, cycle_state, stoplight_init, h1, h2, h3]
          · intro j hj
            interval_cases j <;> simp [cars_of, cycle_state, stoplight_init, h1, h2, h3]
          · intro hz
            simp [cars_of, cycle_state, stoplight_init] at hz
            omega
          · intro _
            simp [direction_cycle_wait_wake, advance_cur, cycle_state, stoplight_init, hnz, h1, h2, h3]
        · refine ⟨(cycle_state c0 c1 (c2 - 1) c3 2), 0, 1, ?_, rfl, by decide, rfl, ?_, ?_, ?_, ?_⟩
          · simp [direction_cycle_signal, signal_next, cycle_state, stoplight_init, hd, h1, h2]
          · simp [cars_of, cycle_state, stoplight_init, h1, h2]
          · intro j hj
            have hj0 : j = 0 := by omega
            subst hj0
            simp [cars_of, cycle_state, stoplight_init, h1, h2]
          · intro hz
            simp [cars_of, cycle_state, stoplight_init] at hz
            omega
          · intro _
            simp [direction_cycle_wait_wake, advance_cur, cycle_state, stoplight_init, hnz, h1, h2]
      · refine ⟨(cycle_state c0 c1 (c2 - 1) c3 2), 3, 0, ?_, rfl, by decide, rfl, ?_, ?_, ?_, ?_⟩
        · simp [direction_cycle_signal, signal_next, cycle_state, stoplight_init, hd, h1]
        · simp [cars_of, cycle_state, stoplight_init, h1]
        · intro j hj; omega
        · intro hz
          simp [cars_of, cycle_state, stoplight_init] at hz
          omega
        · intro _
          simp [direction_cycle_wait_wake, advance_cur, cycle_state, stoplight_init, hnz, h1]
  · simp only [cars_of, cycle_state, stoplight_init] at hcars hrange
    simp at hcars hrange
    have hd : udec c3 = c3 - 1 := udec_pos c3 hcars hrange
    have hoth : ¬ (c0 = 0 ∧ c1 = 0 ∧ c2 = 0) := by
      rintro ⟨ha, hb, hc⟩
      obtain ⟨i, hi, hne, hz⟩ := hother
      interval_cases i <;>
        first
        | exact hne rfl
        | simp [cars_of, cycle_state, stoplight_init, ha, hb, hc] at hz
    by_cases hm : c3 = 1
    · subst hm
      by_cases h1 : c0 = 0
      · by_cases h2 : c1 = 0
        · have h3 : c2 ≠ 0 := fun h3 => hoth ⟨h1, h2, h3⟩
          refine ⟨(cycle_state c0 c1 c2 (1 - 1) 3), 2, 2, ?_, rfl, by decide, rfl, ?_, ?_, ?_, ?_⟩
          · simp [direction_cycle_signal, signal_next, cycle_state, stoplight_init, hd, h1, h2, h3]
          · simp [cars_of, cycle_state, stoplight_init, h1, h2, h3]
          · intro j hj
            interval_cases j <;> simp [cars_of, cycle_state, stoplight_init, h1, h2, h3]
          · intro _
            refine ⟨3, ?_⟩
            simp [direction_cycle_wait_wake, advance_cur, cycle_state, stoplight_init, h1, h2, h3]
          · intro hz
            simp [cars_of, cycle_state, stoplight_init] at hz
        · refine ⟨(cycle_state c0 c1 c2 (1 - 1) 3), 1, 1, ?_, rfl, by decide, rfl, ?_, ?_, ?_, ?_⟩
          · simp [direction_cycle_signal, signal_next, cycle_state, stoplight_init, hd, h1, h2]
          · simp [cars_of, cycle_state, stoplight_init, h1, h2]
          · intro j hj
            have hj0 : j = 0 := by omega
            subst hj0
            simp [cars_of, cycle_state, stoplight_init, h1, h2]
          · intro _
            refine ⟨2, ?_⟩
            simp [direction_cycle_wait_wake, advance_cur, cycle_state, stoplight_init, h1, h2]
          · intro hz
            simp [cars_of, cycle_state, stoplight_init] at hz
      · refine ⟨(cycle_state c0 c1 c2 (1 - 1) 3), 0, 0, ?_, rfl, by decide, rfl, ?_, ?_, ?_, ?_⟩
        · simp [direction_cycle_signal, signal_next, cycle_state, stoplight_init, hd, h1]
        · simp [cars_of, cycle_state, stoplight_init, h1]
        · intro j hj; omega
        · intro _
          refine ⟨1, ?_⟩
          simp [direction_cycle_wait_wake, advance_cur, cycle_state, stoplight_init, h1]
        · intro hz
          simp [cars_of, cycle_state, stoplight_init] at hz
    · have hnz : c3 - 1 ≠ 0 := by omega
      by_cases h1 : c0 = 0
      · by_cases h2 : c1 = 0
        · have h3 : c2 ≠ 0 := fun h3 => hoth ⟨h1, h2, h3⟩
          refine ⟨(cycle_state c0 c1 c2 (c3 - 1) 3), 2, 2, ?_, rfl, by decide, rfl, ?_, ?_, ?_, ?_⟩
          · simp [direction_cycle_signal, signal_next, cycle_state, stoplight_init, hd, h1, h2, h3]
          · simp [cars_of, cycle_state, stoplight_init, h1, h2, h3]
          · intro j hj
            interval_cases j <;> simp [cars_of, cycle_state, stoplight_init, h1, h2, h3]
          · intro hz
            simp [cars_of, cycle_state, stoplight_init] at hz
            omega
          · intro _
            simp [direction_cycle_wait_wake, advance_cur, cycle_state, stoplight_init, hnz, h1, h2, h3]
        · refine ⟨(cycle_state c0 c1 c2 (c3 - 1) 3), 1, 1, ?_, rfl, by decide, rfl, ?_, ?_, ?_, ?_⟩
          · simp [direction_cycle_signal, signal_next, cycle_state, stoplight_init, hd, h1, h2]
          · simp [cars_of, cycle_state, stoplight_init, h1, h2]
          · intro j hj
            have hj0 : j = 0 := by omega
            subst hj0
            simp [cars_of, cycle_state, stoplight_init, h1, h2]
          · intro hz
            simp [cars_of, cycle_state, stoplight_init] at hz
            omega
          · intro _
            simp [direction_cycle_wait_wake, advance_cur, cycle_state, stoplight_init, hnz, h1, h2]
      · refine ⟨(cycle_state c0 c1 c2 (c3 - 1) 3), 0, 0, ?_, rfl, by decide, rfl, ?_, ?_, ?_, ?_⟩
        · simp [direction_cycle_signal, signal_next, cycle_state, stoplight_init, hd, h1]
        · simp [cars_of, cycle_state, stoplight_init, h1]
        · intro j hj; omega
        · intro hz
          simp [cars_of, cycle_state, stoplight_init] at hz
          omega
        · intro _
          simp [direction_cycle_wait_wake, advance_cur, cycle_state, stoplight_init, hnz, h1]

theorem direction_cycle_signal_keeps_cur_witness :
    (0 < 4 ∧ 1 ≤ cars_of (cycle_state 1 0 2 0 0) 0 ∧
      cars_of (cycle_state 1 0 2 0 0) 0 < UINT_RANGE ∧
      (∃ i, i < 4 ∧ i ≠ 0 ∧ cars_of (cycle_state 1 0 2 0 0) i ≠ 0) ∧ 4 ≤ 4) ∧
    direction_cycle_signal 4 (cycle_state 1 0 2 0 0) 0 =
      run.done (cycle_state 0 0 2 0 0, some 2, 1) ∧
    direction_cycle_wait_wake 4 (cycle_state 0 0 2 0 0) 2 =
      run.done (cycle_state 0 0 2 0 2, 2, true) ∧
    ∃ s1 next moves,
      direction_cycle_signal 4 (cycle_state 1 0 2 0 0) 0 = run.done (s1, some next, moves) ∧
      s1.cur = some 0 ∧ next ≠ 0 ∧ next = (0 + moves + 1) % 4 ∧
      cars_of s1 next ≠ 0 ∧
      (∀ j, j < moves → cars_of s1 ((0 + j + 1) % 4) = 0) ∧
      (cars_of s1 0 = 0 →
        ∃ moves1, direction_cycle_wait_wake 4 s1 next =
          run.done ({ s1 with cur := some next }, moves1, true)) ∧
      (cars_of s1 0 ≠ 0 → direction_cycle_wait_wake 4 s1 next = run.done (s1, 0, false)) :=
  ⟨⟨by decide, by decide, by decide, ⟨2, by decide, by decide, by decide⟩, by decide⟩,
    by decide, by decide,
    direction_cycle_signal_keeps_cur 1 0 2 0 0 4 (by decide) (by decide) (by decide)
      ⟨2, by decide, by decide, by decide⟩ (by decide)⟩

/-- Claim C16 fails on the code.  With `cur` at node 0, one car in node 0 and one in node
1, `direction_cycle_signal(0)` stores node 1 in `*next` and leaves `cur` at node 0: after
the call `cur` is not the node returned as next. -/
theorem direction_cycle_signal_leaves_cur :
    (cycle_state 1 1 0 0 0).cur = some 0 ∧
    cars_of (cycle_state 1 1 0 0 0) 0 = 1 ∧ cars_of (cycle_state 1 1 0 0 0) 1 = 1 ∧
    direction_cycle_signal 4 (cycle_state 1 1 0 0 0) 0 =
      run.done (cycle_state 0 1 0 0 0, some 1, 0) ∧
    (cycle_state 0 1 0 0 0).cur = some 0 ∧
    (cycle_state 0 1 0 0 0).cur ≠ some 1 := by
  decide

theorem advance_cur_no_cars (fuel cur moves : Nat) (hcur : cur < 4) :
    advance_cur fuel (cycle_state 0 0 0 0 0).dcs (some cur) moves = run.timeout := by
  induction fuel generalizing cur moves with
  | zero => simp [advance_cur]
  | succ n ih =>
    have i0 := ih 0 (moves + 1) (by omega)
    have i1 := ih 1 (moves + 1) (by omega)
    have i2 := ih 2 (moves + 1) (by omega)
    have i3 := ih 3 (moves + 1) (by omega)
    simp only [cycle_state, stoplight_init, direction_cycle_create] at i0 i1 i2 i3
    interval_cases cur <;>
      simp [advance_cur, cycle_state, stoplight_init, direction_cycle_create, i0, i1, i2, i3]

/-- The entry part of `direction_cycle_wait` on given counters.  On the cycle built by
`stoplight_init`, with `cur` at one of the four nodes and the counter of node `me` below
`2 ^ 32 - 1`, the entry part of `direction_cycle_wait(me)` comes to its end whenever the
loop is given four rounds: it adds one to the counter of `me` and changes no other
counter and no link; its loop moves `cur` at most three times, over nodes without cars
only, and leaves it on the first node at or after the old `cur` that has cars; the caller
goes on without sleeping exactly when that node is `me`. -/
theorem wait_enter_on_counters (c0 c1 c2 c3 cur me fuel : Nat)
    (hcur : cur < 4) (hme : me < 4)
    (hrange : cars_of (cycle_state c0 c1 c2 c3 cur) me < UINT_RANGE - 1) (hfuel : 4 ≤ fuel) :
    ∃ s1 moves go,
      direction_cycle_wait_enter fuel (cycle_state c0 c1 c2 c3 cur) me =
        run.done (s1, moves, go) ∧
      s1 = cycle_state (if me = 0 then c0 + 1 else c0) (if me = 1 then c1 + 1 else c1)
            (if me = 2 then c2 + 1 else c2) (if me = 3 then c3 + 1 else c3)
            ((cur + moves) % 4) ∧
      moves ≤ 3 ∧
      (∀ j, j < moves → cars_of s1 ((cur + j) % 4) = 0) ∧
      cars_of s1 ((cur + moves) % 4) ≠ 0 ∧
      (go = true ↔ (cur + moves) % 4 = me) := by
  obtain ⟨f, rfl⟩ := Nat.exists_eq_add_of_le hfuel
  rw [Nat.add_comm 4 f]
  interval_cases me
  · simp only [cars_of, cycle_state, stoplight_init] at hrange
    simp at hrange
    have hu : uinc c0 = c0 + 1 := by
      unfold uinc
      exact Nat.mod_eq_of_lt (by omega)
    interval_cases cur
    · refine ⟨_, 0, true, ?_, rfl, by omega, ?_, ?_, by decide⟩
      · simp [direction_cycle_wait_enter, advance_cur, cycle_state, stoplight_init, hu]
      · intro j hj; omega
      · simp [cars_of, cycle_state, stoplight_init]
    · by_cases h0 : c1 = 0
      · by_cases h1 : c2 = 0
        · by_cases h2 : c3 = 0
          · refine ⟨_, 3, true, ?_, rfl, by omega, ?_, ?_, by decide⟩
            · simp [direction_cycle_wait_enter, advance_cur, cycle_state, stoplight_init, hu, h0, h1, h2]
            · intro j hj
              interval_cases j <;> simp [cars_of, cycle_state, stoplight_init, h0, h1, h2]
            · simp [cars_of, cycle_state, stoplight_init, h0, h1, h2]
          · refine ⟨_, 2, false, ?_, rfl, by omega, ?_, ?_, by decide⟩
            · simp [direction_cycle_wait_enter, advance_cur, cycle_state, stoplight_init, hu, h0, h1, h2]
            · intro j hj
              interval_cases j <;> simp [cars_of, cycle_state, stoplight_init, h0, h1, h2]
            · simp [cars_of, cycle_state, stoplight_init, h0, h1, h2]
        · refine ⟨_, 1, false, ?_, rfl, by omega, ?_, ?_, by decide⟩
          · simp [direction_cycle_wait_enter, advance_cur, cycle_state, stoplight_init, hu, h0, h1]
          · intro j hj
            have hj0 : j = 0 := by omega
            subst hj0
            simp [cars_of, cycle_state, stoplight_init, h0, h1]
          · simp [cars_of, cycle_state, stoplight_init, h0, h1]
      · refine ⟨_, 0, false, ?_, rfl, by omega, ?_, ?_, by decide⟩
        · simp [direction_cycle_wait_enter, advance_cur, cycle_state, stoplight_init, hu, h0]
        · intro j hj; omega
        · simp [cars_of, cycle_state, stoplight_init, h0]
    · by_cases h0 : c2 = 0
      · by_cases h1 : c3 = 0
        · refine ⟨_, 2, true, ?_, rfl, by omega, ?_, ?_, by decide⟩
          · simp [direction_cycle_wait_enter, advance_cur, cycle_state, stoplight_init, hu, h0, h1]
          · intro j hj
            interval_cases j <;> simp [cars_of, cycle_state, stoplight_init, h0, h1]
          · simp [cars_of, cycle_state, stoplight_init, h0, h1]
        · refine ⟨_, 1, false, ?_, rfl, by omega, ?_, ?_, by decide⟩
          · simp [direction_cycle_wait_enter, advance_cur, cycle_state, stoplight_init, hu, h0, h1]
          · intro j hj
            have hj0 : j = 0 := by omega
            subst hj0
            simp [cars_of, cycle_state, stoplight_init, h0, h1]
          · simp [cars_of, cycle_state, stoplight_init, h0, h1]
      · refine ⟨_, 0, false, ?_, rfl, by omega, ?_, ?_, by decide⟩
        · simp [direction_cycle_wait_enter, advance_cur, cycle_state, stoplight_init, hu, h0]
        · intro j hj; omega
        · simp [cars_of, cycle_state, stoplight_init, h0]
    · by_cases h0 : c3 = 0
      · refine ⟨_, 1, true, ?_, rfl, by omega, ?_, ?_, by decide⟩
        · simp [direction_cycle_wait_enter, advance_cur, cycle_state, stoplight_init, hu, h0]
        · intro j hj
          have hj0 : j = 0 := by omega
          subst hj0
          simp [cars_of, cycle_state, stoplight_init, h0]
        · simp [cars_of, cycle_state, stoplight_init, h0]
      · refine ⟨_, 0, false, ?_, rfl, by omega, ?_, ?_, by decide⟩
        · simp [direction_cycle_wait_enter, advance_cur, cycle_state, stoplight_init, hu, h0]
        · intro j hj; omega
        · simp [cars_of, cycle_state, stoplight_init, h0]
  · simp only [cars_of, cycle_state, stoplight_init] at hrange
    simp at hrange
    have hu : uinc c1 = c1 + 1 := by
      unfold uinc
      exact Nat.mod_eq_of_lt (by omega)
    interval_cases cur
    · by_cases h0 : c0 = 0
      · refine ⟨_, 1, true, ?_, rfl, by omega, ?_, ?_, by decide⟩
        · simp [direction_cycle_wait_enter, advance_cur, cycle_state, stoplight_init, hu, h0]
        · intro j hj
          have hj0 : j = 0 := by omega
          subst hj0
          simp [cars_of, cycle_state, stoplight_init, h0]
        · simp [cars_of, cycle_state, stoplight_init, h0]
      · refine ⟨_, 0, false, ?_, rfl, by omega, ?_, ?_, by decide⟩
        · simp [direction_cycle_wait_enter, advance_cur, cycle_state, stoplight_init, hu, h0]
        · intro j hj; omega
        · simp [cars_of, cycle_state, stoplight_init, h0]
    · refine ⟨_, 0, true, ?_, rfl, by omega, ?_, ?_, by decide⟩
      · simp [direction_cycle_wait_enter, advance_cur, cycle_state, stoplight_init, hu]
      · intro j hj; omega
      · simp [cars_of, cycle_state, stoplight_init]
    · by_cases h0 : c2 = 0
      · by_cases h1 : c3 = 0
        · by_cases h2 : c0 = 0
          · refine ⟨_, 3, true, ?_, rfl, by omega, ?_, ?_, by decide⟩
            · simp [direction_cycle_wait_enter, advance_cur, cycle_state, stoplight_init, hu, h0, h1, h2]
            · intro j hj
              interval_cases j <;> simp [cars_of, cycle_state, stoplight_init, h0, h1, h2]
            · simp [cars_of, cycle_state, stoplight_init, h0, h1, h2]
          · refine ⟨_, 2, false, ?_, rfl, by omega, ?_, ?_, by decide⟩
            · simp [direction_cycle_wait_enter, advance_cur, cycle_state, stoplight_init, hu, h0, h1, h2]
            · intro j hj
              interval_cases j <;> simp [cars_of, cycle_state, stoplight_init, h0, h1, h2]
            · simp [cars_of, cycle_state, stoplight_init, h0, h1, h2]
        · refine ⟨_, 1, false, ?_, rfl, by omega, ?_, ?_, by decide⟩
          · simp [direction_cycle_wait_enter, advance_cur, cycle_state, stoplight_init, hu, h0, h1]
          · intro j hj
            have hj0 : j = 0 := by omega
            subst hj0
            simp [cars_of, cycle_state, stoplight_init, h0, h1]
          · simp [cars_of, cycle_state, stoplight_init, h0, h1]
      · refine ⟨_, 0, false, ?_, rfl, by omega, ?_, ?_, by decide⟩
        · simp [direction_cycle_wait_enter, advance_cur, cycle_state, stoplight_init, hu, h0]
        · intro j hj; omega
        · simp [cars_of, cycle_state, stoplight_init, h0]
    · by_cases h0 : c3 = 0
      · by_cases h1 : c0 = 0
        · refine ⟨_, 2, true, ?_, rfl, by omega, ?_, ?_, by decide⟩
          · simp [direction_cycle_wait_enter, advance_cur, cycle_state, stoplight_init, hu, h0, h1]
          · intro j hj
            interval_cases j <;> simp [cars_of, cycle_state, stoplight_init, h0, h1]
          · simp [cars_of, cycle_state, stoplight_init, h0, h1]
        · refine ⟨_, 1, false, ?_, rfl, by omega, ?_, ?_, by decide⟩
          · simp [direction_cycle_wait_enter, advance_cur, cycle_state, stoplight_init, hu, h0, h1]
          · intro j hj
            have hj0 : j = 0 := by omega
            subst hj0
            simp [cars_of, cycle_state, stoplight_init, h0, h1]
          · simp [cars_of, cycle_state, stoplight_init, h0, h1]
      · refine ⟨_, 0, false, ?_, rfl, by omega, ?_, ?_, by decide⟩
        · simp [direction_cycle_wait_enter, advance_cur, cycle_state, stoplight_init, hu, h0]
        · intro j hj; omega
        · simp [cars_of, cycle_state, stoplight_init, h0]
  · simp only [cars_of, cycle_state, stoplight_init] at hrange
    simp at hrange
    have hu : uinc c2 = c2 + 1 := by
      unfold uinc
      exact Nat.mod_eq_of_lt (by omega)
    interval_cases cur
    · by_cases h0 : c0 = 0
      · by_cases h1 : c1 = 0
        · refine ⟨_, 2, true, ?_, rfl, by omega, ?_, ?_, by decide⟩
          · simp [direction_cycle_wait_enter, advance_cur, cycle_state, stoplight_init, hu, h0, h1]
          · intro j hj
            interval_cases j <;> simp [cars_of, cycle_state, stoplight_init, h0, h1]
          · simp [cars_of, cycle_state, stoplight_init, h0, h1]
        · refine ⟨_, 1, false, ?_, rfl, by omega, ?_, ?_, by decide⟩
          · simp [direction_cycle_wait_enter, advance_cur, cycle_state, stoplight_init, hu, h0, h1]
          · intro j hj
            have hj0 : j = 0 := by omega
            subst hj0
            simp [cars_of, cycle_state, stoplight_init, h0, h1]
          · simp [cars_of, cycle_state, stoplight_init, h0, h1]
      · refine ⟨_, 0, false, ?_, rfl, by omega, ?_, ?_, by decide⟩
        · simp [direction_cycle_wait_enter, advance_cur, cycle_state, stoplight_init, hu, h0]
        · intro j hj; omega
        · simp [cars_of, cycle_state, stoplight_init, h0]
    · by_cases h0 : c1 = 0
      · refine ⟨_, 1, true, ?_, rfl, by omega, ?_, ?_, by decide⟩
        · simp [direction_cycle_wait_enter, advance_cur, cycle_state, stoplight_init, hu, h0]
        · intro j hj
          have hj0 : j = 0 := by omega
          subst hj0
          simp [cars_of, cycle_state, stoplight_init, h0]
        · simp [cars_of, cycle_state, stoplight_init, h0]
      · refine ⟨_, 0, false, ?_, rfl, by omega, ?_, ?_, by decide⟩
        · simp [direction_cycle_wait_enter, advance_cur, cycle_state, stoplight_init, hu, h0]
        · intro j hj; omega
        · simp [cars_of, cycle_state, stoplight_init, h0]
    · refine ⟨_, 0, true, ?_, rfl, by omega, ?_, ?_, by decide⟩
      · simp [direction_cycle_wait_enter, advance_cur, cycle_state, stoplight_init, hu]
      · intro j hj; omega
      · simp [cars_of, cycle_state, stoplight_init]
    · by_cases h0 : c3 = 0
      · by_cases h1 : c0 = 0
        · by_cases h2 : c1 = 0
          · refine ⟨_, 3, true, ?_, rfl, by omega, ?_, ?_, by decide⟩
            · simp [direction_cycle_wait_enter, advance_cur, cycle_state, stoplight_init, hu, h0, h1, h2]
            · intro j hj
              interval_cases j <;> simp [cars_of, cycle_state, stoplight_init, h0, h1, h2]
            · simp [cars_of, cycle_state, stoplight_init, h0, h1, h2]
          · refine ⟨_, 2, false, ?_, rfl, by omega, ?_, ?_, by decide⟩
            · simp [direction_cycle_wait_enter, advance_cur, cycle_state, stoplight_init, hu, h0, h1, h2]
            · intro j hj
              interval_cases j <;> simp [cars_of, cycle_state, stoplight_init, h0, h1, h2]
            · simp [cars_of, cycle_state, stoplight_init, h0, h1, h2]
        · refine ⟨_, 1, false, ?_, rfl, by omega, ?_, ?_, by decide⟩
          · simp [direction_cycle_wait_enter, advance_cur, cycle_state, stoplight_init, hu, h0, h1]
          · intro j hj
            have hj0 : j = 0 := by omega
            subst hj0
            simp [cars_of, cycle_state, stoplight_init, h0, h1]
          · simp [cars_of, cycle_state, stoplight_init, h0, h1]
      · refine ⟨_, 0, false, ?_, rfl, by omega, ?_, ?_, by decide⟩
        · simp [direction_cycle_wait_enter, advance_cur, cycle_state, stoplight_init, hu, h0]
        · intro j hj; omega
        · simp [cars_of, cycle_state, stoplight_init, h0]
  · simp only [cars_of, cycle_state, stoplight_init] at hrange
    simp at hrange
    have hu : uinc c3 = c3 + 1 := by
      unfold uinc
      exact Nat.mod_eq_of_lt (by omega)
    interval_cases cur
    · by_cases h0 : c0 = 0
      · by_cases h1 : c1 = 0
        · by_cases h2 : c2 = 0
          · refine ⟨_, 3, true, ?_, rfl, by omega, ?_, ?_, by decide⟩
            · simp [direction_cycle_wait_enter, advance_cur, cycle_state, stoplight_init, hu, h0, h1, h2]
            · intro j hj
              interval_cases j <;> simp [cars_of, cycle_state, stoplight_init, h0, h1, h2]
            · simp [cars_of, cycle_state, stoplight_init, h0, h1, h2]
          · refine ⟨_, 2, false, ?_, rfl, by omega, ?_, ?_, by decide⟩
            · simp [direction_cycle_wait_enter, advance_cur, cycle_state, stoplight_init, hu, h0, h1, h2]
            · intro j hj
              interval_cases j <;> simp [cars_of, cycle_state, stoplight_init, h0, h1, h2]
            · simp [cars_of, cycle_state, stoplight_init, h0, h1, h2]
        · refine ⟨_, 1, false, ?_, rfl, by omega, ?_, ?_, by decide⟩
          · simp [direction_cycle_wait_enter, advance_cur, cycle_state, stoplight_init, hu, h0, h1]
          · intro j hj
            have hj0 : j = 0 := by omega
            subst hj0
            simp [cars_of, cycle_state, stoplight_init, h0, h1]
          · simp [cars_of, cycle_state, stoplight_init, h0, h1]
      · refine ⟨_, 0, false, ?_, rfl, by omega, ?_, ?_, by decide⟩
        · simp [direction_cycle_wait_enter, advance_cur, cycle_state, stoplight_init, hu, h0]
        · intro j hj; omega
        · simp [cars_of, cycle_state, stoplight_init, h0]
    · by_cases h0 : c1 = 0
      · by_cases h1 : c2 = 0
        · refine ⟨_, 2, true, ?_, rfl, by omega, ?_, ?_, by decide⟩
          · simp [direction_cycle_wait_enter, advance_cur, cycle_state, stoplight_init, hu, h0, h1]
          · intro j hj
            interval_cases j <;> simp [cars_of, cycle_state, stoplight_init, h0, h1]
          · simp [cars_of, cycle_state, stoplight_init, h0, h1]
        · refine ⟨_, 1, false, ?_, rfl, by omega, ?_, ?_, by decide⟩
          · simp [direction_cycle_wait_enter, advance_cur, cycle_state, stoplight_init, hu, h0, h1]
          · intro j hj
            have hj0 : j = 0 := by omega
            subst hj0
            simp [cars_of, cycle_state, stoplight_init, h0, h1]
          · simp [cars_of, cycle_state, stoplight_init, h0, h1]
      · refine ⟨_, 0, false, ?_, rfl, by omega, ?_, ?_, by decide⟩
        · simp [direction_cycle_wait_enter, advance_cur, cycle_state, stoplight_init, hu, h0]
        · intro j hj; omega
        · simp [cars_of, cycle_state, stoplight_init, h0]
    · by_cases h0 : c2 = 0
      · refine ⟨_, 1, true, ?_, rfl, by omega, ?_, ?_, by decide⟩
        · simp [direction_cycle_wait_enter, advance_cur, cycle_state, stoplight_init, hu, h0]
        · intro j hj
          have hj0 : j = 0 := by omega
          subst hj0
          simp [cars_of, cycle_state, stoplight_init, h0]
        · simp [cars_of, cycle_state, stoplight_init, h0]
      · refine ⟨_, 0, false, ?_, rfl, by omega, ?_, ?_, by decide⟩
        · simp [direction_cycle_wait_enter, advance_cur, cycle_state, stoplight_init, hu, h0]
        · intro j hj; omega
        · simp [cars_of, cycle_state, stoplight_init, h0]
    · refine ⟨_, 0, true, ?_, rfl, by omega, ?_, ?_, by decide⟩
      · simp [direction_cycle_wait_enter, advance_cur, cycle_state, stoplight_init, hu]
      · intro j hj; omega
      · simp [cars_of, cycle_state, stoplight_init]

theorem wait_enter_on_counters_instance :
    (3 < 4 ∧ 1 < 4 ∧ cars_of (cycle_state 0 0 0 0 3) 1 < UINT_RANGE - 1 ∧ 4 ≤ 4) ∧
    direction_cycle_wait_enter 4 (cycle_state 0 0 0 0 3) 1 =
      run.done (cycle_state 0 1 0 0 1, 2, true) ∧
    ∃ s1 moves go,
      direction_cycle_wait_enter 4 (cycle_state 0 0 0 0 3) 1 = run.done (s1, moves, go) ∧
      s1 = cycle_state (if 1 = 0 then 0 + 1 else 0) (if 1 = 1 then 0 + 1 else 0)
            (if 1 = 2 then 0 + 1 else 0) (if 1 = 3 then 0 + 1 else 0)
            ((3 + moves) % 4) ∧
      moves ≤ 3 ∧
      (∀ j, j < moves → cars_of s1 ((3 + j) % 4) = 0) ∧
      cars_of s1 ((3 + moves) % 4) ≠ 0 ∧
      (go = true ↔ (3 + moves) % 4 = 1) :=
  ⟨by decide, by decide,
    wait_enter_on_counters 0 0 0 0 3 1 4 (by decide) (by decide) (by decide)
      (by decide)⟩

/-- Why the counter has to stay below `2 ^ 32 - 1`.  The counter is an `unsigned`: were
`2 ^ 32 - 1` stored in node 0 and 0 in the three others, the increment of
`direction_cycle_wait(0)` would wrap the counter to 0, every node would then be without
cars, and the loop that moves `cur` would not end, however many rounds it is given.  The
counter counts the cars between their `direction_cycle_wait` and their
`direction_cycle_signal`, and cars are threads, so no run of cars stores that value. -/
theorem wait_enter_wraps_at_max :
    cars_of (cycle_state 4294967295 0 0 0 0) 0 < UINT_RANGE ∧
    uinc (cars_of (cycle_state 4294967295 0 0 0 0) 0) = 0 ∧
    ∀ fuel, direction_cycle_wait_enter fuel (cycle_state 4294967295 0 0 0 0) 0 =
      run.timeout := by
  refine ⟨by decide, by decide, ?_⟩
  intro fuel
  have e : uinc 4294967295 = 0 := by decide
  have h := advance_cur_no_cars fuel 0 0 (by decide)
  simp only [cycle_state, stoplight_init, direction_cycle_create] at h
  simp [direction_cycle_wait_enter, cycle_state, stoplight_init, direction_cycle_create, e, h]

/-! ## The intersection: at most three cars -/

theorem direction_cycle_wait_enter_limit (fuel : Nat) (s s1 : stoplight) (my_dc moves : Nat)
    (go : Bool) (h : direction_cycle_wait_enter fuel s my_dc = run.done (s1, moves, go)) :
    s1.limit = s.limit := by
  unfold direction_cycle_wait_enter at h
  split at h
  · simp at h
  · dsimp only at h
    split at h
    · simp at h
      rw [← h.1]
    · simp at h
    · simp at h

theorem direction_cycle_wait_wake_limit (fuel : Nat) (s s1 : stoplight) (my_dc moves : Nat)
    (go : Bool) (h : direction_cycle_wait_wake fuel s my_dc = run.done (s1, moves, go)) :
    s1.limit = s.limit := by
  unfold direction_cycle_wait_wake at h
  split at h
  · simp at h
    rw [← h.1]
  · simp at h
  · simp at h

theorem direction_cycle_signal_limit (fuel : Nat) (s s1 : stoplight) (my_dc moves : Nat)
    (next : Option Nat) (h : direction_cycle_signal fuel s my_dc = run.done (s1, next, moves)) :
    s1.limit = s.limit := by
  unfold direction_cycle_signal at h
  split at h
  · simp at h
  · dsimp only at h
    split at h
    · split at h
      · simp at h
      · simp at h
        rw [← h.1]
    · simp at h
    · simp at h

/-- What a step of a car does to the semaphore `limit` and to the position of the car. -/
theorem call_step_limit (s s1 : stoplight) (k k1 : car) (c : call)
    (h : call_step s k c = some (s1, k1)) :
    k1.prog = k.prog ∧ (k1.pc = k.pc ∨ k1.pc = k.pc + 1) ∧
    (c = call.P_limit → k1.pc = k.pc + 1 ∧ s.limit.sem_count ≠ 0 ∧
      s1.limit.sem_count = udec s.limit.sem_count) ∧
    (c = call.V_limit → k1.pc = k.pc + 1 ∧ s1.limit.sem_count = uinc s.limit.sem_count) ∧
    (c ≠ call.P_limit → c ≠ call.V_limit → s1.limit = s.limit) := by
  cases c with
  | direction_cycle_wait num =>
    simp only [call_step] at h
    split at h
    · simp at h
    · split at h
      · rename_i s2 mv go hrun
        have hl : s2.limit = s.limit := by
          by_cases ha : k.asleep = true
          · rw [if_pos ha] at hrun
            exact direction_cycle_wait_wake_limit _ _ _ _ _ _ hrun
          · rw [if_neg ha] at hrun
            exact direction_cycle_wait_enter_limit _ _ _ _ _ _ hrun
        split at h
        · simp at h
          obtain ⟨h1, h2⟩ := h
          subst h1 h2
          simp [car.advance, hl]
        · simp at h
          obtain ⟨h1, h2⟩ := h
          subst h1 h2
          simp [hl]
      · simp at h
      · simp at h
  | direction_cycle_signal num =>
    simp only [call_step] at h
    split at h
    · simp at h
    · split at h
      · rename_i s2 nx mv hrun
        have hl := direction_cycle_signal_limit _ _ _ _ _ _ hrun
        simp at h
        obtain ⟨h1, h2⟩ := h
        subst h1 h2
        simp [car.advance, hl]
      · simp at h
      · simp at h
  | P_limit =>
    simp only [call_step, P, P_loop] at h
    by_cases h0 : s.limit.sem_count = 0
    · simp [h0] at h
    · simp [h0] at h
      obtain ⟨h1, h2⟩ := h
      subst h1 h2
      simp [car.advance, h0]
  | V_limit =>
    simp only [call_step, V] at h
    split at h
    · rename_i sem1 hv
      simp at h
      obtain ⟨h1, h2⟩ := h
      subst h1 h2
      split at hv
      · simp at hv
        subst hv
        simp [car.advance]
      · simp at hv
    · simp at h
    · simp at h
  | P_quadrant num =>
    simp only [call_step] at h
    split at h
    · simp at h
    · split at h
      · simp at h
      · split at h
        · simp at h
          obtain ⟨h1, h2⟩ := h
          subst h1 h2
          simp [car.advance]
        · simp at h
        · simp at h
  | V_quadrant num =>
    simp only [call_step] at h
    split at h
    · simp at h
    · split at h
      · simp at h
      · split at h
        · simp at h
          obtain ⟨h1, h2⟩ := h
          subst h1 h2
          simp [car.advance]
        · simp at h
        · simp at h
  | inQuadrant num index =>
    simp [call_step] at h
    obtain ⟨h1, h2⟩ := h
    subst h1 h2
    simp [car.advance]
  | leaveIntersection index =>
    simp [call_step] at h
    obtain ⟨h1, h2⟩ := h
    subst h1 h2
    simp [car.advance]

theorem holds_limit_iff (k : car) (hwf : runs_route k) :
    holds_limit k = true ↔ 2 ≤ k.pc ∧ k.pc < k.prog.length := by
  obtain ⟨prog, pc, asleep⟩ := k
  obtain ⟨d, i, h | h | h⟩ := hwf
  all_goals
    simp only at h
    subst h
    simp only [holds_limit, car.done]
  · by_cases hp : pc < 8
    · interval_cases pc <;> simp [turnright]
    · have e : (turnright d i).take pc = turnright d i :=
        List.take_of_length_le (by simp [turnright]; omega)
      rw [e]
      simp [turnright]
      omega
  · by_cases hp : pc < 11
    · interval_cases pc <;> simp [gostraight]
    · have e : (gostraight d i).take pc = gostraight d i :=
        List.take_of_length_le (by simp [gostraight]; omega)
      rw [e]
      simp [gostraight]
      omega
  · by_cases hp : pc < 14
    · interval_cases pc <;> simp [turnleft]
    · have e : (turnleft d i).take pc = turnleft d i :=
        List.take_of_length_le (by simp [turnleft]; omega)
      rw [e]
      simp [turnleft]
      omega

theorem in_intersection_holds_limit (k : car) (hwf : runs_route k)
    (h : in_intersection k = true) : holds_limit k = true := by
  obtain ⟨prog, pc, asleep⟩ := k
  obtain ⟨d, i, hp | hp | hp⟩ := hwf
  all_goals
    simp only at hp
    subst hp
    simp only [holds_limit, in_intersection, car.done] at h ⊢
  · by_cases hp : pc < 8
    · interval_cases pc <;> simp [turnright] at h ⊢
    · have e : (turnright d i).take pc = turnright d i :=
        List.take_of_length_le (by simp [turnright]; omega)
      rw [e] at h
      simp [turnright] at h
  · by_cases hp : pc < 11
    · interval_cases pc <;> simp [gostraight] at h ⊢
    · have e : (gostraight d i).take pc = gostraight d i :=
        List.take_of_length_le (by simp [gostraight]; omega)
      rw [e] at h
      simp [gostraight] at h
  · by_cases hp : pc < 14
    · interval_cases pc <;> simp [turnleft] at h ⊢
    · have e : (turnleft d i).take pc = turnleft d i :=
        List.take_of_length_le (by simp [turnleft]; omega)
      rw [e] at h
      simp [turnleft] at h

theorem get_limit_calls (k : car) (hwf : runs_route k) :
    (k.prog.get? k.pc = some call.P_limit ↔ k.pc = 1) ∧
    (k.prog.get? k.pc = some call.V_limit ↔ k.pc + 1 = k.prog.length) := by
  obtain ⟨prog, pc, asleep⟩ := k
  obtain ⟨d, i, h | h | h⟩ := hwf
  all_goals
    simp only at h
    subst h
    simp only
  · by_cases hp : pc < 8
    · interval_cases pc <;> simp [turnright]
    · rw [List.get?_eq_none.mpr (by simp [turnright]; omega)]
      simp [turnright]
      omega
  · by_cases hp : pc < 11
    · interval_cases pc <;> simp [gostraight]
    · rw [List.get?_eq_none.mpr (by simp [gostraight]; omega)]
      simp [gostraight]
      omega
  · by_cases hp : pc < 14
    · interval_cases pc <;> simp [turnleft]
    · rw [List.get?_eq_none.mpr (by simp [turnleft]; omega)]
      simp [turnleft]
      omega
theorem route_length (k : car) (hwf : runs_route k) : 8 ≤ k.prog.length := by
  obtain ⟨d, i, h | h | h⟩ := hwf <;> rw [h] <;> simp [turnright, gostraight, turnleft]

theorem car_step_occupancy (s s1 : stoplight) (k k1 : car) (hwf : runs_route k)
    (hle : s.limit.sem_count ≤ 3) (h : car_step s k = some (s1, k1)) :
    runs_route k1 ∧
    s1.limit.sem_count + (if holds_limit k1 = true then 1 else 0) =
      s.limit.sem_count + (if holds_limit k = true then 1 else 0) := by
  unfold car_step at h
  split at h
  · simp at h
  · rename_i c hc
    obtain ⟨hprog, hpc, hP, hV, hother⟩ := call_step_limit s s1 k k1 c h
    have hwf1 : runs_route k1 := by
      obtain ⟨d, i, hr⟩ := hwf
      exact ⟨d, i, by rw [hprog]; exact hr⟩
    refine ⟨hwf1, ?_⟩
    have hlen := route_length k hwf
    have hlt : k.pc < k.prog.length := by
      rcases Nat.lt_or_ge k.pc k.prog.length with h1 | h1
      · exact h1
      · rw [List.get?_eq_none.mpr h1] at hc
        simp at hc
    have hk := holds_limit_iff k hwf
    have hk1 := holds_limit_iff k1 hwf1
    rw [hprog] at hk1
    obtain ⟨gP, gV⟩ := get_limit_calls k hwf
    rw [hc] at gP gV
    simp only [Option.some.injEq] at gP gV
    by_cases cP : c = call.P_limit
    · obtain ⟨e1, e2, e3⟩ := hP cP
      have hpc1 := gP.mp cP
      have hd : udec s.limit.sem_count = s.limit.sem_count - 1 :=
        udec_pos _ (by omega) (by unfold UINT_RANGE; omega)
      have a1 : holds_limit k1 = true := hk1.mpr (by omega)
      have a2 : ¬ holds_limit k = true := fun hh => by have := hk.mp hh; omega
      rw [if_pos a1, if_neg a2, e3, hd]
      omega
    · by_cases cV : c = call.V_limit
      · obtain ⟨e1, e3⟩ := hV cV
        have hpc1 := gV.mp cV
        have hu : uinc s.limit.sem_count = s.limit.sem_count + 1 :=
          uinc_of_lt _ (by unfold UINT_RANGE; omega)
        have a1 : ¬ holds_limit k1 = true := fun hh => by have := hk1.mp hh; omega
        have a2 : holds_limit k = true := hk.mpr (by omega)
        rw [if_neg a1, if_pos a2, e3, hu]
      · have hl := hother cP cV
        have n1 : k.pc ≠ 1 := fun hh => cP (gP.mpr hh)
        have n2 : k.pc + 1 ≠ k.prog.length := fun hh => cV (gV.mpr hh)
        rw [hl]
        by_cases a : holds_limit k = true
        · have a1 : holds_limit k1 = true := hk1.mpr (by have := hk.mp a; omega)
          rw [if_pos a, if_pos a1]
        · have a1 : ¬ holds_limit k1 = true := fun hh => a (hk.mpr (by have := hk1.mp hh; omega))
          rw [if_neg a, if_neg a1]

theorem traffic_limit (s : stoplight) (cars : List car) (h : traffic s cars) :
    (∀ k ∈ cars, runs_route k) ∧ s.limit.sem_count + cars.countP holds_limit = 3 := by
  induction h with
  | init => simp [stoplight_init, sem_create, LIMIT]
  | arrive s cars k _ hk ih =>
    obtain ⟨hpc, _, hr⟩ := hk
    have hwf : runs_route k := hr
    have hh : ¬ holds_limit k = true := fun hh => by
      have := (holds_limit_iff k hwf).mp hh
      omega
    constructor
    · intro x hx
      rcases List.mem_append.mp hx with h1 | h1
      · exact ih.1 x h1
      · simp at h1
        rw [h1]
        exact hwf
    · rw [List.countP_append, List.countP_cons, if_neg hh]
      simpa using ih.2
  | step s s1 before after k k1 _ hstep ih =>
    have hwf : runs_route k := ih.1 k (by simp)
    have hsum := ih.2
    rw [List.countP_append, List.countP_cons] at hsum
    obtain ⟨hwf1, heq⟩ := car_step_occupancy s s1 k k1 hwf (by omega) hstep
    constructor
    · intro x hx
      rcases List.mem_append.mp hx with h1 | h1
      · exact ih.1 x (List.mem_append.mpr (Or.inl h1))
      · rcases List.mem_cons.mp h1 with h2 | h2
        · rw [h2]
          exact hwf1
        · exact ih.1 x (List.mem_append.mpr (Or.inr (List.mem_cons_of_mem _ h2)))
    · rw [List.countP_append, List.countP_cons]
      omega

theorem traffic_car_inside : traffic st_car_inside [⟨turnright 0 0, 4, false⟩] := by
  have h0 : traffic stoplight_init [⟨turnright 0 0, 0, false⟩] :=
    traffic.arrive _ [] _ traffic.init ⟨rfl, rfl, 0, 0, Or.inl rfl⟩
  have h1 := traffic.step _ (cycle_state 1 0 0 0 0) [] [] _ ⟨turnright 0 0, 1, false⟩ h0
    (by decide)
  have h2 := traffic.step _ { cycle_state 1 0 0 0 0 with limit := sem_create 2 } [] [] _
    ⟨turnright 0 0, 2, false⟩ h1 (by decide)
  have h3 := traffic.step _ st_car_inside [] [] _ ⟨turnright 0 0, 3, false⟩ h2 (by decide)
  exact traffic.step _ st_car_inside [] [] _ ⟨turnright 0 0, 4, false⟩ h3 (by decide)

/-- Claim C15 (stoplight occupancy).  In every state that cars running `turnright`,
`gostraight` or `turnleft` reach from `stoplight_init`, whatever their number and the
order of their steps, at most three cars have called `inQuadrant` and not yet
`leaveIntersection`, and the counter of the semaphore `limit` plus the number of cars
between their `P(limit)` and their `V(limit)` is 3. -/
theorem stoplight_occupancy (s : stoplight) (cars : List car) (h : traffic s cars) :
    cars.countP in_intersection ≤ 3 ∧
    s.limit.sem_count + cars.countP holds_limit = 3 := by
  obtain ⟨hwf, hsum⟩ := traffic_limit s cars h
  refine ⟨?_, hsum⟩
  have hmono : cars.countP in_intersection ≤ cars.countP holds_limit :=
    List.countP_mono_left (fun k hk hin => in_intersection_holds_limit k (hwf k hk) hin)
  omega

theorem stoplight_occupancy_witness :
    traffic st_car_inside [⟨turnright 0 0, 4, false⟩] ∧
    [(⟨turnright 0 0, 4, false⟩ : car)].countP in_intersection = 1 ∧
    ([(⟨turnright 0 0, 4, false⟩ : car)].countP in_intersection ≤ 3 ∧
      st_car_inside.limit.sem_count +
        [(⟨turnright 0 0, 4, false⟩ : car)].countP holds_limit = 3) :=
  ⟨traffic_car_inside, by decide, stoplight_occupancy _ _ traffic_car_inside⟩

/-! ## The mutex and the condition variable: claims C21, C22 and C23 -/

theorem lock_do_i_hold_iff (l : lock) (t : thread) :
    lock_do_i_hold l t = true ↔ l.lk_holder = some t := by
  unfold lock_do_i_hold
  simp

theorem lock_acquire_loop_free (t : thread) (wakes : List (Option thread)) :
    lock_acquire_loop t none wakes = lock_outcome.returned { lk_holder := some t } := by
  cases wakes <;> simp [lock_acquire_loop]

theorem lock_acquire_loop_held (t : thread) (holder : Option thread)
    (wakes : List (Option thread)) (hh : holder.isSome = true)
    (hw : ∀ w ∈ wakes, w.isSome = true) :
    lock_acquire_loop t holder wakes =
      lock_outcome.sleeping { lk_holder := (holder :: wakes).getLast (by simp) } := by
  induction wakes generalizing holder with
  | nil => simp [lock_acquire_loop, hh]
  | cons w rest ih =>
    simp only [lock_acquire_loop, hh, ↓reduceIte]
    rw [ih w (hw w (List.mem_cons_self _ _)) (fun x hx => hw x (List.mem_cons_of_mem _ hx))]
    simp [List.getLast_cons]

theorem lock_acquire_loop_first_free (t : thread) (holder : Option thread)
    (held : List (Option thread)) (rest : List (Option thread)) (hh : holder.isSome = true)
    (hw : ∀ w ∈ held, w.isSome = true) :
    lock_acquire_loop t holder (held ++ none :: rest) =
      lock_outcome.returned { lk_holder := some t } := by
  induction held generalizing holder with
  | nil =>
    simp only [List.nil_append, lock_acquire_loop, hh, ↓reduceIte]
    exact lock_acquire_loop_free t rest
  | cons w more ih =>
    simp only [List.cons_append, lock_acquire_loop, hh, ↓reduceIte]
    exact ih w (hw w (List.mem_cons_self _ _)) (fun x hx => hw x (List.mem_cons_of_mem _ hx))

theorem lock_acquire_returns (in_interrupt : Bool) (l l1 : lock) (t : thread)
    (wakes : List (Option thread))
    (h : lock_acquire in_interrupt l t wakes = lock_outcome.returned l1) :
    l1.lk_holder = some t ∧ none ∈ l.lk_holder :: wakes := by
  unfold lock_acquire at h
  split at h
  · simp at h
  · split at h
    · simp at h
    · generalize l.lk_holder = holder at h
      induction wakes generalizing holder with
      | nil =>
        simp only [lock_acquire_loop] at h
        split at h
        · simp at h
        · next hn =>
          simp only [lock_outcome.returned.injEq] at h
          subst h
          cases holder <;> simp at hn ⊢
      | cons w rest ih =>
        simp only [lock_acquire_loop] at h
        split at h
        · obtain ⟨h1, h2⟩ := ih w h
          exact ⟨h1, List.mem_cons_of_mem _ h2⟩
        · next hn =>
          simp only [lock_outcome.returned.injEq] at h
          subst h
          cases holder <;> simp at hn ⊢

theorem lock_release_returns (l l1 : lock) (t : thread)
    (h : lock_release l t = lock_outcome.returned l1) :
    l.lk_holder = some t ∧ l1.lk_holder = none := by
  unfold lock_release at h
  split at h
  · simp at h
  · next hh =>
    simp only [lock_outcome.returned.injEq] at h
    subst h
    refine ⟨?_, rfl⟩
    have : lock_do_i_hold l t = true := by simpa using hh
    exact (lock_do_i_hold_iff l t).mp this

theorem lock_history_inside (l : lock) (inside : List thread) (h : lock_history l inside) :
    inside = l.lk_holder.toList := by
  induction h with
  | create => rfl
  | acquire l l1 inside t _ hstep ih =>
    obtain ⟨h1, h2⟩ := lock_acquire_returns false l l1 t [] hstep
    simp only [List.mem_singleton] at h2
    rw [ih, ← h2, h1]
    rfl
  | release l l1 inside t _ hstep ih =>
    obtain ⟨h1, h2⟩ := lock_release_returns l l1 t hstep
    rw [ih, h1, h2]
    simp

/-- Claim C21 (mutex holder tracking).  Outside an interrupt handler, `lock_acquire` on a
lock without holder returns with the caller as holder; on a lock held by another thread it
stays asleep as long as every wake-up finds a holder, and returns, with the caller as
holder, at the first wake-up that finds none; whenever it returns the caller is the holder
and the last holder it saw was none.  `lock_release` by the holder leaves no holder.  In
every state reached by calls of any threads, the threads between their `lock_acquire` and
their `lock_release` are the holder alone, so at most one, and `lock_do_i_hold` is true
for exactly that thread.  `lock_acquire` then `lock_release` on an idle lock leaves no
holder. -/
theorem lock_holder_tracking :
    (∀ t wakes, lock_acquire false { lk_holder := none } t wakes =
      lock_outcome.returned { lk_holder := some t }) ∧
    (∀ t other wakes, other ≠ t → (∀ w ∈ wakes, w.isSome = true) →
      ∃ l1, lock_acquire false { lk_holder := some other } t wakes = lock_outcome.sleeping l1 ∧
        l1.lk_holder.isSome = true) ∧
    (∀ t other held rest, other ≠ t → (∀ w ∈ held, w.isSome = true) →
      lock_acquire false { lk_holder := some other } t (held ++ none :: rest) =
        lock_outcome.returned { lk_holder := some t }) ∧
    (∀ in_interrupt l l1 t wakes,
      lock_acquire in_interrupt l t wakes = lock_outcome.returned l1 →
      l1.lk_holder = some t ∧ none ∈ l.lk_holder :: wakes) ∧
    (∀ t, lock_release { lk_holder := some t } t = lock_outcome.returned { lk_holder := none }) ∧
    (∀ l inside, lock_history l inside →
      inside = l.lk_holder.toList ∧ inside.length ≤ 1 ∧
      ∀ t, lock_do_i_hold l t = true ↔ t ∈ inside) ∧
    (∀ l t, lock_do_i_hold l t = true ↔ l.lk_holder = some t) ∧
    (∀ t, ∃ l1, lock_acquire false lock_create t [] = lock_outcome.returned l1 ∧
      lock_release l1 t = lock_outcome.returned { lk_holder := none }) := by
  refine ⟨?_, ?_, ?_, ?_, ?_, ?_, lock_do_i_hold_iff, ?_⟩
  · intro t wakes
    simp [lock_acquire, lock_do_i_hold, lock_acquire_loop_free]
  · intro t other wakes hne hw
    refine ⟨{ lk_holder := (some other :: wakes).getLast (by simp) }, ?_, ?_⟩
    · simp only [lock_acquire, lock_do_i_hold]
      rw [lock_acquire_loop_held t (some other) wakes rfl hw]
      simp [hne]
    · simp only
      have hall : ∀ w ∈ some other :: wakes, w.isSome = true := by
        intro w hmem
        rcases List.mem_cons.mp hmem with h1 | h1
        · rw [h1]; rfl
        · exact hw w h1
      exact hall _ (List.getLast_mem _)
  · intro t other held rest hne hw
    simp only [lock_acquire, lock_do_i_hold]
    rw [lock_acquire_loop_first_free t (some other) held rest rfl hw]
    simp [hne]
  · intro in_interrupt l l1 t wakes h
    exact lock_acquire_returns in_interrupt l l1 t wakes h
  · intro t
    simp [lock_release, lock_do_i_hold]
  · intro l inside h
    have hi := lock_history_inside l inside h
    refine ⟨hi, ?_, ?_⟩
    · rw [hi]
      cases l.lk_holder <;> simp
    · intro t
      rw [lock_do_i_hold_iff, hi]
      cases l.lk_holder <;> simp [eq_comm]
  · intro t
    exact ⟨{ lk_holder := some t }, by simp [lock_acquire, lock_do_i_hold, lock_create,
      lock_acquire_loop], by simp [lock_release, lock_do_i_hold]⟩

/-- Instance of claim C21.  Thread 1 acquires a fresh lock; thread 2 then finds holders at
two wake-ups and none at the third; after thread 1 has released, thread 2 is inside
alone. -/
theorem lock_holder_tracking_witness :
    lock_history { lk_holder := some 2 } [2] ∧
    ((2 : thread) ≠ 1 ∧ ∀ w ∈ [some (1 : thread), some 1], w.isSome = true) ∧
    lock_acquire false { lk_holder := some 1 } 2 ([some 1, some 1] ++ none :: []) =
      lock_outcome.returned { lk_holder := some 2 } ∧
    ([2] = ({ lk_holder := some 2 } : lock).lk_holder.toList ∧ [2].length ≤ 1 ∧
      ∀ t, lock_do_i_hold { lk_holder := some 2 } t = true ↔ t ∈ [2]) :=
  have h1 : lock_history { lk_holder := some 1 } [1] :=
    lock_history.acquire lock_create _ [] 1 lock_history.create (by decide)
  have h2 : lock_history { lk_holder := none } [] :=
    lock_history.release _ _ [1] 1 h1 (by decide)
  have h3 : lock_history { lk_holder := some 2 } [2] :=
    lock_history.acquire _ _ [] 2 h2 (by decide)
  ⟨h3, ⟨by decide, by decide⟩,
    lock_holder_tracking.2.2.1 2 1 [some 1, some 1] [] (by decide) (by decide),
    lock_holder_tracking.2.2.2.2.2.1 _ _ h3⟩

/-- Claim C22 (mutex misuse is fatal).  `lock_release` by a thread that is not the holder,
also when there is no holder, stops the kernel with the holder unchanged; `lock_acquire`
by the holder stops the kernel, whatever it would find later; `lock_destroy` stops the
kernel whenever the lock has a holder. -/
theorem lock_misuse_is_fatal (l : lock) (t : thread) :
    (l.lk_holder ≠ some t → lock_release l t = lock_outcome.crashed l) ∧
    (l.lk_holder = some t →
      ∀ in_interrupt wakes, lock_acquire in_interrupt l t wakes = lock_outcome.crashed l) ∧
    (l.lk_holder ≠ none → lock_destroy l = false) ∧
    (l.lk_holder = none → lock_destroy l = true) := by
  refine ⟨?_, ?_, ?_, ?_⟩
  · intro h
    simp [lock_release, lock_do_i_hold, h]
  · intro h in_interrupt wakes
    simp [lock_acquire, lock_do_i_hold, h]
  · intro h
    cases hl : l.lk_holder with
    | none => exact absurd hl h
    | some x => simp [lock_destroy, hl]
  · intro h
    simp [lock_destroy, h]

/-- Instance of claim C22: thread 2 releases a lock held by thread 1 and an idle lock;
thread 1 acquires the lock it holds; the lock held by thread 1 is destroyed. -/
theorem lock_misuse_is_fatal_witness :
    lock_release { lk_holder := some 1 } 2 = lock_outcome.crashed { lk_holder := some 1 } ∧
    lock_release { lk_holder := none } 2 = lock_outcome.crashed { lk_holder := none } ∧
    lock_acquire false { lk_holder := some 1 } 1 [none] =
      lock_outcome.crashed { lk_holder := some 1 } ∧
    lock_destroy { lk_holder := some 1 } = false :=
  ⟨(lock_misuse_is_fatal { lk_holder := some 1 } 2).1 (by decide),
    (lock_misuse_is_fatal { lk_holder := none } 2).1 (by decide),
    (lock_misuse_is_fatal { lk_holder := some 1 } 1).2.1 rfl false [none],
    (lock_misuse_is_fatal { lk_holder := some 1 } 1).2.2.1 (by decide)⟩

/-- Claim C23 (condition-variable lock discipline).  Called by a thread that does not
hold the mutex, `cv_wait`, `loose_cv_wait`, `cv_signal` and `cv_broadcast` stop the kernel
before doing anything.  Called by the holder, outside an interrupt handler and on a
condition variable that is not NULL: `cv_wait` releases the mutex once, before it sleeps,
and takes it again after the wake-up, so that it returns only with the caller as holder
(and it does return once it is woken and finds the mutex free); `loose_cv_wait` releases
the mutex once, never takes it again, and returns with the mutex as the other threads have
left it, so not held by the caller; `cv_signal` and `cv_broadcast` leave the mutex held by
the caller. -/
theorem cv_lock_discipline (l : lock) (t : thread) :
    (l.lk_holder ≠ some t → ∀ in_interrupt cv_ok signalled wakes,
      cv_wait in_interrupt cv_ok l t signalled wakes = (lock_outcome.crashed l, []) ∧
      loose_cv_wait cv_ok l t signalled = (lock_outcome.crashed l, []) ∧
      cv_signal cv_ok l t = (lock_outcome.crashed l, []) ∧
      cv_broadcast cv_ok l t = (lock_outcome.crashed l, [])) ∧
    (l.lk_holder = some t →
      (∀ in_interrupt signalled wakes,
        (∃ later, (cv_wait in_interrupt true l t signalled wakes).2 =
          cv_event.spinlock_acquire :: cv_event.lock_release :: cv_event.wchan_sleep ::
            later ∧ cv_event.lock_release ∉ later) ∧
        (∀ l1, (cv_wait in_interrupt true l t signalled wakes).1 = lock_outcome.returned l1 →
          l1.lk_holder = some t ∧
          (cv_wait in_interrupt true l t signalled wakes).2 =
            [cv_event.spinlock_acquire, cv_event.lock_release, cv_event.wchan_sleep,
             cv_event.spinlock_release, cv_event.lock_acquire])) ∧
      (∀ wakes, cv_wait false true l t none wakes =
        (lock_outcome.sleeping { lk_holder := none },
          [cv_event.spinlock_acquire, cv_event.lock_release, cv_event.wchan_sleep])) ∧
      (∀ wakes, (cv_wait false true l t (some none) wakes).1 =
        lock_outcome.returned { lk_holder := some t }) ∧
      (∀ other held rest, other ≠ t → (∀ w ∈ held, w.isSome = true) →
        (cv_wait false true l t (some (some other)) (held ++ none :: rest)).1 =
          lock_outcome.returned { lk_holder := some t }) ∧
      (∀ signalled,
        (loose_cv_wait true l t signalled).2 =
          [cv_event.spinlock_acquire, cv_event.lock_release, cv_event.loose_wchan_sleep] ∧
        (∀ l1, (loose_cv_wait true l t signalled).1 = lock_outcome.returned l1 →
          signalled = some l1.lk_holder) ∧
        (∀ holder, holder ≠ some t →
          (loose_cv_wait true l t (some holder)).1 =
            lock_outcome.returned { lk_holder := holder } ∧
          lock_do_i_hold { lk_holder := holder } t = false)) ∧
      cv_signal true l t =
        (lock_outcome.returned l,
          [cv_event.spinlock_acquire, cv_event.wchan_wakeone, cv_event.spinlock_release]) ∧
      cv_broadcast true l t =
        (lock_outcome.returned l,
          [cv_event.spinlock_acquire, cv_event.wchan_wakeall, cv_event.spinlock_release]) ∧
      lock_do_i_hold l t = true) := by
  constructor
  · intro h in_interrupt cv_ok signalled wakes
    have hh : lock_do_i_hold l t = false := by
      simp [lock_do_i_hold, h]
    cases cv_ok <;> simp [cv_wait, loose_cv_wait, cv_signal, cv_broadcast, hh]
  · intro h
    have hh : lock_do_i_hold l t = true := (lock_do_i_hold_iff l t).mpr h
    have hr : lock_release l t = lock_outcome.returned { lk_holder := none } := by
      simp [lock_release, hh]
    refine ⟨?_, ?_, ?_, ?_, ?_, ?_, ?_, hh⟩
    · intro in_interrupt signalled wakes
      cases signalled with
      | none =>
        refine ⟨⟨[], by simp [cv_wait, hh, hr], by simp⟩, ?_⟩
        intro l1 h1
        simp [cv_wait, hh, hr] at h1
      | some holder =>
        refine ⟨⟨[cv_event.spinlock_release, cv_event.lock_acquire], by simp [cv_wait, hh, hr],
          by simp⟩, ?_⟩
        intro l1 h1
        simp only [cv_wait, hh, hr] at h1
        simp only [Bool.true_eq_false, ↓reduceIte] at h1
        exact ⟨(lock_acquire_returns _ _ _ _ _ h1).1, by simp [cv_wait, hh, hr]⟩
    · intro wakes
      simp [cv_wait, hh, hr]
    · intro wakes
      simp [cv_wait, hh, hr, h, lock_acquire, lock_do_i_hold, lock_acquire_loop_free]
    · intro other held rest hne hw
      simp only [cv_wait, hh, hr, lock_acquire]
      rw [lock_acquire_loop_first_free t (some other) held rest rfl hw]
      simp [lock_do_i_hold, hne]
    · intro signalled
      cases signalled with
      | none =>
        refine ⟨by simp [loose_cv_wait, hh, hr], by simp [loose_cv_wait, hh, hr], ?_⟩
        intro holder1 hne
        simp [loose_cv_wait, hh, hr, h, lock_do_i_hold, hne]
      | some holder =>
        refine ⟨by simp [loose_cv_wait, hh, hr], ?_, ?_⟩
        · intro l1 h1
          simp [loose_cv_wait, hh, hr] at h1
          rw [← h1]
        · intro holder1 hne
          simp [loose_cv_wait, hh, hr, h, lock_do_i_hold, hne]
    · simp [cv_signal, hh]
    · simp [cv_broadcast, hh]

/-- Instance of claim C23.  Thread 1 holds the mutex and waits: woken while thread 2
holds the mutex, it sleeps on the mutex and returns as holder once it finds the mutex
free; with `loose_cv_wait` it returns while thread 2 is the holder. -/
theorem cv_lock_discipline_witness :
    (cv_wait false true { lk_holder := some 1 } 1 (some (some 2)) ([some 2] ++ none :: [])).1 =
      lock_outcome.returned { lk_holder := some 1 } ∧
    ((loose_cv_wait true { lk_holder := some 1 } 1 (some (some 2))).1 =
        lock_outcome.returned { lk_holder := some 2 } ∧
      lock_do_i_hold { lk_holder := some 2 } 1 = false) ∧
    cv_signal true { lk_holder := some 2 } 1 =
      (lock_outcome.crashed { lk_holder := some 2 }, []) :=
  ⟨((cv_lock_discipline { lk_holder := some 1 } 1).2 rfl).2.2.2.1 2 [some 2] []
      (by decide) (by decide),
    (((cv_lock_discipline { lk_holder := some 1 } 1).2 rfl).2.2.2.2.1 (some (some 2))).2.2
      (some 2) (by decide),
    ((cv_lock_discipline { lk_holder := some 2 } 1).1 (by decide) false true none []).2.2.1⟩

/-! ## The test reporter: claim C24 -/

/-- Claim C24, amended.  For every test name and every status other than
`TEST161_SUCCESS`, `success` with secure testing off writes the name first: the bytes of
the name, then `: FAIL` and a newline.  When the name holds no newline this is a single
line. -/
theorem success_reports_failure (status : Int) (secret name : List Nat)
    (h : status ≠ TEST161_SUCCESS) :
    success status secret name = name ++ [58, 32] ++ FAIL_str ++ [10] ∧
    (10 ∉ name →
      (success status secret name).count 10 = 1 ∧
      (success status secret name).getLast? = some 10) := by
  have e : success status secret name = name ++ [58, 32] ++ FAIL_str ++ [10] := by
    simp [success, secprintf, kprintf_name_msg, h]
  refine ⟨e, ?_⟩
  intro hn
  rw [e]
  constructor
  · simp [FAIL_str, List.count_eq_zero_of_not_mem hn]
  · simp [FAIL_str]

/-- Instance of claim C24, amended: the test `rwt2` of kern/test/rwtest.c reports
`rwt2: FAIL`. -/
theorem success_reports_failure_witness :
    TEST161_FAIL ≠ TEST161_SUCCESS ∧ 10 ∉ [114, 119, 116, 50] ∧
    success TEST161_FAIL [] [114, 119, 116, 50] =
      [114, 119, 116, 50] ++ [58, 32] ++ FAIL_str ++ [10] ∧
    (success TEST161_FAIL [] [114, 119, 116, 50]).count 10 = 1 :=
  ⟨by decide, by decide,
    (success_reports_failure TEST161_FAIL [] [114, 119, 116, 50] (by decide)).1,
    ((success_reports_failure TEST161_FAIL [] [114, 119, 116, 50] (by decide)).2
      (by decide)).1⟩

/-- Claim C24 fails on the code.  For the test name `rwt2` and the status
`TEST161_FAIL`, `success` writes `rwt2: FAIL` and a newline, not `FAIL: rwt2`: the text
starts with the name, `r`, where `FAIL: rwt2` starts with `F`. -/
theorem success_line_is_not_fail_first :
    success TEST161_FAIL [] [114, 119, 116, 50] =
      [114, 119, 116, 50, 58, 32, 70, 65, 73, 76, 10] ∧
    success TEST161_FAIL [] [114, 119, 116, 50] ≠
      FAIL_str ++ [58, 32] ++ [114, 119, 116, 50] ++ [10] ∧
    success TEST161_FAIL [] [114, 119, 116, 50] ≠
      FAIL_str ++ [58, 32] ++ [114, 119, 116, 50] ∧
    (success TEST161_FAIL [] [114, 119, 116, 50]).take 6 ≠ FAIL_str ++ [58, 32] := by
  decide

/-! ## Reader sets after a removal, and a reader that asks for the write lock: claims C27 and C29 -/

/-- Claim C27, evaluated on the code.  Threads 1 and 2 are inserted into a fresh reader
set and thread 2, last in the list and not the head, is removed: `reader_q_remove` leaves
`tail` at the address of the node it has freed.  The following `reader_q_insert` of thread
3 finds `size == 1` with `head != tail` and stops the kernel on its assertion, whatever
`kmalloc` returns.  With threads 1, 2 and 3 inserted and thread 3 removed, the following
`reader_q_insert` of thread 4 passes its assertions, stores the new node through the stale
`tail`, and a traversal from `head` does not find thread 4, although `size` is 3. -/
theorem reader_q_remove_leaves_stale_tail :
    ((reader_q_create true).bind (fun rq => reader_q_insert rq (some 10) 1)).bind
        (fun rq => reader_q_insert rq (some 11) 2) =
      some { head := [{ addr := 10, t := 1 }, { addr := 11, t := 2 }], tail := some 11,
             size := 2 } ∧
    reader_q_remove
        { head := [{ addr := 10, t := 1 }, { addr := 11, t := 2 }], tail := some 11, size := 2 }
        2 =
      some { head := [{ addr := 10, t := 1 }], tail := some 11, size := 1 } ∧
    (∀ node, reader_q_insert { head := [{ addr := 10, t := 1 }], tail := some 11, size := 1 }
      node 3 = none) ∧
    reader_q_insert
        { head := [{ addr := 10, t := 1 }, { addr := 11, t := 2 }], tail := some 11, size := 2 }
        (some 12) 3 =
      some { head := [{ addr := 10, t := 1 }, { addr := 11, t := 2 }, { addr := 12, t := 3 }],
             tail := some 12, size := 3 } ∧
    reader_q_remove
        { head := [{ addr := 10, t := 1 }, { addr := 11, t := 2 }, { addr := 12, t := 3 }],
          tail := some 12, size := 3 } 3 =
      some { head := [{ addr := 10, t := 1 }, { addr := 11, t := 2 }], tail := some 12,
             size := 2 } ∧
    reader_q_insert
        { head := [{ addr := 10, t := 1 }, { addr := 11, t := 2 }], tail := some 12, size := 2 }
        (some 13) 4 =
      some { head := [{ addr := 10, t := 1 }, { addr := 11, t := 2 }], tail := some 13,
             size := 3 } ∧
    rwlock_do_i_hold_reader
        { st_one_reader with
          active_readers :=
            some { head := [{ addr := 10, t := 1 }, { addr := 11, t := 2 }], tail := some 13,
                   size := 3 } } 4 = false := by
  refine ⟨by decide, by decide, ?_, by decide, by decide, by decide, by decide⟩
  intro node
  cases node with
  | none => rfl
  | some a => simp [reader_q_insert, reader_q.head_ptr]

/-- Claim C29 (holding in the other mode is not detected).  In a state the lock can
reach, with mode READ and the caller recorded in the active reader set, the caller being
a thread that is not asleep on a queue entry: when the allocations succeed,
`rwlock_acquire_write` does not stop the kernel; it appends a writer-request for the
caller at the tail of the queue, adds one to the counter of known writers and puts the
caller to sleep; the caller is then recorded in the active reader set and in the queue at
once. -/
theorem acquire_write_while_reading (s : rwlock) (t : thread) (a : Nat)
    (hr : ReachableAwake s) (ht : thread_ok t) (hw : is_waiting s t = false)
    (hst : s.status = READ) (hh : rwlock_do_i_hold_reader s t = true) :
    ∃ r s1, rwlock_acquire_write (allocs.all a) s t = outcome.sleeping s1 ∧
      s1 = { s with naming_counter := uinc s.naming_counter,
                    total_num_writers := s.total_num_writers + 1,
                    reqs := s.reqs ++ [r] } ∧
      r.type = WRITE ∧ r.writer = some t ∧ r.readers = none ∧
      rwlock_do_i_hold_reader s1 t = true ∧ is_waiting s1 t = true := by
  have hR := reachable_of_awake s hr
  have hI := inv_of_reachable s hR
  have hnw : s.active_writer = none := by
    cases hb : s.active_writer with
    | none => rfl
    | some w =>
      have := hI.writer_iff.mpr (by rw [hb]; rfl)
      rw [hst] at this
      cases this
  have hhw : rwlock_do_i_hold_writer s t = false := by
    simp [rwlock_do_i_hold_writer, hnw]
  have hcall : rwlock_acquire_write (allocs.all a) s t =
      outcome.sleeping
        { s with naming_counter := uinc s.naming_counter,
                 total_num_writers := uinc s.total_num_writers,
                 reqs := s.reqs ++
                   [({ type := WRITE, readers := none, writer := some t,
                       req_cv := c_string (get_req_names (uinc s.naming_counter)).1,
                       req_cv_lock := c_string (get_req_names (uinc s.naming_counter)).2 } :
                     request)] } := by
    unfold rwlock_acquire_write
    simp [hhw, hst, request_q_insert, allocs.all]
  have hr1 := ReachableAwake.step rwlock_op.acquire_write (allocs.all a) t s _ hr ht hw
    (by simp only [rwlock_call]; rw [hcall]; rfl)
  have hW1 := invw_of_awake _ hr1
  have hI1 := inv_of_reachable _ (reachable_of_awake _ hr1)
  have hlt := writers_known_lt _ (fun r hr => (hI1.queued_ok r hr).1) hW1.nodup hW1.valid
  have hcount := hW1.count
  have hW := invw_of_awake s hr
  have hc0 := hW.count
  have hk : uinc s.total_num_writers = s.total_num_writers + 1 := by
    apply uinc_of_lt
    have e1 : writers_known
        { s with naming_counter := uinc s.naming_counter,
                 total_num_writers := uinc s.total_num_writers,
                 reqs := s.reqs ++
                   [({ type := WRITE, readers := none, writer := some t,
                       req_cv := c_string (get_req_names (uinc s.naming_counter)).1,
                       req_cv_lock := c_string (get_req_names (uinc s.naming_counter)).2 } :
                     request)] } = writers_known s + 1 := by
      unfold writers_known
      simp only [writer_entries_append]
      simp
      omega
    rw [e1] at hlt
    omega
  refine ⟨{ type := WRITE, readers := none, writer := some t,
            req_cv := c_string (get_req_names (uinc s.naming_counter)).1,
            req_cv_lock := c_string (get_req_names (uinc s.naming_counter)).2 },
    _, hcall, ?_, rfl, rfl, rfl, ?_, ?_⟩
  · rw [hk]
  · simpa [rwlock_do_i_hold_reader] using hh
  · simp [is_waiting, waits_on]

/-- Instance of claim C29: thread 1 holds a fresh lock for reading and calls
`rwlock_acquire_write`. -/
theorem acquire_write_while_reading_witness :
    (ReachableAwake st_one_reader ∧ thread_ok 1 ∧ is_waiting st_one_reader 1 = false ∧
      st_one_reader.status = READ ∧ rwlock_do_i_hold_reader st_one_reader 1 = true) ∧
    ∃ r s1, rwlock_acquire_write (allocs.all 0) st_one_reader 1 = outcome.sleeping s1 ∧
      s1 = { st_one_reader with naming_counter := uinc st_one_reader.naming_counter,
                                total_num_writers := st_one_reader.total_num_writers + 1,
                                reqs := st_one_reader.reqs ++ [r] } ∧
      r.type = WRITE ∧ r.writer = some 1 ∧ r.readers = none ∧
      rwlock_do_i_hold_reader s1 1 = true ∧ is_waiting s1 1 = true :=
  ⟨⟨reach_one_reader, by decide, by decide, rfl, by decide⟩,
    acquire_write_while_reading st_one_reader 1 0 reach_one_reader (by decide) (by decide) rfl
      (by decide)⟩

/-! ## The names of the queue entries: claim C26 -/

theorem digits_length_le (n : Nat) (h : n < UINT_RANGE) : (Nat.digits 10 n).length ≤ 10 := by
  by_contra hc
  have h11 : 11 ≤ (Nat.digits 10 n).length := by omega
  have h1 := Nat.base_pow_length_digits_le 10 n (by norm_num)
  by_cases h0 : n = 0
  · subst h0
    simp at h11
  · have h2 := h1 h0
    have h3 : 10 ^ 11 ≤ 10 ^ (Nat.digits 10 n).length := Nat.pow_le_pow_right (by norm_num) h11
    unfold UINT_RANGE at h
    have : (10 : Nat) ^ 11 = 100000000000 := by norm_num
    omega

theorem digits_loop_eq (fuel num counter : Nat) (hf : num ≤ fuel)
    (hc : counter + (Nat.digits 10 num).length < UINT_RANGE) :
    digits_loop fuel num counter = counter + (Nat.digits 10 num).length := by
  induction fuel generalizing num counter with
  | zero =>
    have h0 : num = 0 := by omega
    subst h0
    simp [digits_loop]
  | succ f ih =>
    unfold digits_loop
    by_cases h0 : num = 0
    · subst h0
      simp
    · rw [if_neg h0]
      have hd : Nat.digits 10 num = num % 10 :: Nat.digits 10 (num / 10) :=
        Nat.digits_def' (by norm_num) (Nat.pos_of_ne_zero h0)
      rw [hd] at hc ⊢
      simp only [List.length_cons] at hc ⊢
      have hu : uinc counter = counter + 1 := by
        unfold uinc
        exact Nat.mod_eq_of_lt (by omega)
      rw [hu, ih (num / 10) (counter + 1) (by omega) (by omega)]
      omega

theorem digits_eq (n : Nat) (h : n < UINT_RANGE) : digits n = (Nat.digits 10 n).length := by
  unfold digits
  rw [digits_loop_eq n n 0 (Nat.le_refl n)
    (by have := digits_length_le n h; unfold UINT_RANGE; omega)]
  simp

theorem set_split (l : List Nat) (n a : Nat) (h : n < l.length) :
    l.set n a = l.take n ++ a :: l.drop (n + 1) := by
  induction l generalizing n with
  | nil => simp at h
  | cons x xs ih =>
    cases n with
    | zero => simp
    | succ m =>
      simp only [List.set_cons_succ, List.take_succ_cons, List.drop_succ_cons, List.cons_append]
      rw [ih m (by simpa using h)]

theorem take_set_before (l : List Nat) (n m a : Nat) (h : m ≤ n) :
    (l.set n a).take m = l.take m := by
  induction l generalizing n m with
  | nil => simp
  | cons x xs ih =>
    cases m with
    | zero => simp
    | succ m1 =>
      cases n with
      | zero => omega
      | succ n1 =>
        simp only [List.set_cons_succ, List.take_succ_cons]
        rw [ih n1 m1 (by omega)]

theorem drop_set_at (l : List Nat) (n a : Nat) (h : n < l.length) :
    (l.set n a).drop n = a :: l.drop (n + 1) := by
  rw [set_split l n a h]
  have hl : (l.take n).length = n := by simp; omega
  rw [List.drop_append_of_le_length (by omega)]
  rw [List.drop_eq_nil_of_le (by omega)]
  rfl

theorem get_req_names_loop_eq (k i length num : Nat) (cv_name lock_name : List Nat)
    (hk : k = (Nat.digits 10 num).length) (hi : i + k = length)
    (hcv : 11 + k < cv_name.length + 1) (hlock : 13 + k < lock_name.length + 1) :
    get_req_names_loop k i length num cv_name lock_name =
      (cv_name.take 11 ++ decimal num ++ cv_name.drop (11 + k),
       lock_name.take 13 ++ decimal num ++ lock_name.drop (13 + k)) := by
  induction k generalizing i num cv_name lock_name with
  | zero =>
    have h0 : Nat.digits 10 num = [] := List.eq_nil_of_length_eq_zero hk.symm
    simp [get_req_names_loop, decimal, h0]
  | succ k1 ih =>
    have hn : num ≠ 0 := by
      intro h0
      subst h0
      simp at hk
    have hd : Nat.digits 10 num = num % 10 :: Nat.digits 10 (num / 10) :=
      Nat.digits_def' (by norm_num) (Nat.pos_of_ne_zero hn)
    have hk1 : k1 = (Nat.digits 10 (num / 10)).length := by
      rw [hd] at hk
      simpa using hk
    have e1 : length + 8 + 3 - i - 1 = 11 + k1 := by omega
    have e2 : length + 8 + 5 - i - 1 = 13 + k1 := by omega
    unfold get_req_names_loop
    rw [e1, e2, ih (i + 1) (num / 10) _ _ hk1 (by omega) (by simp; omega) (by simp; omega)]
    rw [take_set_before _ _ _ _ (by omega), take_set_before _ _ _ _ (by omega),
      drop_set_at _ _ _ (by omega), drop_set_at _ _ _ (by omega)]
    have hdec : decimal num = decimal (num / 10) ++ [num % 10 + 48] := by
      unfold decimal
      rw [hd]
      simp
    rw [hdec]
    simp [Nat.add_assoc]

theorem get_req_names_in_eq (n : Nat) (cv_buf lock_buf : List Nat) (h : n < UINT_RANGE)
    (hcv : cv_buf.length = digits n + 8 + 3 + 1) (hlock : lock_buf.length = digits n + 8 + 5 + 1) :
    get_req_names_in n cv_buf lock_buf =
      (request_cv_str ++ decimal n ++ [0], request_lock_str ++ decimal n ++ [0]) := by
  have hd := digits_eq n h
  have hdl : (decimal n).length = digits n := by
    unfold decimal
    simp [hd]
  unfold get_req_names_in
  simp only
  have hs1 : (strcpy cv_buf request_cv_str).length = digits n + 12 := by
    simp [strcpy, request_cv_str, hcv]
  have hs2 : (strcpy lock_buf request_lock_str).length = digits n + 14 := by
    simp [strcpy, request_lock_str, hlock]
  rw [get_req_names_loop_eq (digits n) 0 (digits n) n _ _ hd (by omega) (by omega) (by omega)]
  simp only
  have t1 : (strcpy cv_buf request_cv_str).take 11 = request_cv_str := by
    simp [strcpy, request_cv_str]
  have t2 : (strcpy lock_buf request_lock_str).take 13 = request_lock_str := by
    simp [strcpy, request_lock_str]
  have l1 : (request_cv_str ++ decimal n).length = digits n + 8 + 3 := by
    rw [List.length_append, hdl]
    simp only [request_cv_str, List.length_cons, List.length_nil]
    omega
  have l2 : (request_lock_str ++ decimal n).length = digits n + 8 + 5 := by
    rw [List.length_append, hdl]
    simp only [request_lock_str, List.length_cons, List.length_nil]
    omega
  have d1 : ∃ x, (strcpy cv_buf request_cv_str).drop (11 + digits n) = [x] := by
    have hlen : ((strcpy cv_buf request_cv_str).drop (11 + digits n)).length = 1 := by
      rw [List.length_drop, hs1]
      omega
    exact List.length_eq_one.mp hlen
  have d2 : ∃ x, (strcpy lock_buf request_lock_str).drop (13 + digits n) = [x] := by
    have hlen : ((strcpy lock_buf request_lock_str).drop (13 + digits n)).length = 1 := by
      rw [List.length_drop, hs2]
      omega
    exact List.length_eq_one.mp hlen
  obtain ⟨x1, hx1⟩ := d1
  obtain ⟨x2, hx2⟩ := d2
  rw [t1, t2, hx1, hx2, ← l1, ← l2]
  simp

theorem takeWhile_until (p : Nat → Bool) (l r : List Nat) (a : Nat)
    (hl : ∀ x ∈ l, p x = true) (ha : p a = false) : (l ++ a :: r).takeWhile p = l := by
  induction l with
  | nil => simp [List.takeWhile, ha]
  | cons x xs ih =>
    rw [List.cons_append, List.takeWhile_cons, hl x (List.mem_cons_self _ _)]
    simp only [↓reduceIte]
    rw [ih (fun y hy => hl y (List.mem_cons_of_mem _ hy))]

theorem decimal_nonzero (n : Nat) : ∀ x ∈ decimal n, x ≠ 0 := by
  intro x hx
  unfold decimal at hx
  simp only [List.mem_map, List.mem_reverse] at hx
  obtain ⟨d, _, hd⟩ := hx
  omega

theorem c_string_until_nul (l : List Nat) (hl : ∀ x ∈ l, x ≠ 0) : c_string (l ++ [0]) = l := by
  unfold c_string
  exact takeWhile_until _ l [] 0 (fun x hx => by simpa using hl x hx) (by simp)

theorem decimal_injective (n m : Nat) (h : decimal n = decimal m) : n = m := by
  unfold decimal at h
  have hinj : Function.Injective (fun d : Nat => d + 48) := by
    intro a b hab
    simp only at hab
    omega
  have h1 := List.map_injective_iff.mpr hinj h
  exact Nat.digits_inj_iff.mp (List.reverse_injective h1)

theorem get_req_names_eq (n : Nat) (h : n < UINT_RANGE) :
    get_req_names n = (request_cv_str ++ decimal n ++ [0], request_lock_str ++ decimal n ++ [0]) := by
  have e : get_req_names n =
      get_req_names_in n (List.replicate (digits n + 8 + 3 + 1) 0)
        (List.replicate (digits n + 8 + 5 + 1) 0) := rfl
  rw [e, get_req_names_in_eq n _ _ h (by simp) (by simp)]

theorem req_names_strings (n : Nat) (h : n < UINT_RANGE) :
    c_string (get_req_names n).1 = request_cv_str ++ decimal n ∧
    c_string (get_req_names n).2 = request_lock_str ++ decimal n := by
  rw [get_req_names_eq n h]
  constructor
  · apply c_string_until_nul
    intro x hx
    rcases List.mem_append.mp hx with h1 | h1
    · intro h0
      rw [h0] at h1
      revert h1
      decide
    · exact decimal_nonzero n x h1
  · apply c_string_until_nul
    intro x hx
    rcases List.mem_append.mp hx with h1 | h1
    · intro h0
      rw [h0] at h1
      revert h1
      decide
    · exact decimal_nonzero n x h1

theorem request_q_insert_names (m : allocs) (s s1 : rwlock) (st : status_t) (t : thread)
    (h : (request_q_insert m s st t).next = some s1) :
    ∃ r, s1.reqs = s.reqs ++ [r] ∧ s1.naming_counter = uinc s.naming_counter ∧
      r.req_cv = c_string (get_req_names (uinc s.naming_counter)).1 ∧
      r.req_cv_lock = c_string (get_req_names (uinc s.naming_counter)).2 := by
  unfold request_q_insert at h
  split at h
  · simp [outcome.next] at h
  · simp only at h
    split at h
    · simp [outcome.next] at h
    · split at h
      · simp [outcome.next] at h
      · split at h
        · simp [outcome.next] at h
        · split at h
          · split at h
            · simp [outcome.next] at h
            · split at h
              · simp [outcome.next] at h
              · simp only [outcome.next, Option.some.injEq] at h
                subst h
                exact ⟨_, rfl, rfl, rfl, rfl⟩
          · simp only [outcome.next, Option.some.injEq] at h
            subst h
            exact ⟨_, rfl, rfl, rfl, rfl⟩
          · simp [outcome.next] at h

theorem step_names (o : rwlock_op) (m : allocs) (s s1 : rwlock) (t : thread)
    (h : (rwlock_call o m s t).next = some s1) :
    (s1.reqs.length ≤ s.reqs.length ∧ s1.naming_counter = s.naming_counter) ∨
    (∃ r, s1.reqs = s.reqs ++ [r] ∧ s1.naming_counter = uinc s.naming_counter ∧
      r.req_cv = c_string (get_req_names (uinc s.naming_counter)).1 ∧
      r.req_cv_lock = c_string (get_req_names (uinc s.naming_counter)).2) := by
  cases o with
  | acquire_read =>
    obtain ⟨_, hcase⟩ := rwlock_acquire_read_next m s s1 t h
    rcases hcase with ⟨_, _, _, _, rq1, _, hs1⟩ | ⟨_, _, _, _, _, rq, rq1, _, _, hs1⟩ |
      ⟨_, hwait⟩
    · subst hs1
      exact Or.inl ⟨Nat.le_refl _, rfl⟩
    · subst hs1
      exact Or.inl ⟨Nat.le_refl _, rfl⟩
    · obtain ⟨_, _, req_tail, htl, hcase⟩ := rwlock_acquire_read_wait_next m s s1 t hwait
      rcases hcase with ⟨_, rq, rq1, _, _, hs1⟩ | ⟨_, hins⟩
      · subst hs1
        left
        refine ⟨?_, rfl⟩
        have hq : s.reqs.dropLast ++ [req_tail] = s.reqs :=
          List.dropLast_append_getLast? req_tail htl
        conv_rhs => rw [← hq]
        simp
      · exact Or.inr (request_q_insert_names m s s1 READ t hins)
  | acquire_write =>
    obtain ⟨_, hcase⟩ := rwlock_acquire_write_next m s s1 t h
    rcases hcase with ⟨_, _, _, _, hs1⟩ | ⟨_, _, hins⟩
    · subst hs1
      exact Or.inl ⟨Nat.le_refl _, rfl⟩
    · exact Or.inr (request_q_insert_names m s s1 WRITE t hins)
  | release_read =>
    obtain ⟨_, _, rq0, rq, _, _, hcase⟩ := rwlock_release_read_next s s1 t h
    rcases hcase with ⟨_, hs1⟩ | ⟨_, _, _, hs1⟩ | ⟨_, _, pending, rest, hq, hcase⟩
    · subst hs1
      exact Or.inl ⟨Nat.le_refl _, rfl⟩
    · subst hs1
      exact Or.inl ⟨Nat.le_refl _, rfl⟩
    · rcases hcase with ⟨_, hs1⟩ | ⟨_, hs1⟩ <;>
      · subst hs1
        exact Or.inl ⟨by simp [hq], rfl⟩
  | release_write =>
    obtain ⟨_, _, hcase⟩ := rwlock_release_write_next s s1 t h
    rcases hcase with ⟨_, _, hs1⟩ | ⟨pending, rest, hq, hcase⟩
    · subst hs1
      exact Or.inl ⟨Nat.le_refl _, rfl⟩
    · rcases hcase with ⟨_, hs1⟩ | ⟨_, hs1⟩ <;>
      · subst hs1
        exact Or.inl ⟨by simp [hq], rfl⟩

theorem requests_created_names (steps : List (rwlock_op × allocs × thread)) (s : rwlock)
    (hb : s.naming_counter + (requests_created s steps).length < UINT_RANGE) :
    (requests_created s steps).map (fun r => (r.req_cv, r.req_cv_lock)) =
      (List.range' (s.naming_counter + 1) (requests_created s steps).length).map
        (fun n => (c_string (get_req_names n).1, c_string (get_req_names n).2)) := by
  induction steps generalizing s with
  | nil => simp [requests_created]
  | cons x rest ih =>
    obtain ⟨o, m, t⟩ := x
    unfold requests_created at hb ⊢
    cases hn : (rwlock_call o m s t).next with
    | none => simp
    | some s1 =>
      simp only [hn] at hb ⊢
      rcases step_names o m s s1 t hn with ⟨hlen, hnc⟩ | ⟨r, hq, hnc, hcv, hlock⟩
      · have hif : ¬ s.reqs.length < s1.reqs.length := by omega
        simp only [hif, ↓reduceIte, List.nil_append] at hb ⊢
        rw [← hnc]
        exact ih s1 (by rw [hnc]; exact hb)
      · have hif : s.reqs.length < s1.reqs.length := by
          rw [hq]
          simp
        have hlast : s1.reqs.getLast? = some r := by
          rw [hq]
          simp
        simp only [hif, ↓reduceIte, hlast, Option.toList_some, List.singleton_append,
          List.length_cons] at hb ⊢
        have hu : uinc s.naming_counter = s.naming_counter + 1 := by
          unfold uinc
          exact Nat.mod_eq_of_lt (by omega)
        rw [List.range'_succ, List.map_cons, List.map_cons,
          ih s1 (by rw [hnc, hu]; omega), hnc, hu, hcv, hlock, hu]

theorem req_names_injective (n k : Nat) (hn : n < UINT_RANGE) (hk : k < UINT_RANGE)
    (h : c_string (get_req_names n).1 = c_string (get_req_names k).1 ∨
      c_string (get_req_names n).2 = c_string (get_req_names k).2) : n = k := by
  obtain ⟨a1, a2⟩ := req_names_strings n hn
  obtain ⟨b1, b2⟩ := req_names_strings k hk
  rcases h with h | h
  · rw [a1, b1] at h
    exact decimal_injective n k (List.append_cancel_left h)
  · rw [a2, b2] at h
    exact decimal_injective n k (List.append_cancel_left h)

theorem requests_created_nodup (steps : List (rwlock_op × allocs × thread)) (s : rwlock)
    (hb : s.naming_counter + (requests_created s steps).length < UINT_RANGE) :
    ((requests_created s steps).map request.req_cv).Nodup ∧
    ((requests_created s steps).map request.req_cv_lock).Nodup := by
  have hn := requests_created_names steps s hb
  have e1 : (requests_created s steps).map request.req_cv =
      (List.range' (s.naming_counter + 1) (requests_created s steps).length).map
        (fun n => c_string (get_req_names n).1) := by
    have := congrArg (List.map Prod.fst) hn
    simpa [List.map_map, Function.comp] using this
  have e2 : (requests_created s steps).map request.req_cv_lock =
      (List.range' (s.naming_counter + 1) (requests_created s steps).length).map
        (fun n => c_string (get_req_names n).2) := by
    have := congrArg (List.map Prod.snd) hn
    simpa [List.map_map, Function.comp] using this
  rw [e1, e2]
  constructor
  · apply List.Nodup.map_on _ (List.nodup_range' _ _)
    intro x hx y hy hxy
    rw [List.mem_range'_1] at hx hy
    exact req_names_injective x y (by omega) (by omega) (Or.inl hxy)
  · apply List.Nodup.map_on _ (List.nodup_range' _ _)
    intro x hx y hy hxy
    rw [List.mem_range'_1] at hx hy
    exact req_names_injective x y (by omega) (by omega) (Or.inr hxy)

/-- Claim C26 (per-request names are unique).  For `1 ≤ n < 2 ^ 32`, `digits n` is the
number of decimal digits of `n`.  Whatever the two buffers of `get_req_names` hold when
`kmalloc` returns them, after the call they hold `request_cv ` and `request_lock `, each
followed by the decimal representation of `n` and a NUL, and nothing else: every store is
inside its buffer and the NUL is its last byte.  The names differ for different counter
values.  `request_q_insert` names its entry after the naming counter it has just
incremented, so in a run of calls on a fresh lock that creates fewer than `2 ^ 32`
entries no two entries share a name. -/
theorem req_names_unique (n : Nat) (h1 : 1 ≤ n) (h : n < UINT_RANGE) :
    digits n = (Nat.digits 10 n).length ∧ digits n = Nat.log 10 n + 1 ∧
    (∀ cv_buf lock_buf, cv_buf.length = digits n + 8 + 3 + 1 →
      lock_buf.length = digits n + 8 + 5 + 1 →
      get_req_names_in n cv_buf lock_buf =
        (request_cv_str ++ decimal n ++ [0], request_lock_str ++ decimal n ++ [0]) ∧
      (get_req_names_in n cv_buf lock_buf).1.length = cv_buf.length ∧
      (get_req_names_in n cv_buf lock_buf).2.length = lock_buf.length) ∧
    c_string (get_req_names n).1 = request_cv_str ++ decimal n ∧
    c_string (get_req_names n).2 = request_lock_str ++ decimal n ∧
    (∀ k, k < UINT_RANGE → k ≠ n →
      c_string (get_req_names k).1 ≠ c_string (get_req_names n).1 ∧
      c_string (get_req_names k).2 ≠ c_string (get_req_names n).2) ∧
    (∀ m s st t s1, (request_q_insert m s st t).next = some s1 →
      ∃ r, s1.reqs = s.reqs ++ [r] ∧ s1.naming_counter = uinc s.naming_counter ∧
        r.req_cv = c_string (get_req_names (uinc s.naming_counter)).1 ∧
        r.req_cv_lock = c_string (get_req_names (uinc s.naming_counter)).2) ∧
    (∀ steps, (requests_created rwlock_create steps).length < UINT_RANGE →
      ((requests_created rwlock_create steps).map request.req_cv).Nodup ∧
      ((requests_created rwlock_create steps).map request.req_cv_lock).Nodup) := by
  have hd := digits_eq n h
  have hs := req_names_strings n h
  refine ⟨hd, ?_, ?_, hs.1, hs.2, ?_,
    fun m s st t s1 hq => request_q_insert_names m s s1 st t hq, ?_⟩
  · rw [hd, Nat.digits_len 10 n (by norm_num) (by omega)]
  · intro cv_buf lock_buf hcv hlock
    have e := get_req_names_in_eq n cv_buf lock_buf h hcv hlock
    have hdl : (decimal n).length = digits n := by
      unfold decimal
      simp [hd]
    refine ⟨e, ?_, ?_⟩
    · rw [e, hcv]
      simp only [List.length_append, hdl, request_cv_str, List.length_cons, List.length_nil]
      omega
    · rw [e, hlock]
      simp only [List.length_append, hdl, request_lock_str, List.length_cons, List.length_nil]
      omega
  · intro k hk hne
    constructor
    · intro heq
      exact hne (req_names_injective k n hk h (Or.inl heq))
    · intro heq
      exact hne (req_names_injective k n hk h (Or.inr heq))
  · intro steps hlen
    exact requests_created_nodup steps rwlock_create (by simpa [rwlock_create] using hlen)

/-- Instance of claim C26: the counter value 10, and the three entries of the run that
leads to `st_three_queued`, named after the counter values 1, 2 and 3. -/
theorem req_names_unique_witness :
    ((1 : Nat) ≤ 10 ∧ (10 : Nat) < UINT_RANGE) ∧
    digits 10 = 2 ∧
    get_req_names_in 10 (List.replicate 14 255) (List.replicate 16 255) =
      (request_cv_str ++ [49, 48] ++ [0], request_lock_str ++ [49, 48] ++ [0]) ∧
    (requests_created rwlock_create
        [(rwlock_op.acquire_write, allocs.all 0, 1), (rwlock_op.acquire_write, allocs.all 0, 2),
         (rwlock_op.acquire_read, allocs.all 20, 3), (rwlock_op.acquire_read, allocs.all 21, 4),
         (rwlock_op.acquire_write, allocs.all 0, 5)]).map request.req_cv =
      [request_cv_str ++ [49], request_cv_str ++ [50], request_cv_str ++ [51]] ∧
    c_string (get_req_names 10).1 = request_cv_str ++ decimal 10 ∧
    (∀ k, k < UINT_RANGE → k ≠ 10 →
      c_string (get_req_names k).1 ≠ c_string (get_req_names 10).1 ∧
      c_string (get_req_names k).2 ≠ c_string (get_req_names 10).2) :=
  ⟨⟨by decide, by decide⟩, by decide, by decide, by decide,
    (req_names_unique 10 (by decide) (by decide)).2.2.2.1,
    (req_names_unique 10 (by decide) (by decide)).2.2.2.2.2.1⟩

/-! ## Whalemating: claim C25 -/

theorem whalemating_get_set (s : whalemating) (x y : whale_sem) (sem : semaphore) :
    (s.set x sem).get y = if y = x then sem else s.get y := by
  cases x <;> cases y <;> simp [whalemating.set, whalemating.get]

theorem whale_call_step_count (s s1 : whalemating) (c : whale_call) (x : whale_sem)
    (h : whale_call_step s c = some s1) (hx : (s.get x).sem_count < UINT_RANGE) :
    (s1.get x).sem_count < UINT_RANGE ∧
    (s1.get x).sem_count + (if is_call (whale_call.P_sem x) c = true then 1 else 0) =
      (s.get x).sem_count + (if is_call (whale_call.V_sem x) c = true then 1 else 0) := by
  cases c with
  | P_sem y =>
    simp only [whale_call_step, P, P_loop] at h
    by_cases h0 : (s.get y).sem_count = 0
    · simp [h0] at h
    · simp [h0] at h
      subst h
      rw [whalemating_get_set]
      by_cases hxy : x = y
      · subst hxy
        have hd : udec (s.get x).sem_count = (s.get x).sem_count - 1 := by
          unfold udec
          rw [show (s.get x).sem_count + UINT_RANGE - 1 =
            ((s.get x).sem_count - 1) + UINT_RANGE by omega, Nat.add_mod_right]
          exact Nat.mod_eq_of_lt (by omega)
        simp [is_call, hd]
        omega
      · have hyx : ¬ y = x := fun e => hxy e.symm
        simp [is_call, hxy, hyx, hx]
  | V_sem y =>
    simp only [whale_call_step, V] at h
    split at h
    · next sem1 hv =>
      simp only [Option.some.injEq] at h
      subst h
      split at hv
      · next hpos =>
        simp only [sem_outcome.returned.injEq] at hv
        subst hv
        rw [whalemating_get_set]
        by_cases hxy : x = y
        · subst hxy
          have hu : uinc (s.get x).sem_count = (s.get x).sem_count + 1 := by
            unfold uinc at hpos ⊢
            by_cases hlt : (s.get x).sem_count + 1 < UINT_RANGE
            · exact Nat.mod_eq_of_lt hlt
            · have : (s.get x).sem_count + 1 = UINT_RANGE := by omega
              rw [this, Nat.mod_self] at hpos
              omega
          have hlt : uinc (s.get x).sem_count < UINT_RANGE := by
            unfold uinc
            exact Nat.mod_lt _ (by unfold UINT_RANGE; omega)
          simp [is_call, hu]
          rw [hu] at hlt
          exact hlt
        · have hyx : ¬ y = x := fun e => hxy e.symm
          simp [is_call, hxy, hyx, hx]
      · simp at hv
    · simp at h
    · simp at h
  | male_start i =>
    simp [whale_call_step] at h
    subst h
    simp [is_call, hx]
  | male_end i =>
    simp [whale_call_step] at h
    subst h
    simp [is_call, hx]
  | female_start i =>
    simp [whale_call_step] at h
    subst h
    simp [is_call, hx]
  | female_end i =>
    simp [whale_call_step] at h
    subst h
    simp [is_call, hx]
  | matchmaker_start i =>
    simp [whale_call_step] at h
    subst h
    simp [is_call, hx]
  | matchmaker_end i =>
    simp [whale_call_step] at h
    subst h
    simp [is_call, hx]

theorem whale_step_call (s s1 : whalemating) (k k1 : whale) (h : whale_step s k = some (s1, k1)) :
    ∃ c, k.prog.get? k.pc = some c ∧ whale_call_step s c = some s1 ∧
      k1 = { k with pc := k.pc + 1 } := by
  unfold whale_step at h
  split at h
  · simp at h
  · next c hc =>
    split at h
    · simp at h
    · next s2 hs2 =>
      simp only [Option.some.injEq, Prod.mk.injEq] at h
      exact ⟨c, hc, by rw [hs2, h.1], h.2.symm⟩

theorem calls_made_step (p : whale_call → Bool) (before after : List whale) (k : whale)
    (c : whale_call) (hc : k.prog.get? k.pc = some c) :
    calls_made p (before ++ { k with pc := k.pc + 1 } :: after) =
      calls_made p (before ++ k :: after) + (if p c = true then 1 else 0) := by
  have ht : k.prog.take (k.pc + 1) = k.prog.take k.pc ++ [c] := by
    rw [List.take_succ, ← List.get?_eq_getElem?, hc]
    rfl
  unfold calls_made
  simp only [List.map_append, List.map_cons, List.sum_append, List.sum_cons, ht,
    List.countP_append, List.countP_cons, List.countP_nil]
  omega

theorem mating_counts (s : whalemating) (whales : List whale) (h : mating s whales) :
    (∀ k ∈ whales, runs_whale k) ∧
    ∀ x, (s.get x).sem_count < UINT_RANGE ∧
      (s.get x).sem_count + calls_made (is_call (whale_call.P_sem x)) whales =
        calls_made (is_call (whale_call.V_sem x)) whales := by
  induction h with
  | init =>
    refine ⟨by simp, ?_⟩
    intro x
    cases x <;> simp [whalemating_init, whalemating.get, sem_create, calls_made, UINT_RANGE]
  | arrive s whales k _ hk ih =>
    obtain ⟨hpc, hr⟩ := hk
    constructor
    · intro y hy
      rcases List.mem_append.mp hy with h1 | h1
      · exact ih.1 y h1
      · simp at h1
        rw [h1]
        exact hr
    · intro x
      refine ⟨(ih.2 x).1, ?_⟩
      have := (ih.2 x).2
      unfold calls_made at this ⊢
      simp only [List.map_append, List.map_cons, List.map_nil, List.sum_append, List.sum_cons,
        List.sum_nil, hpc, List.take_zero, List.countP_nil]
      omega
  | step s s1 before after k k1 _ hstep ih =>
    obtain ⟨c, hc, hcs, hk1⟩ := whale_step_call s s1 k k1 hstep
    subst hk1
    constructor
    · intro y hy
      rcases List.mem_append.mp hy with h1 | h1
      · exact ih.1 y (List.mem_append.mpr (Or.inl h1))
      · rcases List.mem_cons.mp h1 with h2 | h2
        · rw [h2]
          exact ih.1 k (by simp)
        · exact ih.1 y (List.mem_append.mpr (Or.inr (List.mem_cons_of_mem _ h2)))
    · intro x
      obtain ⟨hlt, heq⟩ := whale_call_step_count s s1 c x hcs (ih.2 x).1
      refine ⟨hlt, ?_⟩
      rw [calls_made_step _ before after k c hc, calls_made_step _ before after k c hc]
      have := (ih.2 x).2
      omega

theorem whale_order (k : whale) (hwf : runs_whale k) :
    (k.prog.take k.pc).countP is_male_end ≤
      (k.prog.take k.pc).countP (is_call (whale_call.P_sem whale_sem.matchmaker_sem_male_done)) ∧
    (k.prog.take k.pc).countP is_female_end ≤
      (k.prog.take k.pc).countP
        (is_call (whale_call.P_sem whale_sem.matchmaker_sem_female_done)) ∧
    (k.prog.take k.pc).countP (is_call (whale_call.V_sem whale_sem.matchmaker_sem_male_done)) ≤
      (k.prog.take k.pc).countP is_matchmaker_end ∧
    (k.prog.take k.pc).countP
        (is_call (whale_call.V_sem whale_sem.matchmaker_sem_female_done)) ≤
      (k.prog.take k.pc).countP is_matchmaker_end ∧
    (k.prog.take k.pc).countP is_matchmaker_end ≤
      (k.prog.take k.pc).countP is_matchmaker_start := by
  obtain ⟨prog, pc⟩ := k
  obtain ⟨i, h | h | h⟩ := hwf
  all_goals
    simp only at h
    subst h
    simp only
  · by_cases hp : pc < 5
    · interval_cases pc <;>
        simp [male, is_male_end, is_female_end, is_matchmaker_end, is_matchmaker_start, is_call]
    · rw [List.take_of_length_le (by simp [male]; omega)]
      simp [male, is_male_end, is_female_end, is_matchmaker_end, is_matchmaker_start, is_call]
  · by_cases hp : pc < 5
    · interval_cases pc <;>
        simp [female, is_male_end, is_female_end, is_matchmaker_end, is_matchmaker_start,
          is_call]
    · rw [List.take_of_length_le (by simp [female]; omega)]
      simp [female, is_male_end, is_female_end, is_matchmaker_end, is_matchmaker_start, is_call]
  · by_cases hp : pc < 8
    · interval_cases pc <;>
        simp [matchmaker, is_male_end, is_female_end, is_matchmaker_end, is_matchmaker_start,
          is_call]
    · rw [List.take_of_length_le (by simp [matchmaker]; omega)]
      simp [matchmaker, is_male_end, is_female_end, is_matchmaker_end, is_matchmaker_start,
        is_call]

theorem calls_made_le (p q : whale_call → Bool) (whales : List whale)
    (h : ∀ k ∈ whales, (k.prog.take k.pc).countP p ≤ (k.prog.take k.pc).countP q) :
    calls_made p whales ≤ calls_made q whales := by
  induction whales with
  | nil => simp [calls_made]
  | cons k rest ih =>
    have h1 := h k (List.mem_cons_self _ _)
    have h2 := ih (fun x hx => h x (List.mem_cons_of_mem _ hx))
    unfold calls_made at h2 ⊢
    simp only [List.map_cons, List.sum_cons]
    omega

theorem mating_arrivals (whales : List whale) (h : ∀ k ∈ whales, whale_arrives k) :
    mating whalemating_init whales := by
  induction whales using List.reverseRecOn with
  | nil => exact mating.init
  | append_singleton l k ih =>
    exact mating.arrive _ l k (ih (fun x hx => h x (List.mem_append.mpr (Or.inl hx))))
      (h k (by simp))

theorem mating_of_run (sched : List Nat) (s s1 : whalemating) (whales whales1 : List whale)
    (hm : mating s whales) (h : whale_run s whales sched = some (s1, whales1)) :
    mating s1 whales1 := by
  induction sched generalizing s whales with
  | nil =>
    simp only [whale_run, Option.some.injEq, Prod.mk.injEq] at h
    rw [← h.1, ← h.2]
    exact hm
  | cons i rest ih =>
    simp only [whale_run] at h
    split at h
    · simp at h
    · next k hk =>
      split at h
      · simp at h
      · next s2 k2 hstep =>
        have hi : i < whales.length := by
          rcases Nat.lt_or_ge i whales.length with h1 | h1
          · exact h1
          · rw [List.get?_eq_none.mpr h1] at hk
            cases hk
        have hget : whales[i] = k := by
          rw [List.get?_eq_getElem?, List.getElem?_eq_getElem hi] at hk
          simpa using hk
        have e1 : whales = whales.take i ++ k :: whales.drop (i + 1) := by
          rw [← hget]
          exact (List.take_append_drop i whales).symm.trans
            (by rw [List.drop_eq_getElem_cons hi])
        have e2 : whales.set i k2 = whales.take i ++ k2 :: whales.drop (i + 1) := by
          rw [List.set_eq_take_append_cons_drop]
          simp [hi]
        rw [e2] at h
        rw [e1] at hm
        exact ih s2 _ (mating.step s s2 _ _ k k2 hm hstep) h

/-- Claim C25 (whalemating ordering).  In every state that whales running `male`,
`female` or `matchmaker` reach from `whalemating_init`, whatever their numbers and the
order of their steps: the calls of `male_end` made so far are at most the calls of
`matchmaker_end`, and so are the calls of `female_end`; these are at most the calls of
`matchmaker_start`, so no `male_end` or `female_end` comes before a `matchmaker_start`.
Each matchmaker makes one `V` on each of the two `done` semaphores, and for each of them
the counter plus the whales that have passed their `P` is the number of `V` made: one `V`
lets one whale go. -/
theorem whalemating_order (s : whalemating) (whales : List whale) (h : mating s whales) :
    calls_made is_male_end whales ≤ calls_made is_matchmaker_end whales ∧
    calls_made is_female_end whales ≤ calls_made is_matchmaker_end whales ∧
    calls_made is_matchmaker_end whales ≤ calls_made is_matchmaker_start whales ∧
    (0 < calls_made is_male_end whales ∨ 0 < calls_made is_female_end whales →
      0 < calls_made is_matchmaker_start whales) ∧
    s.matchmaker_sem_male_done.sem_count +
        calls_made (is_call (whale_call.P_sem whale_sem.matchmaker_sem_male_done)) whales =
      calls_made (is_call (whale_call.V_sem whale_sem.matchmaker_sem_male_done)) whales ∧
    s.matchmaker_sem_female_done.sem_count +
        calls_made (is_call (whale_call.P_sem whale_sem.matchmaker_sem_female_done)) whales =
      calls_made (is_call (whale_call.V_sem whale_sem.matchmaker_sem_female_done)) whales ∧
    (∀ index,
      (matchmaker index).countP
          (is_call (whale_call.V_sem whale_sem.matchmaker_sem_male_done)) = 1 ∧
      (matchmaker index).countP
          (is_call (whale_call.V_sem whale_sem.matchmaker_sem_female_done)) = 1) := by
  obtain ⟨hwf, hcount⟩ := mating_counts s whales h
  have hm := (hcount whale_sem.matchmaker_sem_male_done).2
  have hf := (hcount whale_sem.matchmaker_sem_female_done).2
  simp only [whalemating.get] at hm hf
  have a1 := calls_made_le is_male_end _ whales (fun k hk => (whale_order k (hwf k hk)).1)
  have a2 := calls_made_le is_female_end _ whales (fun k hk => (whale_order k (hwf k hk)).2.1)
  have a3 := calls_made_le _ is_matchmaker_end whales
    (fun k hk => (whale_order k (hwf k hk)).2.2.1)
  have a4 := calls_made_le _ is_matchmaker_end whales
    (fun k hk => (whale_order k (hwf k hk)).2.2.2.1)
  have a5 := calls_made_le is_matchmaker_end is_matchmaker_start whales
    (fun k hk => (whale_order k (hwf k hk)).2.2.2.2)
  refine ⟨by omega, by omega, a5, ?_, hm, hf, ?_⟩
  · intro hpos
    rcases hpos with hp | hp <;> omega
  · intro index
    simp [matchmaker, is_call]

/-- Instance of claim C25.  A male, a female and a matchmaker arrive; the male and the
female announce themselves, the matchmaker runs up to its `V` for the male, the male
leaves and the matchmaker makes its `V` for the female: one `male_end` and one
`matchmaker_end` have been made, no `female_end`. -/
theorem whalemating_order_witness :
    mating st_male_released [⟨male 0, 5⟩, ⟨female 0, 3⟩, ⟨matchmaker 0, 8⟩] ∧
    calls_made is_male_end [⟨male 0, 5⟩, ⟨female 0, 3⟩, ⟨matchmaker 0, 8⟩] = 1 ∧
    calls_made is_matchmaker_end [⟨male 0, 5⟩, ⟨female 0, 3⟩, ⟨matchmaker 0, 8⟩] = 1 ∧
    calls_made is_male_end [⟨male 0, 5⟩, ⟨female 0, 3⟩, ⟨matchmaker 0, 8⟩] ≤
      calls_made is_matchmaker_end [⟨male 0, 5⟩, ⟨female 0, 3⟩, ⟨matchmaker 0, 8⟩] :=
  have hm : mating st_male_released [⟨male 0, 5⟩, ⟨female 0, 3⟩, ⟨matchmaker 0, 8⟩] :=
    mating_of_run [0, 0, 0, 1, 1, 1, 2, 2, 2, 2, 2, 2, 2, 0, 0, 2] whalemating_init _
      [⟨male 0, 0⟩, ⟨female 0, 0⟩, ⟨matchmaker 0, 0⟩] _
      (mating_arrivals _ (by
        intro k hk
        simp only [List.mem_cons, List.mem_singleton, List.not_mem_nil, or_false] at hk
        rcases hk with h1 | h1 | h1 <;> subst h1
        · exact ⟨rfl, 0, Or.inl rfl⟩
        · exact ⟨rfl, 0, Or.inr (Or.inl rfl)⟩
        · exact ⟨rfl, 0, Or.inr (Or.inr rfl)⟩))
      (by decide)
  ⟨hm, by decide, by decide, (whalemating_order _ _ hm).1⟩

/-! ## The turn of a direction: claim C28 -/

theorem cars_of_set (s : stoplight) (me d : Nat) (node new_node : direction_cycle)
    (hget : s.dcs.get? me = some node) (dcs1 : List direction_cycle)
    (h1 : dcs1 = s.dcs.set me new_node) (s1 : stoplight) (hs1 : s1.dcs = dcs1) :
    cars_of s1 d = if d = me then new_node.num_cars else cars_of s d := by
  have hlt : me < s.dcs.length := by
    rcases Nat.lt_or_ge me s.dcs.length with h | h
    · exact h
    · rw [List.get?_eq_none.mpr h] at hget
      cases hget
  unfold cars_of
  rw [hs1, h1]
  simp only [List.get?_eq_getElem?]
  by_cases hd : d = me
  · subst hd
    simp [List.getElem?_set, hlt]
  · have hne : ¬ me = d := fun e => hd e.symm
    simp [List.getElem?_set, hne, hd]

theorem linked_set (s s1 : stoplight) (me : Nat) (node : direction_cycle) (v : Nat)
    (hl : linked s) (hget : s.dcs.get? me = some node)
    (hs1 : s1.dcs = s.dcs.set me { node with num_cars := v }) : linked s1 := by
  intro i hi
  obtain ⟨ni, hni, hnext⟩ := hl i hi
  have hlt : me < s.dcs.length := by
    rcases Nat.lt_or_ge me s.dcs.length with h | h
    · exact h
    · rw [List.get?_eq_none.mpr h] at hget
      cases hget
  rw [hs1]
  simp only [List.get?_eq_getElem?] at hni hget ⊢
  by_cases hd : me = i
  · subst hd
    rw [hget] at hni
    cases hni
    exact ⟨{ node with num_cars := v }, by simp [List.getElem?_set, hlt], hnext⟩
  · exact ⟨ni, by simp [List.getElem?_set, hd, hni], hnext⟩

theorem advance_cur_stops (fuel : Nat) (s : stoplight) (hl : linked s) (c moves : Nat)
    (hc : c < 4) (r : Option Nat) (moves1 : Nat)
    (h : advance_cur fuel s.dcs (some c) moves = run.done (r, moves1)) :
    ∃ n, r = some n ∧ n < 4 ∧ cars_of s n ≠ 0 ∧ (n = c ∨ cars_of s c = 0) := by
  induction fuel generalizing c moves with
  | zero => simp [advance_cur] at h
  | succ f ih =>
    obtain ⟨node, hnode, hnext⟩ := hl c hc
    simp only [advance_cur, hnode] at h
    have hcars : cars_of s c = node.num_cars := by
      unfold cars_of
      rw [hnode]
    split at h
    · next h0 =>
      rw [hnext] at h
      obtain ⟨n, hr, hn, hnz, _⟩ := ih ((c + 1) % 4) (moves + 1) (Nat.mod_lt _ (by norm_num)) h
      exact ⟨n, hr, hn, hnz, Or.inr (by rw [hcars]; exact h0)⟩
    · next h0 =>
      simp only [run.done.injEq, Prod.mk.injEq] at h
      exact ⟨c, h.1.symm, hc, by rw [hcars]; exact h0, Or.inl rfl⟩

theorem wait_enter_cycle (fuel : Nat) (s s1 : stoplight) (me cur moves : Nat) (go : Bool)
    (hl : linked s) (hcur : s.cur = some cur) (hc : cur < 4)
    (h : direction_cycle_wait_enter fuel s me = run.done (s1, moves, go)) :
    linked s1 ∧ s1.quadrants = s.quadrants ∧ s1.limit = s.limit ∧
    (∀ d, cars_of s1 d = if d = me then uinc (cars_of s me) else cars_of s d) ∧
    ∃ n, s1.cur = some n ∧ n < 4 ∧ cars_of s1 n ≠ 0 ∧ (n = cur ∨ cars_of s1 cur = 0) ∧
      go = decide (n = me) := by
  unfold direction_cycle_wait_enter at h
  split at h
  · simp at h
  · next node hnode =>
    dsimp only at h
    split at h
    · next cur1 mv hadv =>
      simp only [run.done.injEq, Prod.mk.injEq] at h
      obtain ⟨hs1, _, hgo⟩ := h
      have hl2 : linked { s with dcs := s.dcs.set me { node with num_cars := uinc node.num_cars } } :=
        linked_set s _ me node _ hl hnode rfl
      rw [hcur] at hadv
      obtain ⟨n, hr, hn, hnz, hmove⟩ := advance_cur_stops fuel
        { s with dcs := s.dcs.set me { node with num_cars := uinc node.num_cars } } hl2 cur 0 hc
        cur1 mv hadv
      have hcars : ∀ d, cars_of s1 d = if d = me then uinc (cars_of s me) else cars_of s d := by
        intro d
        have := cars_of_set s me d node { node with num_cars := uinc node.num_cars } hnode _ rfl
          s1 (by rw [← hs1])
        rw [this]
        have e : cars_of s me = node.num_cars := by
          unfold cars_of
          rw [hnode]
        rw [e]
      have hsame : ∀ d, cars_of s1 d =
          cars_of { s with dcs := s.dcs.set me { node with num_cars := uinc node.num_cars } } d := by
        intro d
        unfold cars_of
        rw [← hs1]
      refine ⟨?_, by rw [← hs1], by rw [← hs1], hcars, n, by rw [← hs1, hr], hn, ?_, ?_, ?_⟩
      · intro i hi
        obtain ⟨x, hx, hnx⟩ := hl2 i hi
        exact ⟨x, by rw [← hs1]; exact hx, hnx⟩
      · rw [hsame]
        exact hnz
      · rcases hmove with h1 | h1
        · exact Or.inl h1
        · exact Or.inr (by rw [hsame]; exact h1)
      · rw [← hgo, hr]
        simp
    · simp at h
    · simp at h

theorem wait_wake_cycle (fuel : Nat) (s s1 : stoplight) (me cur moves : Nat) (go : Bool)
    (hl : linked s) (hcur : s.cur = some cur) (hc : cur < 4)
    (h : direction_cycle_wait_wake fuel s me = run.done (s1, moves, go)) :
    linked s1 ∧ s1.quadrants = s.quadrants ∧ s1.limit = s.limit ∧
    (∀ d, cars_of s1 d = cars_of s d) ∧
    ∃ n, s1.cur = some n ∧ n < 4 ∧ cars_of s1 n ≠ 0 ∧ (n = cur ∨ cars_of s1 cur = 0) ∧
      go = decide (n = me) := by
  unfold direction_cycle_wait_wake at h
  split at h
  · next cur1 mv hadv =>
    simp only [run.done.injEq, Prod.mk.injEq] at h
    obtain ⟨hs1, _, hgo⟩ := h
    rw [hcur] at hadv
    obtain ⟨n, hr, hn, hnz, hmove⟩ := advance_cur_stops fuel s hl cur 0 hc cur1 mv hadv
    have hsame : ∀ d, cars_of s1 d = cars_of s d := by
      intro d
      unfold cars_of
      rw [← hs1]
    refine ⟨?_, by rw [← hs1], by rw [← hs1], hsame, n, by rw [← hs1, hr], hn, ?_, ?_, ?_⟩
    · intro i hi
      obtain ⟨x, hx, hnx⟩ := hl i hi
      exact ⟨x, by rw [← hs1]; exact hx, hnx⟩
    · rw [hsame]
      exact hnz
    · rcases hmove with h1 | h1
      · exact Or.inl h1
      · exact Or.inr (by rw [hsame]; exact h1)
    · rw [← hgo, hr]
      simp
  · simp at h
  · simp at h

theorem signal_cycle (fuel : Nat) (s s1 : stoplight) (me moves : Nat) (next : Option Nat)
    (hl : linked s)
    (h : direction_cycle_signal fuel s me = run.done (s1, next, moves)) :
    linked s1 ∧ s1.quadrants = s.quadrants ∧ s1.limit = s.limit ∧ s1.cur = s.cur ∧
    (∀ d, cars_of s1 d = if d = me then udec (cars_of s me) else cars_of s d) := by
  unfold direction_cycle_signal at h
  split at h
  · simp at h
  · next node hnode =>
    dsimp only at h
    split at h
    · split at h
      · simp at h
      · simp only [run.done.injEq, Prod.mk.injEq] at h
        obtain ⟨hs1, _, _⟩ := h
        have hcars : ∀ d, cars_of s1 d = if d = me then udec (cars_of s me) else cars_of s d := by
          intro d
          have := cars_of_set s me d node { node with num_cars := udec node.num_cars } hnode _
            rfl s1 (by rw [← hs1])
          rw [this]
          have e : cars_of s me = node.num_cars := by
            unfold cars_of
            rw [hnode]
          rw [e]
        exact ⟨linked_set s s1 me node _ hl hnode (by rw [← hs1]), by rw [← hs1], by rw [← hs1],
          by rw [← hs1], hcars⟩
    · simp at h
    · simp at h

theorem call_step_wait (s s1 : stoplight) (k k1 : car) (num cur : Nat) (hl : linked s)
    (hcur : s.cur = some cur) (hc : cur < 4)
    (h : call_step s k (call.direction_cycle_wait num) = some (s1, k1)) :
    linked s1 ∧
    ∃ me, get_direction_cycle num = some me ∧
      (∀ d, cars_of s1 d =
        if d = me ∧ k.asleep = false then uinc (cars_of s me) else cars_of s d) ∧
      ∃ n, s1.cur = some n ∧ n < 4 ∧ cars_of s1 n ≠ 0 ∧ (n = cur ∨ cars_of s1 cur = 0) ∧
        ((n = me ∧ k1 = k.advance) ∨ (n ≠ me ∧ k1 = { k with asleep := true })) := by
  simp only [call_step] at h
  split at h
  · simp at h
  · next me hme =>
    split at h
    · next s2 mv go hrun =>
      have hk1 : (go = true ∧ k1 = k.advance) ∨ (go = false ∧ k1 = { k with asleep := true }) := by
        split at h
        · next hgo =>
          simp only [Option.some.injEq, Prod.mk.injEq] at h
          exact Or.inl ⟨hgo, h.2.symm⟩
        · next hgo =>
          simp only [Option.some.injEq, Prod.mk.injEq] at h
          exact Or.inr ⟨by simpa using hgo, h.2.symm⟩
      have hs : s2 = s1 := by
        split at h <;>
        · simp only [Option.some.injEq, Prod.mk.injEq] at h
          exact h.1
      subst hs
      by_cases ha : k.asleep = true
      · rw [if_pos ha] at hrun
        obtain ⟨h1, _, _, h4, n, h5, h6, h7, h8, h9⟩ :=
          wait_wake_cycle 4 s s2 me cur mv go hl hcur hc hrun
        refine ⟨h1, me, hme, ?_, n, h5, h6, h7, h8, ?_⟩
        · intro d
          rw [h4 d]
          simp [ha]
        · rcases hk1 with ⟨hg, hk⟩ | ⟨hg, hk⟩
          · rw [hg] at h9
            exact Or.inl ⟨by simpa using h9.symm, hk⟩
          · rw [hg] at h9
            exact Or.inr ⟨by simpa using h9.symm, hk⟩
      · rw [if_neg ha] at hrun
        obtain ⟨h1, _, _, h4, n, h5, h6, h7, h8, h9⟩ :=
          wait_enter_cycle 4 s s2 me cur mv go hl hcur hc hrun
        refine ⟨h1, me, hme, ?_, n, h5, h6, h7, h8, ?_⟩
        · intro d
          rw [h4 d]
          have : k.asleep = false := by simpa using ha
          simp [this]
        · rcases hk1 with ⟨hg, hk⟩ | ⟨hg, hk⟩
          · rw [hg] at h9
            exact Or.inl ⟨by simpa using h9.symm, hk⟩
          · rw [hg] at h9
            exact Or.inr ⟨by simpa using h9.symm, hk⟩
    · simp at h
    · simp at h

theorem call_step_signal (s s1 : stoplight) (k k1 : car) (num : Nat) (hl : linked s)
    (h : call_step s k (call.direction_cycle_signal num) = some (s1, k1)) :
    linked s1 ∧ s1.cur = s.cur ∧ k1 = k.advance ∧
    ∃ me, get_direction_cycle num = some me ∧
      (∀ d, cars_of s1 d = if d = me then udec (cars_of s me) else cars_of s d) := by
  simp only [call_step] at h
  split at h
  · simp at h
  · next me hme =>
    split at h
    · next s2 nx mv hrun =>
      simp only [Option.some.injEq, Prod.mk.injEq] at h
      obtain ⟨hs, hk⟩ := h
      subst hs
      obtain ⟨h1, _, _, h4, h5⟩ := signal_cycle 4 s s2 me mv nx hl hrun
      exact ⟨h1, h4, hk.symm, me, hme, h5⟩
    · simp at h
    · simp at h

theorem call_step_other (s s1 : stoplight) (k k1 : car) (c : call)
    (hw : is_wait c = false) (hs : is_signal c = false)
    (h : call_step s k c = some (s1, k1)) :
    s1.dcs = s.dcs ∧ s1.cur = s.cur ∧ k1 = k.advance := by
  cases c with
  | direction_cycle_wait num => simp [is_wait] at hw
  | direction_cycle_signal num => simp [is_signal] at hs
  | P_limit =>
    simp only [call_step] at h
    split at h
    · simp only [Option.some.injEq, Prod.mk.injEq] at h
      obtain ⟨h1, h2⟩ := h
      subst h1 h2
      exact ⟨rfl, rfl, rfl⟩
    · simp at h
    · simp at h
  | V_limit =>
    simp only [call_step] at h
    split at h
    · simp only [Option.some.injEq, Prod.mk.injEq] at h
      obtain ⟨h1, h2⟩ := h
      subst h1 h2
      exact ⟨rfl, rfl, rfl⟩
    · simp at h
    · simp at h
  | P_quadrant num =>
    simp only [call_step] at h
    split at h
    · simp at h
    · split at h
      · simp at h
      · split at h
        · simp only [Option.some.injEq, Prod.mk.injEq] at h
          obtain ⟨h1, h2⟩ := h
          subst h1 h2
          exact ⟨rfl, rfl, rfl⟩
        · simp at h
        · simp at h
  | V_quadrant num =>
    simp only [call_step] at h
    split at h
    · simp at h
    · split at h
      · simp at h
      · split at h
        · simp only [Option.some.injEq, Prod.mk.injEq] at h
          obtain ⟨h1, h2⟩ := h
          subst h1 h2
          exact ⟨rfl, rfl, rfl⟩
        · simp at h
        · simp at h
  | inQuadrant num index =>
    simp only [call_step, Option.some.injEq, Prod.mk.injEq] at h
    obtain ⟨h1, h2⟩ := h
    subst h1 h2
    exact ⟨rfl, rfl, rfl⟩
  | leaveIntersection index =>
    simp only [call_step, Option.some.injEq, Prod.mk.injEq] at h
    obtain ⟨h1, h2⟩ := h
    subst h1 h2
    exact ⟨rfl, rfl, rfl⟩

theorem route_facts (k : car) (hwf : runs_route k) :
    8 ≤ k.prog.length ∧
    (k.done.any is_wait = true ↔ 1 ≤ k.pc) ∧
    (k.done.any is_signal = true ↔ k.prog.length ≤ k.pc + 1) ∧
    (∀ c, k.prog.get? k.pc = some c →
      (is_wait c = true ↔ k.pc = 0) ∧ (is_signal c = true ↔ k.pc + 2 = k.prog.length) ∧
      (∀ num, c = call.direction_cycle_wait num ∨ c = call.direction_cycle_signal num →
        car_direction k = get_direction_cycle num)) := by
  obtain ⟨prog, pc, asleep⟩ := k
  obtain ⟨d, i, h | h | h⟩ := hwf
  all_goals
    simp only at h
    subst h
    simp only [car.done]
  · refine ⟨by simp [turnright], ?_, ?_, ?_⟩
    · by_cases hp : pc < 8
      · interval_cases pc <;> simp [turnright, is_wait]
      · rw [List.take_of_length_le (by simp [turnright]; omega)]
        simp [turnright, is_wait]
        omega
    · by_cases hp : pc < 8
      · interval_cases pc <;> simp [turnright, is_signal]
      · rw [List.take_of_length_le (by simp [turnright]; omega)]
        simp [turnright, is_signal]
        omega
    · intro c hc
      by_cases hp : pc < 8
      · interval_cases pc <;>
        · simp [turnright] at hc
          subst hc
          simp [turnright, is_wait, is_signal, car_direction]
      · rw [List.get?_eq_none.mpr (by simp [turnright]; omega)] at hc
        cases hc
  · refine ⟨by simp [gostraight], ?_, ?_, ?_⟩
    · by_cases hp : pc < 11
      · interval_cases pc <;> simp [gostraight, is_wait]
      · rw [List.take_of_length_le (by simp [gostraight]; omega)]
        simp [gostraight, is_wait]
        omega
    · by_cases hp : pc < 11
      · interval_cases pc <;> simp [gostraight, is_signal]
      · rw [List.take_of_length_le (by simp [gostraight]; omega)]
        simp [gostraight, is_signal]
        omega
    · intro c hc
      by_cases hp : pc < 11
      · interval_cases pc <;>
        · simp [gostraight] at hc
          subst hc
          simp [gostraight, is_wait, is_signal, car_direction]
      · rw [List.get?_eq_none.mpr (by simp [gostraight]; omega)] at hc
        cases hc
  · refine ⟨by simp [turnleft], ?_, ?_, ?_⟩
    · by_cases hp : pc < 14
      · interval_cases pc <;> simp [turnleft, is_wait]
      · rw [List.take_of_length_le (by simp [turnleft]; omega)]
        simp [turnleft, is_wait]
        omega
    · by_cases hp : pc < 14
      · interval_cases pc <;> simp [turnleft, is_signal]
      · rw [List.take_of_length_le (by simp [turnleft]; omega)]
        simp [turnleft, is_signal]
        omega
    · intro c hc
      by_cases hp : pc < 14
      · interval_cases pc <;>
        · simp [turnleft] at hc
          subst hc
          simp [turnleft, is_wait, is_signal, car_direction]
      · rw [List.get?_eq_none.mpr (by simp [turnleft]; omega)] at hc
        cases hc

theorem car_flags (k : car) (hwf : runs_route k) :
    (has_turn k = true ↔ 1 ≤ k.pc ∧ k.pc + 2 ≤ k.prog.length) ∧
    (in_cycle k = true ↔ (k.asleep = true ∨ 1 ≤ k.pc) ∧ k.pc + 2 ≤ k.prog.length) := by
  obtain ⟨_, hW, hS, _⟩ := route_facts k hwf
  have hS2 : k.done.any is_signal = false ↔ k.pc + 2 ≤ k.prog.length := by
    rw [← Bool.not_eq_true, hS]
    omega
  unfold has_turn in_cycle
  simp only [Bool.and_eq_true, Bool.or_eq_true, Bool.not_eq_true', hW, hS2, and_self]

theorem counted_iff (d : Nat) (t : thread) (k : car) (hwf : runs_route k) :
    counted d (t, k) = true ↔
      car_direction k = some d ∧ (k.asleep = true ∨ 1 ≤ k.pc) ∧ k.pc + 2 ≤ k.prog.length := by
  unfold counted
  simp only [Bool.and_eq_true, decide_eq_true_eq, (car_flags k hwf).2]

theorem countP_replace (p : thread × car → Bool) (before after : List (thread × car))
    (x x1 : thread × car) :
    (before ++ x1 :: after).countP p + (if p x = true then 1 else 0) =
      (before ++ x :: after).countP p + (if p x1 = true then 1 else 0) := by
  simp only [List.countP_append, List.countP_cons]
  omega

theorem countP_pos_of_mem (p : thread × car → Bool) (l : List (thread × car))
    (x : thread × car) (hx : x ∈ l) (hp : p x = true) : 0 < l.countP p :=
  List.countP_pos_iff.mpr ⟨x, hx, hp⟩

theorem countP_lt_of_mem (p : thread × car → Bool) (l : List (thread × car))
    (x : thread × car) (hx : x ∈ l) (hp : ¬ p x = true) : l.countP p < l.length := by
  obtain ⟨a, b, hl⟩ := List.append_of_mem hx
  rw [hl]
  simp only [List.countP_append, List.countP_cons, hp, List.length_append, List.length_cons]
  have h1 := List.countP_le_length p (l := a)
  have h2 := List.countP_le_length p (l := b)
  simp only [Bool.false_eq_true, ↓reduceIte]
  omega

theorem crossing_length (cars : List (thread × car)) (hn : (cars.map Prod.fst).Nodup)
    (hv : ∀ x ∈ cars, thread_ok x.1) : cars.length < UINT_RANGE := by
  have := length_lt_of_nodup (cars.map Prod.fst) hn (by
    intro t ht
    obtain ⟨x, hx, hxt⟩ := List.mem_map.mp ht
    rw [← hxt]
    exact hv x hx)
  simpa using this

theorem invc_replace (s s1 : stoplight) (before after : List (thread × car)) (t : thread)
    (k k1 : car) (hI : InvC s (before ++ (t, k) :: after))
    (hprog : k1.prog = k.prog) (hasl1 : k1.asleep = true → k1.pc = 0)
    (hl1 : linked s1) (hcur1 : ∃ n, n < 4 ∧ s1.cur = some n)
    (hcount1 : ∀ d, d < 4 →
      cars_of s1 d + (if counted d (t, k) = true then 1 else 0) =
        cars_of s d + (if counted d (t, k1) = true then 1 else 0))
    (hturn1 : has_turn k1 = true → car_direction k1 = s1.cur)
    (hmove : s1.cur = s.cur ∨ ∃ old, old < 4 ∧ s.cur = some old ∧ cars_of s1 old = 0) :
    InvC s1 (before ++ (t, k1) :: after) := by
  obtain ⟨⟨hnd, hok⟩, hroutes, _, hcounts, hturn⟩ := hI
  have hwf1 : runs_route k1 := by
    obtain ⟨d, i, hr⟩ := (hroutes (t, k) (by simp)).1
    exact ⟨d, i, by rw [hprog]; exact hr⟩
  have hmem : ∀ x, x ∈ before ++ (t, k1) :: after →
      x = (t, k1) ∨ (x ∈ before ++ (t, k) :: after ∧ x ∈ before ++ after) := by
    intro x hx
    rcases List.mem_append.mp hx with h1 | h1
    · exact Or.inr ⟨List.mem_append.mpr (Or.inl h1), List.mem_append.mpr (Or.inl h1)⟩
    · rcases List.mem_cons.mp h1 with h2 | h2
      · exact Or.inl h2
      · exact Or.inr ⟨List.mem_append.mpr (Or.inr (List.mem_cons_of_mem _ h2)),
          List.mem_append.mpr (Or.inr h2)⟩
  have hroutes1 : ∀ x ∈ before ++ (t, k1) :: after,
      runs_route x.2 ∧ (x.2.asleep = true → x.2.pc = 0) := by
    intro x hx
    rcases hmem x hx with h1 | ⟨h1, _⟩
    · rw [h1]
      exact ⟨hwf1, hasl1⟩
    · exact hroutes x h1
  have hcounts1 : ∀ d, d < 4 → cars_of s1 d = (before ++ (t, k1) :: after).countP (counted d) := by
    intro d hd
    have e := countP_replace (counted d) before after (t, k) (t, k1)
    have ih := hcounts d hd
    have hc1 := hcount1 d hd
    omega
  refine ⟨⟨?_, ?_⟩, hroutes1, ⟨hl1, hcur1⟩, hcounts1, ?_⟩
  · have e : (before ++ (t, k1) :: after).map Prod.fst =
        (before ++ (t, k) :: after).map Prod.fst := by simp
    rw [e]
    exact hnd
  · intro x hx
    rcases hmem x hx with h1 | ⟨h1, _⟩
    · rw [h1]
      exact hok (t, k) (by simp)
    · exact hok x h1
  · intro x hx hturnx
    rcases hmem x hx with h1 | ⟨h1, _⟩
    · rw [h1] at hturnx ⊢
      exact hturn1 hturnx
    · have hdir := hturn x h1 hturnx
      rcases hmove with hm | ⟨old, hold, hsold, hzero⟩
      · rw [hm]
        exact hdir
      · exfalso
        rw [hsold] at hdir
        have hwfx := (hroutes x h1).1
        have hin : in_cycle x.2 = true := by
          have h2 := (car_flags x.2 hwfx).1.mp hturnx
          exact (car_flags x.2 hwfx).2.mpr ⟨Or.inr h2.1, h2.2⟩
        have hcx : counted old x = true := by
          unfold counted
          simp [hdir, hin]
        have hpos := countP_pos_of_mem (counted old) _ x hx hcx
        have := hcounts1 old hold
        omega

theorem invc_step (s s1 : stoplight) (before after : List (thread × car)) (t : thread)
    (k k1 : car) (hI : InvC s (before ++ (t, k) :: after))
    (h : car_step s k = some (s1, k1)) : InvC s1 (before ++ (t, k1) :: after) := by
  have hI0 := hI
  obtain ⟨⟨hnd, hok⟩, hroutes, ⟨hl, cur, hc, hcur⟩, hcounts, hturn⟩ := hI
  have hkmem : (t, k) ∈ before ++ (t, k) :: after := by simp
  obtain ⟨hwf, hasl⟩ := hroutes (t, k) hkmem
  have hlenc := crossing_length _ hnd hok
  unfold car_step at h
  split at h
  · simp at h
  · next c hget =>
    obtain ⟨hlen, _, _, hcall⟩ := route_facts k hwf
    obtain ⟨cw, cs, cdir⟩ := hcall c hget
    have hpc : k.pc < k.prog.length := by
      rcases Nat.lt_or_ge k.pc k.prog.length with h1 | h1
      · exact h1
      · rw [List.get?_eq_none.mpr h1] at hget
        cases hget
    have hwfa : runs_route k.advance := by
      obtain ⟨d, i, hr⟩ := hwf
      exact ⟨d, i, hr⟩
    have hwfs : runs_route { k with asleep := true } := by
      obtain ⟨d, i, hr⟩ := hwf
      exact ⟨d, i, hr⟩
    by_cases hw : is_wait c = true
    · have hpc0 : k.pc = 0 := cw.mp hw
      cases c with
      | direction_cycle_wait num =>
        obtain ⟨hl1, me, hme, hcars, n, hn, hn4, hnz, hmv, hk1⟩ :=
          call_step_wait s s1 k k1 num cur hl hcur hc h
        have hdir : car_direction k = some me := by
          rw [cdir num (Or.inl rfl), hme]
        have hme4 : me < 4 := by
          unfold get_direction_cycle at hme
          split at hme <;> simp at hme <;> omega
        have hkc : ∀ d, counted d (t, k) = true ↔ (me = d ∧ k.asleep = true) := by
          intro d
          rw [counted_iff d t k hwf, hdir]
          simp only [Option.some.injEq]
          constructor
          · rintro ⟨h1, h2, _⟩
            exact ⟨h1, by rcases h2 with h2 | h2; exact h2; omega⟩
          · rintro ⟨h1, h2⟩
            exact ⟨h1, Or.inl h2, by omega⟩
        have hk1c : ∀ d, counted d (t, k1) = true ↔ me = d := by
          intro d
          rcases hk1 with ⟨_, hk⟩ | ⟨_, hk⟩
          · rw [hk, counted_iff d t _ hwfa]
            have : car_direction k.advance = some me := hdir
            rw [this]
            simp only [car.advance, Option.some.injEq]
            constructor
            · rintro ⟨h1, _⟩
              exact h1
            · intro h1
              exact ⟨h1, Or.inr (by omega), by omega⟩
          · rw [hk, counted_iff d t _ hwfs]
            have : car_direction { k with asleep := true } = some me := hdir
            rw [this]
            simp only [Option.some.injEq]
            constructor
            · rintro ⟨h1, _⟩
              exact h1
            · intro h1
              exact ⟨h1, Or.inl trivial, by omega⟩
        have hprog : k1.prog = k.prog := by
          rcases hk1 with ⟨_, hk⟩ | ⟨_, hk⟩
          · rw [hk]
            rfl
          · rw [hk]
        have hasl1 : k1.asleep = true → k1.pc = 0 := by
          rcases hk1 with ⟨_, hk⟩ | ⟨_, hk⟩
          · rw [hk]
            intro hx
            simp [car.advance] at hx
          · rw [hk]
            intro _
            exact hpc0
        apply invc_replace s s1 before after t k k1 hI0 hprog hasl1 hl1 ⟨n, hn4, hn⟩
        · intro d hd
          rw [hcars d]
          by_cases hdm : d = me
          · subst hdm
            by_cases ha : k.asleep = true
            · have a1 : counted d (t, k) = true := (hkc d).mpr ⟨rfl, ha⟩
              have a2 : counted d (t, k1) = true := (hk1c d).mpr rfl
              simp [a1, a2, ha]
            · have a1 : ¬ counted d (t, k) = true := fun hx => ha ((hkc d).mp hx).2
              have a2 : counted d (t, k1) = true := (hk1c d).mpr rfl
              have ha' : k.asleep = false := by simpa using ha
              have hlt := countP_lt_of_mem (counted d) _ (t, k) hkmem a1
              have hcd := hcounts d hd
              have hu : uinc (cars_of s d) = cars_of s d + 1 := uinc_of_lt _ (by omega)
              simp [a1, a2, ha', hu]
          · have a1 : ¬ counted d (t, k) = true := fun hx => hdm ((hkc d).mp hx).1.symm
            have a2 : ¬ counted d (t, k1) = true := fun hx => hdm ((hk1c d).mp hx).symm
            simp [a1, a2, hdm]
        · intro ht1
          rcases hk1 with ⟨hnm, hk⟩ | ⟨_, hk⟩
          · rw [hk, hn, hnm]
            exact hdir
          · rw [hk] at ht1
            have := (car_flags _ hwfs).1.mp ht1
            simp only at this
            omega
        · rcases hmv with h1 | h1
          · left
            rw [hn, hcur, h1]
          · right
            exact ⟨cur, hc, hcur, h1⟩
      | _ => simp [is_wait] at hw
    · by_cases hs : is_signal c = true
      · have hpcs : k.pc + 2 = k.prog.length := cs.mp hs
        cases c with
        | direction_cycle_signal num =>
          obtain ⟨hl1, hcur1, hk1, me, hme, hcars⟩ := call_step_signal s s1 k k1 num hl h
          have hdir : car_direction k = some me := by
            rw [cdir num (Or.inr rfl), hme]
          have hme4 : me < 4 := by
            unfold get_direction_cycle at hme
            split at hme <;> simp at hme <;> omega
          subst hk1
          apply invc_replace s s1 before after t k k.advance hI0 rfl
            (by intro hx; simp [car.advance] at hx) hl1 ⟨cur, hc, by rw [hcur1, hcur]⟩
          · intro d hd
            rw [hcars d]
            have a2 : ¬ counted d (t, k.advance) = true := by
              intro hx
              have := (counted_iff d t _ hwfa).mp hx
              simp only [car.advance] at this
              omega
            by_cases hdm : d = me
            · subst hdm
              have a1 : counted d (t, k) = true :=
                (counted_iff d t k hwf).mpr ⟨hdir, Or.inr (by omega), by omega⟩
              have hpos := countP_pos_of_mem (counted d) _ (t, k) hkmem a1
              have hle := List.countP_le_length (counted d) (l := before ++ (t, k) :: after)
              have hcd := hcounts d hd
              have hu : udec (cars_of s d) = cars_of s d - 1 := udec_pos _ (by omega) (by omega)
              simp [a1, a2, hu]
              omega
            · have a1 : ¬ counted d (t, k) = true := by
                intro hx
                have := ((counted_iff d t k hwf).mp hx).1
                rw [hdir] at this
                simp only [Option.some.injEq] at this
                exact hdm this.symm
              simp [a1, a2, hdm]
          · intro ht1
            have := (car_flags _ hwfa).1.mp ht1
            simp only [car.advance] at this
            omega
          · exact Or.inl hcur1
        | _ => simp [is_signal] at hs
      · have hw' : is_wait c = false := by simpa using hw
        have hs' : is_signal c = false := by simpa using hs
        obtain ⟨hdcs, hcur1, hk1⟩ := call_step_other s s1 k k1 c hw' hs' h
        subst hk1
        have hpc1 : 1 ≤ k.pc := by
          rcases Nat.eq_zero_or_pos k.pc with h0 | h0
          · exact absurd (cw.mpr h0) hw
          · exact h0
        have hpc2 : k.pc + 2 ≠ k.prog.length := fun hx => hs (cs.mpr hx)
        have hl1 : linked s1 := by
          intro i hi
          obtain ⟨x, hx, hnx⟩ := hl i hi
          exact ⟨x, by rw [hdcs]; exact hx, hnx⟩
        have hcars : ∀ d, cars_of s1 d = cars_of s d := by
          intro d
          unfold cars_of
          rw [hdcs]
        apply invc_replace s s1 before after t k k.advance hI0 rfl
          (by intro hx; simp [car.advance] at hx) hl1 ⟨cur, hc, by rw [hcur1, hcur]⟩
        · intro d hd
          rw [hcars d]
          have hiff : counted d (t, k.advance) = true ↔ counted d (t, k) = true := by
            rw [counted_iff d t _ hwfa, counted_iff d t k hwf]
            have : car_direction k.advance = car_direction k := rfl
            rw [this]
            simp only [car.advance]
            constructor
            · rintro ⟨h1, _, h3⟩
              exact ⟨h1, Or.inr hpc1, by omega⟩
            · rintro ⟨h1, _, h3⟩
              exact ⟨h1, Or.inr (by omega), by omega⟩
          by_cases a1 : counted d (t, k) = true
          · simp [a1, hiff.mpr a1]
          · have a2 : ¬ counted d (t, k.advance) = true := fun hx => a1 (hiff.mp hx)
            simp [a1, a2]
        · intro ht1
          have h2 := (car_flags _ hwfa).1.mp ht1
          simp only [car.advance] at h2
          have h3 : has_turn k = true := (car_flags k hwf).1.mpr ⟨hpc1, by omega⟩
          have := hturn (t, k) hkmem h3
          rw [hcur1]
          exact this
        · exact Or.inl hcur1

theorem invc_init : InvC stoplight_init [] := by
  refine ⟨⟨by simp, by simp⟩, by simp, ⟨?_, 0, by omega, rfl⟩, ?_, by simp⟩
  · intro i hi
    interval_cases i <;> simp [stoplight_init, direction_cycle_create]
  · intro d hd
    interval_cases d <;> simp [cars_of, stoplight_init, direction_cycle_create]

theorem invc_arrive (s : stoplight) (cars : List (thread × car)) (t : thread) (k : car)
    (hI : InvC s cars) (ht : thread_ok t) (hfresh : ∀ x ∈ cars, x.1 ≠ t)
    (hk : car_arrives k) : InvC s (cars ++ [(t, k)]) := by
  obtain ⟨⟨hnd, hok⟩, hroutes, hlinks, hcounts, hturn⟩ := hI
  obtain ⟨hpc, hasl, hr⟩ := hk
  have hwf : runs_route k := hr
  have hlen := (route_facts k hwf).1
  refine ⟨⟨?_, ?_⟩, ?_, hlinks, ?_, ?_⟩
  · rw [List.map_append, List.nodup_append]
    refine ⟨hnd, by simp, ?_⟩
    intro a ha hb
    simp only [List.map_cons, List.map_nil, List.mem_singleton] at hb
    obtain ⟨x, hx, hxa⟩ := List.mem_map.mp ha
    exact hfresh x hx (by rw [hxa, hb])
  · intro x hx
    rcases List.mem_append.mp hx with h1 | h1
    · exact hok x h1
    · simp only [List.mem_singleton] at h1
      rw [h1]
      exact ht
  · intro x hx
    rcases List.mem_append.mp hx with h1 | h1
    · exact hroutes x h1
    · simp only [List.mem_singleton] at h1
      rw [h1]
      exact ⟨hwf, fun hx => hpc⟩
  · intro d hd
    have a1 : ¬ counted d (t, k) = true := by
      intro hx
      have := (counted_iff d t k hwf).mp hx
      rw [hasl, hpc] at this
      simp at this
    rw [List.countP_append, List.countP_cons, List.countP_nil, hcounts d hd]
    simp [a1]
  · intro x hx hturnx
    rcases List.mem_append.mp hx with h1 | h1
    · exact hturn x h1 hturnx
    · simp only [List.mem_singleton] at h1
      rw [h1] at hturnx
      have := (car_flags k hwf).1.mp hturnx
      omega

theorem invc_leave (s : stoplight) (before after : List (thread × car)) (t : thread) (k : car)
    (hI : InvC s (before ++ (t, k) :: after)) (hk : k.pc = k.prog.length) :
    InvC s (before ++ after) := by
  obtain ⟨⟨hnd, hok⟩, hroutes, hlinks, hcounts, hturn⟩ := hI
  have hwf := (hroutes (t, k) (by simp)).1
  have hsub : ∀ x, x ∈ before ++ after → x ∈ before ++ (t, k) :: after := by
    intro x hx
    rcases List.mem_append.mp hx with h1 | h1
    · exact List.mem_append.mpr (Or.inl h1)
    · exact List.mem_append.mpr (Or.inr (List.mem_cons_of_mem _ h1))
  refine ⟨⟨?_, fun x hx => hok x (hsub x hx)⟩, fun x hx => hroutes x (hsub x hx), hlinks, ?_,
    fun x hx => hturn x (hsub x hx)⟩
  · have hs : (before ++ after).Sublist (before ++ (t, k) :: after) :=
      List.Sublist.append (List.Sublist.refl _) (List.sublist_cons_self _ _)
    exact List.Nodup.sublist (List.Sublist.map _ hs) hnd
  · intro d hd
    have a1 : ¬ counted d (t, k) = true := by
      intro hx
      have := (counted_iff d t k hwf).mp hx
      omega
    rw [hcounts d hd]
    simp only [List.countP_append, List.countP_cons, a1]
    simp

theorem invc_of_crossing (s : stoplight) (cars : List (thread × car)) (h : crossing s cars) :
    InvC s cars := by
  induction h with
  | init => exact invc_init
  | arrive s cars t k _ ht hfresh hk ih => exact invc_arrive s cars t k ih ht hfresh hk
  | step s s1 before after t k k1 _ hstep ih => exact invc_step s s1 before after t k k1 ih hstep
  | leave s before after t k _ hk ih => exact invc_leave s before after t k ih hk

theorem car_step_turn (s s1 : stoplight) (k k1 : car) (cur : Nat) (hl : linked s)
    (hcur : s.cur = some cur) (hc : cur < 4) (hwf : runs_route k)
    (h : car_step s k = some (s1, k1)) :
    (s1.cur = s.cur ∨ cars_of s1 cur = 0) ∧
    (has_turn k = false → has_turn k1 = true → car_direction k1 = s1.cur) ∧
    (cars_of s cur ≠ 0 → car_direction k ≠ some cur → k.pc = 0 →
      k1.pc = 0 ∧ has_turn k1 = false ∧ s1.cur = s.cur) := by
  unfold car_step at h
  split at h
  · simp at h
  · next c hget =>
    obtain ⟨hlen, _, _, hcall⟩ := route_facts k hwf
    obtain ⟨cw, cs, cdir⟩ := hcall c hget
    have hpc : k.pc < k.prog.length := by
      rcases Nat.lt_or_ge k.pc k.prog.length with h1 | h1
      · exact h1
      · rw [List.get?_eq_none.mpr h1] at hget
        cases hget
    have hwfa : runs_route k.advance := by
      obtain ⟨d, i, hr⟩ := hwf
      exact ⟨d, i, hr⟩
    have hwfs : runs_route { k with asleep := true } := by
      obtain ⟨d, i, hr⟩ := hwf
      exact ⟨d, i, hr⟩
    by_cases hw : is_wait c = true
    · have hpc0 : k.pc = 0 := cw.mp hw
      cases c with
      | direction_cycle_wait num =>
        obtain ⟨hl1, me, hme, hcars, n, hn, hn4, hnz, hmv, hk1⟩ :=
          call_step_wait s s1 k k1 num cur hl hcur hc h
        have hdir : car_direction k = some me := by
          rw [cdir num (Or.inl rfl), hme]
        refine ⟨?_, ?_, ?_⟩
        · rcases hmv with h1 | h1
          · left
            rw [hn, hcur, h1]
          · exact Or.inr h1
        · intro _ ht1
          rcases hk1 with ⟨hnm, hk⟩ | ⟨_, hk⟩
          · rw [hk, hn, hnm]
            exact hdir
          · rw [hk] at ht1
            have := (car_flags _ hwfs).1.mp ht1
            simp only at this
            omega
        · intro hnz0 hne _
          have hmc : ¬ cur = me := by
            intro e
            rw [hdir, e] at hne
            exact hne rfl
          have hsame : cars_of s1 cur = cars_of s cur := by
            rw [hcars cur]
            simp [hmc]
          have hncur : n = cur := by
            rcases hmv with h1 | h1
            · exact h1
            · rw [hsame] at h1
              exact absurd h1 hnz0
          rcases hk1 with ⟨hnm, _⟩ | ⟨_, hk⟩
          · exact absurd (hncur.symm.trans hnm) hmc
          · rw [hk]
            refine ⟨hpc0, ?_, by rw [hn, hcur, hncur]⟩
            cases hb : has_turn { k with asleep := true } with
            | false => rfl
            | true =>
              have := (car_flags _ hwfs).1.mp hb
              simp only at this
              omega
      | _ => simp [is_wait] at hw
    · have hpc1 : 1 ≤ k.pc := by
        rcases Nat.eq_zero_or_pos k.pc with h0 | h0
        · exact absurd (cw.mpr h0) hw
        · exact h0
      have hk1 : s1.cur = s.cur ∧ k1 = k.advance := by
        by_cases hs : is_signal c = true
        · cases c with
          | direction_cycle_signal num =>
            obtain ⟨_, hcur1, hk1, _⟩ := call_step_signal s s1 k k1 num hl h
            exact ⟨hcur1, hk1⟩
          | _ => simp [is_signal] at hs
        · obtain ⟨_, hcur1, hk1⟩ := call_step_other s s1 k k1 c (by simpa using hw)
            (by simpa using hs) h
          exact ⟨hcur1, hk1⟩
      obtain ⟨hcur1, hk⟩ := hk1
      subst hk
      refine ⟨Or.inl hcur1, ?_, ?_⟩
      · intro hf ht1
        have h2 := (car_flags _ hwfa).1.mp ht1
        simp only [car.advance] at h2
        have h3 : has_turn k = true := (car_flags k hwf).1.mpr ⟨hpc1, by omega⟩
        rw [h3] at hf
        cases hf
      · intro _ _ h0
        omega

/-- Claim C28 (a direction keeps the turn until it is empty).  The bodies of
`direction_cycle_wait` and `direction_cycle_signal` being atomic steps and the cars being
threads, in every state that cars reach from `stoplight_init`: the cars that have returned
from `direction_cycle_wait` and not yet called `direction_cycle_signal` all come from the
direction of `cur`; a step moves `cur` only away from a node whose counter is then 0; a
car returns from `direction_cycle_wait` only with `cur` at its own node; and while the
node of `cur` counts a car, a car of another direction that runs `direction_cycle_wait`
does not return from it and leaves `cur` where it is. -/
theorem direction_keeps_turn (s : stoplight) (cars : List (thread × car))
    (h : crossing s cars) :
    (∀ x ∈ cars, ∀ y ∈ cars, has_turn x.2 = true → has_turn y.2 = true →
      car_direction x.2 = car_direction y.2 ∧ car_direction x.2 = s.cur) ∧
    (∀ before after t k s1 k1, cars = before ++ (t, k) :: after →
      car_step s k = some (s1, k1) →
      (s1.cur ≠ s.cur → ∃ old, s.cur = some old ∧ cars_of s1 old = 0) ∧
      (has_turn k = false → has_turn k1 = true → car_direction k1 = s1.cur) ∧
      (∀ cur, s.cur = some cur → cars_of s cur ≠ 0 → car_direction k ≠ some cur → k.pc = 0 →
        k1.pc = 0 ∧ has_turn k1 = false ∧ s1.cur = s.cur)) := by
  have hI := invc_of_crossing s cars h
  constructor
  · intro x hx y hy htx hty
    have h1 := hI.turn x hx htx
    have h2 := hI.turn y hy hty
    exact ⟨by rw [h1, h2], h1⟩
  · intro before after t k s1 k1 hcars hstep
    obtain ⟨hl, cur, hc, hcur⟩ := hI.links
    have hwf : runs_route k := (hI.routes (t, k) (by rw [hcars]; simp)).1
    obtain ⟨h1, h2, h3⟩ := car_step_turn s s1 k k1 cur hl hcur hc hwf hstep
    refine ⟨?_, h2, ?_⟩
    · intro hne
      rcases h1 with h1 | h1
      · exact absurd h1 hne
      · exact ⟨cur, hcur, h1⟩
    · intro cur1 hcur1 hnz hdir hpc
      rw [hcur] at hcur1
      cases hcur1
      exact h3 hnz hdir hpc

theorem crossing_two_cars :
    crossing (cycle_state 1 1 0 0 0)
      [(1, ⟨turnright 0 0, 1, false⟩), (2, ⟨gostraight 1 0, 0, true⟩)] := by
  have c1 : crossing stoplight_init [(1, ⟨turnright 0 0, 0, false⟩)] :=
    crossing.arrive _ [] 1 _ crossing.init (by decide) (by simp) ⟨rfl, rfl, 0, 0, Or.inl rfl⟩
  have c2 : crossing (cycle_state 1 0 0 0 0) [(1, ⟨turnright 0 0, 1, false⟩)] :=
    crossing.step _ _ [] [] 1 _ _ c1 (by decide)
  have c3 : crossing (cycle_state 1 0 0 0 0)
      [(1, ⟨turnright 0 0, 1, false⟩), (2, ⟨gostraight 1 0, 0, false⟩)] :=
    crossing.arrive _ [(1, ⟨turnright 0 0, 1, false⟩)] 2 _ c2 (by decide) (by simp)
      ⟨rfl, rfl, 1, 0, Or.inr (Or.inl rfl)⟩
  exact crossing.step _ _ [(1, ⟨turnright 0 0, 1, false⟩)] [] 2 _ _ c3 (by decide)

/-- Instance of claim C28.  A car from direction 0 has returned from
`direction_cycle_wait`; a car from direction 1 has run it and sleeps.  When the second
car is woken, the node of direction 0 still counting a car, it sleeps again and `cur`
stays at node 0. -/
theorem direction_keeps_turn_witness :
    crossing (cycle_state 1 1 0 0 0)
      [(1, ⟨turnright 0 0, 1, false⟩), (2, ⟨gostraight 1 0, 0, true⟩)] ∧
    car_step (cycle_state 1 1 0 0 0) ⟨gostraight 1 0, 0, true⟩ =
      some (cycle_state 1 1 0 0 0, ⟨gostraight 1 0, 0, true⟩) ∧
    ((⟨gostraight 1 0, 0, true⟩ : car).pc = 0 ∧ has_turn ⟨gostraight 1 0, 0, true⟩ = false ∧
      (cycle_state 1 1 0 0 0).cur = (cycle_state 1 1 0 0 0).cur) :=
  ⟨crossing_two_cars, by decide,
    ((direction_keeps_turn _ _ crossing_two_cars).2
      [(1, ⟨turnright 0 0, 1, false⟩)] [] 2 ⟨gostraight 1 0, 0, true⟩
      (cycle_state 1 1 0 0 0) ⟨gostraight 1 0, 0, true⟩ rfl (by decide)).2.2
      0 rfl (by decide) (by decide) rfl⟩

/-! ## The entry of a car into the direction cycle: claim C18 -/

theorem advance_cur_first (s : stoplight) (hl : linked s) (j : Nat) :
    ∀ (fuel c m : Nat), c < 4 → j < fuel →
      (∀ i, i < j → cars_of s ((c + i) % 4) = 0) → cars_of s ((c + j) % 4) ≠ 0 →
      advance_cur fuel s.dcs (some c) m = run.done (some ((c + j) % 4), m + j) := by
  induction j with
  | zero =>
    intro fuel c m hc hf _ hnz
    obtain ⟨f, rfl⟩ : ∃ f, fuel = f + 1 := ⟨fuel - 1, by omega⟩
    obtain ⟨node, hnode, _⟩ := hl c hc
    have hcars : cars_of s c = node.num_cars := by
      unfold cars_of
      rw [hnode]
    have e0 : (c + 0) % 4 = c := by omega
    rw [e0] at hnz
    rw [e0]
    rw [hcars] at hnz
    simp only [advance_cur, hnode]
    rw [if_neg hnz, Nat.add_zero]
  | succ j ih =>
    intro fuel c m hc hf hz hnz
    obtain ⟨f, rfl⟩ : ∃ f, fuel = f + 1 := ⟨fuel - 1, by omega⟩
    obtain ⟨node, hnode, hnext⟩ := hl c hc
    have hcars : cars_of s c = node.num_cars := by
      unfold cars_of
      rw [hnode]
    have h0 : node.num_cars = 0 := by
      have h1 := hz 0 (by omega)
      have e0 : (c + 0) % 4 = c := by omega
      rw [e0, hcars] at h1
      exact h1
    have e : ∀ i, ((c + 1) % 4 + i) % 4 = (c + (i + 1)) % 4 := by
      intro i
      omega
    have hrec := ih f ((c + 1) % 4) (m + 1) (Nat.mod_lt _ (by norm_num)) (by omega)
      (fun i hi => by rw [e]; exact hz (i + 1) (by omega)) (by rw [e]; exact hnz)
    simp only [advance_cur, hnode, h0, if_true, hnext]
    rw [hrec, e, Nat.add_assoc, Nat.add_comm 1 j]

theorem wait_enter_runs (fuel : Nat) (s : stoplight) (me cur : Nat) (hl : linked s)
    (hcur : s.cur = some cur) (hc : cur < 4) (hme : me < 4)
    (hrange : cars_of s me < UINT_RANGE - 1) (hfuel : 4 ≤ fuel) :
    ∃ s1 moves go,
      direction_cycle_wait_enter fuel s me = run.done (s1, moves, go) ∧
      (∀ d, cars_of s1 d = if d = me then cars_of s me + 1 else cars_of s d) ∧
      linked s1 ∧ s1.quadrants = s.quadrants ∧ s1.limit = s.limit ∧
      s1.cur = some ((cur + moves) % 4) ∧ moves ≤ 3 ∧
      (∀ j, j < moves → cars_of s1 ((cur + j) % 4) = 0) ∧
      cars_of s1 ((cur + moves) % 4) ≠ 0 ∧
      (go = true ↔ (cur + moves) % 4 = me) := by
  obtain ⟨node, hnode, _⟩ := hl me hme
  have hnum : cars_of s me = node.num_cars := by
    unfold cars_of
    rw [hnode]
  have hu : uinc node.num_cars = cars_of s me + 1 := by
    rw [← hnum]
    exact uinc_of_lt _ (by omega)
  have hl2 : linked { s with dcs := s.dcs.set me { node with num_cars := uinc node.num_cars } } :=
    linked_set s _ me node _ hl hnode rfl
  have hcars : ∀ d,
      cars_of { s with dcs := s.dcs.set me { node with num_cars := uinc node.num_cars } } d =
        if d = me then cars_of s me + 1 else cars_of s d := by
    intro d
    rw [cars_of_set s me d node { node with num_cars := uinc node.num_cars } hnode _ rfl _ rfl]
    simp only [hu]
  have hex : ∃ j,
      cars_of { s with dcs := s.dcs.set me { node with num_cars := uinc node.num_cars } }
        ((cur + j) % 4) ≠ 0 := by
    refine ⟨(me + 4 - cur) % 4, ?_⟩
    have e : (cur + (me + 4 - cur) % 4) % 4 = me := by omega
    rw [e, hcars me]
    simp
  have hle : Nat.find hex ≤ 3 := by
    have h1 : Nat.find hex ≤ (me + 4 - cur) % 4 := by
      apply Nat.find_min' hex
      have e : (cur + (me + 4 - cur) % 4) % 4 = me := by omega
      rw [e, hcars me]
      simp
    omega
  have hzero : ∀ i, i < Nat.find hex →
      cars_of { s with dcs := s.dcs.set me { node with num_cars := uinc node.num_cars } }
        ((cur + i) % 4) = 0 := by
    intro i hi
    have := Nat.find_min hex hi
    simpa using this
  have hadv := advance_cur_first _ hl2 (Nat.find hex) fuel cur 0 hc (by omega) hzero
    (Nat.find_spec hex)
  simp only [Nat.zero_add] at hadv
  refine ⟨{ s with dcs := s.dcs.set me { node with num_cars := uinc node.num_cars },
                   cur := some ((cur + Nat.find hex) % 4) },
    Nat.find hex, decide (some ((cur + Nat.find hex) % 4) = some me), ?_, ?_, ?_, rfl, rfl, rfl,
    hle, ?_, ?_, ?_⟩
  · unfold direction_cycle_wait_enter
    simp only [hnode, hcur]
    rw [hadv]
  · exact hcars
  · intro i hi
    obtain ⟨x, hx, hnx⟩ := hl2 i hi
    exact ⟨x, hx, hnx⟩
  · exact hzero
  · exact Nat.find_spec hex
  · simp

/-- Claim C18 (entry part of `direction_cycle_wait`).  In every state that cars reach from
`stoplight_init`, the cycle is the one `stoplight_init` built, with `cur` at one of its
four nodes, and for a car present that is about to call `direction_cycle_wait` with the
node `me`: the counter of `me` is below `2 ^ 32 - 1`, and the entry part of the call comes
to its end whenever its loop is given four rounds.  It adds one to the counter of `me`
and changes no other counter, no link and no semaphore; its loop moves `cur` at most three
times, over nodes without cars only, and leaves it on the first node at or after the old
`cur` that has cars; the caller goes on without sleeping exactly when that node is
`me`. -/
theorem direction_cycle_wait_enter_advances (s : stoplight) (cars : List (thread × car))
    (t : thread) (k : car) (num me fuel : Nat) (h : crossing s cars) (hk : (t, k) ∈ cars)
    (hcall : k.prog.get? k.pc = some (call.direction_cycle_wait num))
    (hawake : k.asleep = false) (hme : get_direction_cycle num = some me)
    (hfuel : 4 ≤ fuel) :
    me < 4 ∧ linked s ∧ cars_of s me < UINT_RANGE - 1 ∧
    ∃ cur s1 moves go, s.cur = some cur ∧ cur < 4 ∧
      direction_cycle_wait_enter fuel s me = run.done (s1, moves, go) ∧
      (∀ d, cars_of s1 d = if d = me then cars_of s me + 1 else cars_of s d) ∧
      linked s1 ∧ s1.quadrants = s.quadrants ∧ s1.limit = s.limit ∧
      s1.cur = some ((cur + moves) % 4) ∧ moves ≤ 3 ∧
      (∀ j, j < moves → cars_of s1 ((cur + j) % 4) = 0) ∧
      cars_of s1 ((cur + moves) % 4) ≠ 0 ∧
      (go = true ↔ (cur + moves) % 4 = me) := by
  have hI := invc_of_crossing s cars h
  obtain ⟨hl, cur, hc, hcur⟩ := hI.links
  have hwf : runs_route k := (hI.routes (t, k) hk).1
  have hme4 : me < 4 := by
    unfold get_direction_cycle at hme
    split at hme <;> simp at hme <;> omega
  obtain ⟨_, _, _, hfacts⟩ := route_facts k hwf
  have hpc : k.pc = 0 := (hfacts _ hcall).1.mp rfl
  have hnot : ¬ counted me (t, k) = true := by
    intro hx
    have := (counted_iff me t k hwf).mp hx
    rw [hawake, hpc] at this
    simp at this
  have hlt := countP_lt_of_mem (counted me) cars (t, k) hk hnot
  have hlen := crossing_length cars hI.ids.1 hI.ids.2
  have hrange : cars_of s me < UINT_RANGE - 1 := by
    rw [hI.counts me hme4]
    omega
  obtain ⟨s1, moves, go, hrun⟩ := wait_enter_runs fuel s me cur hl hcur hc hme4 hrange hfuel
  exact ⟨hme4, hl, hrange, cur, s1, moves, go, hcur, hc, hrun⟩

/-- Instance of claim C18.  A car from direction 2 arrives at the empty intersection and
calls `direction_cycle_wait`: the counter of node 2 becomes 1, `cur` moves from node 0
over the nodes 0 and 1, which count no car, to node 2, and the car goes on without
sleeping. -/
theorem direction_cycle_wait_enter_advances_witness :
    crossing stoplight_init [(1, ⟨turnright 2 0, 0, false⟩)] ∧
    direction_cycle_wait_enter 4 stoplight_init 2 = run.done (cycle_state 0 0 1 0 2, 2, true) ∧
    (2 < 4 ∧ linked stoplight_init ∧ cars_of stoplight_init 2 < UINT_RANGE - 1 ∧
    ∃ cur s1 moves go, stoplight_init.cur = some cur ∧ cur < 4 ∧
      direction_cycle_wait_enter 4 stoplight_init 2 = run.done (s1, moves, go) ∧
      (∀ d, cars_of s1 d = if d = 2 then cars_of stoplight_init 2 + 1
                            else cars_of stoplight_init d) ∧
      linked s1 ∧ s1.quadrants = stoplight_init.quadrants ∧ s1.limit = stoplight_init.limit ∧
      s1.cur = some ((cur + moves) % 4) ∧ moves ≤ 3 ∧
      (∀ j, j < moves → cars_of s1 ((cur + j) % 4) = 0) ∧
      cars_of s1 ((cur + moves) % 4) ≠ 0 ∧
      (go = true ↔ (cur + moves) % 4 = 2)) :=
  ⟨crossing.arrive _ [] 1 _ crossing.init (by decide) (by simp) ⟨rfl, rfl, 2, 0, Or.inl rfl⟩,
    by decide,
    direction_cycle_wait_enter_advances stoplight_init [(1, ⟨turnright 2 0, 0, false⟩)] 1
      ⟨turnright 2 0, 0, false⟩ 2 2 4
      (crossing.arrive _ [] 1 _ crossing.init (by decide) (by simp)
        ⟨rfl, rfl, 2, 0, Or.inl rfl⟩)
      (by simp) (by decide) rfl rfl (by decide)⟩

end Synch
